import Mathlib

/-!
# rtop: stat collection, the CPU delta engine and the ssh host lookup

A shallow embedding of `src/stats.go` (the probes run by `getAllStats`) and of the host
lookup of `src/sshconfig.go` (`Section.getFull`, `getSshEntry`), together with the parts
of the Go runtime they rely on:

* Go `string` values are modelled by `String` (sequences of Unicode code points);
* `uint64` values are natural numbers, arithmetic on them is taken modulo `2 ^ 64`;
* `float32` and `float64` values are modelled by `F32`: exact rationals extended with
  `+Inf`, `-Inf` and `NaN`; `BinFmt.round` rounds an exact result to `binary32` or
  `binary64` (to nearest, ties to even, overflow to an infinity). `getCPU` reads the
  percentages in exact arithmetic and `getCPUF32` rounds every `float32` operation;
  `getUptime` rounds its `float64` product;
* `strconv.ParseFloat` and the conversion of an unrepresentable `float64` are parameters
  (`FloatLib`); `parseFloat` is a rendering of `strconv.ParseFloat` for the examples;
* `bufio.Scanner` with the default `ScanLines` split function is `scanLines`, including
  the `MaxScanTokenSize` limit after which scanning stops;
* a command runner is a function from the command line to the result of `runCommand`;
* a Go map is the list of its entries, the order of the list being the order in which a
  `range` loop enumerates it; `path.Match` is a parameter of `getSshEntry`;
* the package-level variable `preCPU` is threaded explicitly through `Proc`.
-/

namespace Rtop

/-! ## Go runtime: machine integers -/

/-- Number of values of a `uint64`. -/
def u64Size : Nat := 18446744073709551616

/-- Addition of two `uint64` values (wraps around). -/
def wrapAdd (a b : Nat) : Nat := (a + b) % u64Size

/-- Subtraction of two `uint64` values (wraps around). -/
def wrapSub (a b : Nat) : Nat := (a + (u64Size - b % u64Size)) % u64Size

/-- Multiplication of two `uint64` values (wraps around). -/
def wrapMul (a b : Nat) : Nat := (a * b) % u64Size

/-! ## Go runtime: `float32` -/

/-- Values of a `float32`, with finite values kept exact. Signed zeros are not
distinguished: every zero is `+0`. -/
inductive F32 where
  | fin (q : ℚ)
  | posInf
  | negInf
  | nan
  deriving DecidableEq

namespace F32

/-- Conversion `float32(n)` of an unsigned integer. -/
def ofUInt64 (n : Nat) : F32 := fin (n : ℚ)

/-- Quotient `x / y` of two `float32` values; dividing by zero does not trap. -/
def div : F32 → F32 → F32
  | nan, _ => nan
  | _, nan => nan
  | fin a, fin b =>
      if b = 0 then (if a = 0 then nan else if 0 < a then posInf else negInf)
      else fin (a / b)
  | fin _, posInf => fin 0
  | fin _, negInf => fin 0
  | posInf, fin b => if b < 0 then negInf else posInf
  | negInf, fin b => if b < 0 then posInf else negInf
  | posInf, posInf => nan
  | posInf, negInf => nan
  | negInf, posInf => nan
  | negInf, negInf => nan

/-- Product `x * y` of two `float32` values. -/
def mul : F32 → F32 → F32
  | nan, _ => nan
  | _, nan => nan
  | fin a, fin b => fin (a * b)
  | fin a, posInf => if a = 0 then nan else if 0 < a then posInf else negInf
  | fin a, negInf => if a = 0 then nan else if 0 < a then negInf else posInf
  | posInf, fin b => if b = 0 then nan else if 0 < b then posInf else negInf
  | negInf, fin b => if b = 0 then nan else if 0 < b then negInf else posInf
  | posInf, posInf => posInf
  | posInf, negInf => negInf
  | negInf, posInf => negInf
  | negInf, negInf => posInf

/-- A value is finite when it is neither an infinity nor a NaN. -/
def isFinite : F32 → Bool
  | fin _ => true
  | _ => false

/-- The opposite `-x` of a `float32` value. -/
def neg : F32 → F32
  | fin q => fin (-q)
  | posInf => negInf
  | negInf => posInf
  | nan => nan

end F32

/-! ## Go runtime: IEEE-754 rounding of `float32` and `float64` -/

/-- A binary floating-point format: the precision in bits and the exponents of the
smallest and of the largest normal binade. -/
structure BinFmt where
  prec : Nat
  emin : Int
  emax : Int

/-- The format of a Go `float32`. -/
def binary32 : BinFmt := { prec := 24, emin := -126, emax := 127 }

/-- The format of a Go `float64`. -/
def binary64 : BinFmt := { prec := 53, emin := -1022, emax := 1023 }

/-- The integer nearest to `q`, a tie going to the even one. -/
def roundHalfEven (q : ℚ) : Int :=
  if q - ⌊q⌋ < 1 / 2 then ⌊q⌋
  else if 1 / 2 < q - ⌊q⌋ then ⌊q⌋ + 1
  else if ⌊q⌋ % 2 = 0 then ⌊q⌋ else ⌊q⌋ + 1

/-- The loop of `natLog2`, with a bound on the number of halvings. -/
def log2Loop : Nat → Nat → Nat
  | 0, _ => 0
  | fuel + 1, n => if 2 ≤ n then log2Loop fuel (n / 2) + 1 else 0

/-- The position of the leading bit of `n`: `2 ^ natLog2 n ≤ n < 2 ^ (natLog2 n + 1)` for
a positive `n`. -/
def natLog2 (n : Nat) : Nat := log2Loop n n

/-- The exponent `e` of the binade of a positive `q`: `2 ^ e ≤ q < 2 ^ (e + 1)`. -/
def ilog2 (q : ℚ) : Int :=
  if (2 : ℚ) ^ ((natLog2 q.num.toNat : Int) - (natLog2 q.den : Int)) ≤ q
  then (natLog2 q.num.toNat : Int) - (natLog2 q.den : Int)
  else (natLog2 q.num.toNat : Int) - (natLog2 q.den : Int) - 1

namespace BinFmt

/-- The exponent of the unit in the last place at a positive `q`: the values of the
format near `q` are the multiples of `2 ^ ulpExp q`; below the normal range the spacing
is that of the smallest normal binade. -/
def ulpExp (f : BinFmt) (q : ℚ) : Int := max (ilog2 q) f.emin - ((f.prec : Int) - 1)

/-- The multiple of the unit in the last place nearest to a positive `q`, a tie going to
the even multiple. -/
def nearest (f : BinFmt) (q : ℚ) : ℚ :=
  (roundHalfEven (q / (2 : ℚ) ^ f.ulpExp q) : ℚ) * (2 : ℚ) ^ f.ulpExp q

/-- Rounding of a positive `q` to the format: the nearest value, or `+Inf` when that
lies beyond the largest finite value. -/
def roundPos (f : BinFmt) (q : ℚ) : F32 :=
  if (2 : ℚ) ^ (f.emax + 1) ≤ f.nearest q then F32.posInf else F32.fin (f.nearest q)

/-- Rounding of an exact result to the format (round to nearest, ties to even). -/
def round (f : BinFmt) : F32 → F32
  | .fin q =>
      if 0 < q then f.roundPos q
      else if q < 0 then F32.neg (f.roundPos (-q))
      else .fin 0
  | x => x

end BinFmt

/-! ## Go runtime: `unicode.IsSpace`, `strings.Fields`, `bufio.Scanner`, `strconv.ParseUint` -/

/-- Code points for which `unicode.IsSpace` holds. -/
def isSpace (c : Char) : Bool :=
  c = '\t' || c = '\n' || c = '\x0b' || c = '\x0c' || c = '\r' || c = ' ' ||
  c.toNat = 0x85 || c.toNat = 0xA0 || c.toNat = 0x1680 ||
  (0x2000 ≤ c.toNat && c.toNat ≤ 0x200A) ||
  c.toNat = 0x2028 || c.toNat = 0x2029 || c.toNat = 0x202F || c.toNat = 0x205F ||
  c.toNat = 0x3000

/-- Loop of `strings.Fields`: `cur` is the field being read, most recent character first. -/
def fieldsGo (cur : List Char) : List Char → List (List Char)
  | [] => if cur.isEmpty then [] else [cur.reverse]
  | c :: cs =>
      if isSpace c then
        (if cur.isEmpty then fieldsGo [] cs else cur.reverse :: fieldsGo [] cs)
      else fieldsGo (c :: cur) cs

/-- Model of `strings.Fields`: the maximal runs of non-space characters, in order. -/
def fields (s : String) : List String := (fieldsGo [] s.data).map String.mk

/-- Number of bytes of the UTF-8 encoding of a list of characters. -/
def utf8Len (cs : List Char) : Nat := (cs.map Char.utf8Size).sum

/-- The constant `bufio.MaxScanTokenSize`. -/
def maxScanTokenSize : Nat := 65536

/-- Helper `dropCR` of `bufio.ScanLines`, on a line held most recent character first. -/
def dropCR : List Char → List Char
  | '\r' :: cs => cs
  | cs => cs

/-- Loop of a `bufio.Scanner` with `ScanLines`: `cur` is the line being read, most recent
character first. A line that does not fit the scanner buffer ends the scan. -/
def scanGo (cur : List Char) : List Char → List (List Char)
  | [] =>
      if cur.isEmpty then []
      else if maxScanTokenSize ≤ utf8Len cur then []
      else [(dropCR cur).reverse]
  | c :: cs =>
      if c = '\n' then
        (if maxScanTokenSize ≤ utf8Len cur then []
         else (dropCR cur).reverse :: scanGo [] cs)
      else scanGo (c :: cur) cs

/-- The lines a `bufio.Scanner` yields for the text `s`, in order. -/
def scanLines (s : String) : List String := (scanGo [] s.data).map String.mk

/-- Bound `cutoff` of `strconv.ParseUint` for base 10: `MaxUint64 / 10 + 1`. -/
def parseCutoff : Nat := 1844674407370955162

/-- Digit loop of `strconv.ParseUint(s, 10, 64)`. -/
def parseUintGo (n : Nat) : List Char → Option Nat
  | [] => some n
  | c :: cs =>
      if 48 ≤ c.toNat ∧ c.toNat ≤ 57 then
        if parseCutoff ≤ n then none
        else if u64Size ≤ n * 10 + (c.toNat - 48) then none
        else parseUintGo (n * 10 + (c.toNat - 48)) cs
      else none

/-- Model of `strconv.ParseUint(s, 10, 64)`; `none` stands for a non-nil error. -/
def parseUint (s : String) : Option Nat :=
  if s.data.isEmpty then none else parseUintGo 0 s.data

/-- Model of `strings.Index(s, p) == 0`. -/
def startsWith (s p : String) : Bool := p.data.isPrefixOf s.data

/-! ## Data model (`src/stats.go`) -/

/-- Go struct `FSInfo`. -/
structure FSInfo where
  MountPoint : String
  Used : Nat
  Free : Nat
  deriving DecidableEq, Repr

/-- Go struct `NetIntfInfo`. -/
structure NetIntfInfo where
  IPv4 : String := ""
  IPv6 : String := ""
  Rx : Nat := 0
  Tx : Nat := 0
  deriving DecidableEq, Repr

/-- Go struct `cpuRaw`: the raw counters of one `cpu` line. -/
structure cpuRaw where
  User : Nat := 0
  Nice : Nat := 0
  System : Nat := 0
  Idle : Nat := 0
  Iowait : Nat := 0
  Irq : Nat := 0
  SoftIrq : Nat := 0
  Steal : Nat := 0
  Guest : Nat := 0
  Total : Nat := 0
  deriving DecidableEq, Repr

/-- Go struct `CPUInfo`: the percentage breakdown. -/
structure CPUInfo where
  User : F32 := F32.fin 0
  Nice : F32 := F32.fin 0
  System : F32 := F32.fin 0
  Idle : F32 := F32.fin 0
  Iowait : F32 := F32.fin 0
  Irq : F32 := F32.fin 0
  SoftIrq : F32 := F32.fin 0
  Steal : F32 := F32.fin 0
  Guest : F32 := F32.fin 0
  deriving DecidableEq

/-- Go struct `Stats`. `Uptime` is a `time.Duration` (nanoseconds); `NetIntf` is `none`
for a nil map, and otherwise lists the entries of the map, one per key. -/
structure Stats where
  Uptime : Int := 0
  Hostname : String := ""
  Load1 : String := ""
  Load5 : String := ""
  Load10 : String := ""
  RunningProcs : String := ""
  TotalProcs : String := ""
  MemTotal : Nat := 0
  MemFree : Nat := 0
  MemBuffers : Nat := 0
  MemCached : Nat := 0
  SwapTotal : Nat := 0
  SwapFree : Nat := 0
  FSInfos : List FSInfo := []
  NetIntf : Option (List (String × NetIntfInfo)) := none
  CPU : CPUInfo := {}
  deriving DecidableEq

/-- Result of `runCommand`: the captured standard output, or an error. -/
abbrev CmdResult := Except String String

/-- State a probe works on: the package-level variable `preCPU` and the caller's `Stats`. -/
structure Proc where
  preCPU : cpuRaw := {}
  stats : Stats := {}
  deriving DecidableEq

/-! ## `parseCPUFields` and `getCPU` -/

/-- The `switch i` of `parseCPUFields`. -/
def setCPUField (i val : Nat) (stat : cpuRaw) : cpuRaw :=
  match i with
  | 1 => { stat with User := val }
  | 2 => { stat with Nice := val }
  | 3 => { stat with System := val }
  | 4 => { stat with Idle := val }
  | 5 => { stat with Iowait := val }
  | 6 => { stat with Irq := val }
  | 7 => { stat with SoftIrq := val }
  | 8 => { stat with Steal := val }
  | 9 => { stat with Guest := val }
  | _ => stat

/-- One iteration of the loop of `parseCPUFields`, for `fields[i] = f`. -/
def parseCPUStep (stat : cpuRaw) (i : Nat) (f : String) : cpuRaw :=
  match parseUint f with
  | none => stat
  | some val => setCPUField i val { stat with Total := wrapAdd stat.Total val }

/-- The loop of `parseCPUFields` from index `i` on, `fs` being `fields[i:]`. -/
def parseCPULoop (i : Nat) : List String → cpuRaw → cpuRaw
  | [], stat => stat
  | f :: fs, stat => parseCPULoop (i + 1) fs (parseCPUStep stat i f)

/-- Go function `parseCPUFields`. -/
def parseCPUFields (fs : List String) (stat : cpuRaw) : cpuRaw :=
  parseCPULoop 1 (fs.drop 1) stat

/-- Test `len(fields) > 0 && fields[0] == "cpu"` of `getCPU`. -/
def isCPULine (line : String) : Bool :=
  match fields line with
  | [] => false
  | f :: _ => f = "cpu"

/-- The scanner loop of `getCPU`: the sample `nowCPU` it leaves. -/
def scanCPU : List String → cpuRaw
  | [] => {}
  | line :: rest =>
      if isCPULine line then parseCPUFields (fields line) {} else scanCPU rest

/-- The sample `nowCPU` that `getCPU` parses from the command output `out`. -/
def nowCPUOf (out : String) : cpuRaw := scanCPU (scanLines out)

/-- One percentage of `getCPU`, `float32(now - pre) / total * 100`, in exact arithmetic
(`cpuPctF32` below has the roundings). -/
def cpuPct (now pre : Nat) (total : F32) : F32 :=
  F32.mul (F32.div (F32.ofUInt64 (wrapSub now pre)) total) (F32.fin 100)

/-- Go function `getCPU`, given the result of running `/bin/cat /proc/stat`; the
percentages are in exact arithmetic. -/
def getCPU (r : CmdResult) (p : Proc) : Proc × Option String :=
  match r with
  | .error e => (p, some e)
  | .ok lines =>
      let nowCPU := nowCPUOf lines
      if p.preCPU.Total = 0 then ({ p with preCPU := nowCPU }, none)
      else
        let total := F32.ofUInt64 (wrapSub nowCPU.Total p.preCPU.Total)
        let cpu : CPUInfo :=
          { p.stats.CPU with
            User := cpuPct nowCPU.User p.preCPU.User total
            Nice := cpuPct nowCPU.Nice p.preCPU.Nice total
            System := cpuPct nowCPU.System p.preCPU.System total
            Idle := cpuPct nowCPU.Idle p.preCPU.Idle total
            Iowait := cpuPct nowCPU.Iowait p.preCPU.Iowait total
            Irq := cpuPct nowCPU.Irq p.preCPU.Irq total
            SoftIrq := cpuPct nowCPU.SoftIrq p.preCPU.SoftIrq total
            Guest := cpuPct nowCPU.Guest p.preCPU.Guest total }
        ({ preCPU := nowCPU, stats := { p.stats with CPU := cpu } }, none)

/-- One percentage of `getCPU` as the machine computes it: the conversion
`float32(now - pre)`, the quotient and the product are each rounded to the nearest
`float32`. -/
def cpuPctF32 (now pre : Nat) (total : F32) : F32 :=
  binary32.round (F32.mul (binary32.round (F32.div
    (binary32.round (F32.ofUInt64 (wrapSub now pre))) total)) (F32.fin 100))

/-- Go function `getCPU` with the rounding of `float32` arithmetic. It differs from
`getCPU`, which reads the percentages in exact arithmetic, only in the values written to
`stats.CPU`: the conversion `float32(nowCPU.Total - preCPU.Total)` and the three
operations of each percentage round to the nearest `float32`. -/
def getCPUF32 (r : CmdResult) (p : Proc) : Proc × Option String :=
  match r with
  | .error e => (p, some e)
  | .ok lines =>
      let nowCPU := nowCPUOf lines
      if p.preCPU.Total = 0 then ({ p with preCPU := nowCPU }, none)
      else
        let total := binary32.round (F32.ofUInt64 (wrapSub nowCPU.Total p.preCPU.Total))
        let cpu : CPUInfo :=
          { p.stats.CPU with
            User := cpuPctF32 nowCPU.User p.preCPU.User total
            Nice := cpuPctF32 nowCPU.Nice p.preCPU.Nice total
            System := cpuPctF32 nowCPU.System p.preCPU.System total
            Idle := cpuPctF32 nowCPU.Idle p.preCPU.Idle total
            Iowait := cpuPctF32 nowCPU.Iowait p.preCPU.Iowait total
            Irq := cpuPctF32 nowCPU.Irq p.preCPU.Irq total
            SoftIrq := cpuPctF32 nowCPU.SoftIrq p.preCPU.SoftIrq total
            Guest := cpuPctF32 nowCPU.Guest p.preCPU.Guest total }
        ({ preCPU := nowCPU, stats := { p.stats with CPU := cpu } }, none)

/-! ## `getFSInfo` -/

/-- One iteration of the scanner loop of `getFSInfo`; the state is `flag` and
`stats.FSInfos`. -/
def fsStep (st : Nat × List FSInfo) (line : String) : Nat × List FSInfo :=
  let parts := fields line
  let n := parts.length
  let dev := decide (n > 0) && startsWith (parts.getD 0 "") "/dev/"
  if n = 1 ∧ dev = true then (1, st.2)
  else if (n = 5 ∧ st.1 = 1) ∨ (n = 6 ∧ dev = true) then
    let i := st.1
    match parseUint (parts.getD (2 - i) "") with
    | none => (0, st.2)
    | some used =>
        match parseUint (parts.getD (3 - i) "") with
        | none => (0, st.2)
        | some free => (0, st.2 ++ [⟨parts.getD (5 - i) "", used, free⟩])
  else st

/-- The scanner loop of `getFSInfo`. -/
def fsLoop (st : Nat × List FSInfo) (lines : List String) : Nat × List FSInfo :=
  lines.foldl fsStep st

/-- Go function `getFSInfo`, given the result of running `/bin/df -B1`. -/
def getFSInfo (r : CmdResult) (stats : Stats) : Stats × Option String :=
  match r with
  | .error e => (stats, some e)
  | .ok lines => ({ stats with FSInfos := (fsLoop (0, stats.FSInfos) (scanLines lines)).2 }, none)

/-! ## Go runtime: `strings.TrimSpace`, `strings.TrimSuffix`, `float64` -/

/-- Model of `strings.TrimSpace`: leading and trailing white space removed. -/
def trimSpace (s : String) : String :=
  String.mk ((s.data.dropWhile isSpace).reverse.dropWhile isSpace).reverse

/-- Model of `strings.TrimSuffix`: `s` without the trailing `suffix`, when it ends with it. -/
def trimSuffix (s suffix : String) : String :=
  if suffix.data.reverse.isPrefixOf s.data.reverse then
    String.mk (s.data.take (s.data.length - suffix.data.length))
  else s

/-- Model of `strings.Index(s, "/")` and of the two slices taken at that index: the text
before the first `/` and the text after it; `none` when `s` has no `/`. -/
def cutSlash (s : String) : Option (String × String) :=
  match s.data.span (fun c => c != '/') with
  | (before, _ :: after) => some (String.mk before, String.mk after)
  | (_, []) => none

/-- Values of a `float64`, modelled like those of a `float32`: exact finite values,
infinities and NaN; the results of operations are rounded with `binary64.round`. -/
abbrev F64 := F32

/-- The floating-point services of the Go runtime whose results the embedding leaves open:
the syntax and rounding of `strconv.ParseFloat`, and the implementation-dependent result
of converting a `float64` that no `int64` represents. -/
structure FloatLib where
  /-- Result of `strconv.ParseFloat(s, 64)`; `none` stands for a non-nil error. -/
  parseFloat : String → Option F64
  /-- Result of `int64(x)` when `x` is not finite or its integer part is out of range. -/
  convUnrepresentable : F64 → Int

/-- Integer part of a rational: the fraction is discarded (truncation towards zero). -/
def truncRat (q : ℚ) : Int := Int.tdiv q.num q.den

/-- Conversion `int64(x)` of a `float64`, as in `time.Duration(x)`: the fraction is
discarded when the integer part fits an `int64`. -/
def FloatLib.toInt64 (lib : FloatLib) (x : F64) : Int :=
  match x with
  | .fin q =>
      if -9223372036854775808 ≤ truncRat q ∧ truncRat q ≤ 9223372036854775807
      then truncRat q
      else lib.convUnrepresentable x
  | _ => lib.convUnrepresentable x

/-! ## `getUptime`, `getHostname`, `getLoad`, `getMemInfo` -/

/-- Go function `getUptime`, given the result of running `/bin/cat /proc/uptime`. The
product `upsecs * 1e9` is a `float64` product: the exact product rounded to `binary64`. -/
def getUptime (lib : FloatLib) (r : CmdResult) (stats : Stats) : Stats × Option String :=
  match r with
  | .error e => (stats, some e)
  | .ok uptime =>
      let parts := fields uptime
      if parts.length = 2 then
        match lib.parseFloat (parts.getD 0 "") with
        | none => (stats, some "strconv.ParseFloat: parsing failed")
        | some upsecs =>
            ({ stats with
                Uptime :=
                  lib.toInt64 (binary64.round (F32.mul upsecs (F32.fin 1000000000))) }, none)
      else (stats, none)

/-- Go function `getHostname`, given the result of running `/bin/hostname -f`. -/
def getHostname (r : CmdResult) (stats : Stats) : Stats × Option String :=
  match r with
  | .error e => (stats, some e)
  | .ok hostname => ({ stats with Hostname := trimSpace hostname }, none)

/-- Go function `getLoad`, given the result of running `/bin/cat /proc/loadavg`. -/
def getLoad (r : CmdResult) (stats : Stats) : Stats × Option String :=
  match r with
  | .error e => (stats, some e)
  | .ok line =>
      let parts := fields line
      if parts.length = 5 then
        let s1 : Stats :=
          { stats with
            Load1 := parts.getD 0 "", Load5 := parts.getD 1 "", Load10 := parts.getD 2 "" }
        match cutSlash (parts.getD 3 "") with
        | none => (s1, none)
        | some (before, after) =>
            if after.data.isEmpty then ({ s1 with RunningProcs := before }, none)
            else ({ s1 with RunningProcs := before, TotalProcs := after }, none)
      else (stats, none)

/-- One iteration of the scanner loop of `getMemInfo`. -/
def memStep (stats : Stats) (line : String) : Stats :=
  let parts := fields line
  if parts.length = 3 then
    match parseUint (parts.getD 1 "") with
    | none => stats
    | some v =>
        let val := wrapMul v 1024
        let label := parts.getD 0 ""
        if label = "MemTotal:" then { stats with MemTotal := val }
        else if label = "MemFree:" then { stats with MemFree := val }
        else if label = "Buffers:" then { stats with MemBuffers := val }
        else if label = "Cached:" then { stats with MemCached := val }
        else if label = "SwapTotal:" then { stats with SwapTotal := val }
        else if label = "SwapFree:" then { stats with SwapFree := val }
        else stats
  else stats

/-- The scanner loop of `getMemInfo`. -/
def memLoop (stats : Stats) (lines : List String) : Stats := lines.foldl memStep stats

/-- Go function `getMemInfo`, given the result of running `/bin/cat /proc/meminfo`. -/
def getMemInfo (r : CmdResult) (stats : Stats) : Stats × Option String :=
  match r with
  | .error e => (stats, some e)
  | .ok lines => (memLoop stats (scanLines lines), none)

/-! ## `getInterfaces` and `getInterfaceInfo` -/

/-- Contents of a non-nil `map[string]NetIntfInfo`: one pair per key. -/
abbrev NetMap := List (String × NetIntfInfo)

/-- Map lookup `m[k]` with its `ok` flag. -/
def mapGet : NetMap → String → Option NetIntfInfo
  | [], _ => none
  | (k', v) :: rest, k => if k' = k then some v else mapGet rest k

/-- Map assignment `m[k] = v`. -/
def mapSet : NetMap → String → NetIntfInfo → NetMap
  | [], k, v => [(k, v)]
  | (k', v') :: rest, k, v => if k' = k then (k, v) :: rest else (k', v') :: mapSet rest k v

/-- The keys of a map. -/
def mapKeys (m : NetMap) : List String := m.map Prod.fst

/-- One iteration of the scanner loop of `getInterfaces`. -/
def intfStep (m : NetMap) (line : String) : NetMap :=
  let parts := fields line
  if 4 ≤ parts.length ∧ (parts.getD 2 "" = "inet" ∨ parts.getD 2 "" = "inet6") then
    let intfname := parts.getD 1 ""
    match mapGet m intfname with
    | some info =>
        if parts.getD 2 "" = "inet" then mapSet m intfname { info with IPv4 := parts.getD 3 "" }
        else mapSet m intfname { info with IPv6 := parts.getD 3 "" }
    | none =>
        if parts.getD 2 "" = "inet" then mapSet m intfname { IPv4 := parts.getD 3 "" }
        else mapSet m intfname { IPv6 := parts.getD 3 "" }
  else m

/-- The part of `getInterfaces` that follows the choice of the command: the map is made
when it is nil, then every line of `lines` is merged into it. -/
def parseInterfaces (lines : String) (stats : Stats) : Stats :=
  { stats with NetIntf := some ((scanLines lines).foldl intfStep (stats.NetIntf.getD [])) }

/-- Go function `getInterfaces`, given the command runner. The third component lists the
commands passed to `runCommand`, in order. -/
def getInterfaces (run : String → CmdResult) (stats : Stats) :
    Stats × Option String × List String :=
  match run "/bin/ip -o addr" with
  | .ok lines => (parseInterfaces lines stats, none, ["/bin/ip -o addr"])
  | .error _ =>
      match run "/sbin/ip -o addr" with
      | .ok lines => (parseInterfaces lines stats, none, ["/bin/ip -o addr", "/sbin/ip -o addr"])
      | .error e => (stats, some e, ["/bin/ip -o addr", "/sbin/ip -o addr"])

/-- Interface name of a counters line: `strings.TrimSuffix(strings.TrimSpace(parts[0]), ":")`. -/
def counterName (parts : List String) : String := trimSuffix (trimSpace (parts.getD 0 "")) ":"

/-- One iteration of the scanner loop of `getInterfaceInfo`. -/
def infoStep (m : NetMap) (line : String) : NetMap :=
  let parts := fields line
  if parts.length = 17 then
    match mapGet m (counterName parts) with
    | some info =>
        match parseUint (parts.getD 1 "") with
        | none => m
        | some rx =>
            match parseUint (parts.getD 9 "") with
            | none => m
            | some tx => mapSet m (counterName parts) { info with Rx := rx, Tx := tx }
    | none => m
  else m

/-- Go function `getInterfaceInfo`, given the result of running `/bin/cat /proc/net/dev`. -/
def getInterfaceInfo (r : CmdResult) (stats : Stats) : Stats × Option String :=
  match r with
  | .error e => (stats, some e)
  | .ok lines =>
      match stats.NetIntf with
      | none => (stats, none)
      | some m => ({ stats with NetIntf := some ((scanLines lines).foldl infoStep m) }, none)

/-! ## `getAllStats` -/

/-- Go function `getAllStats`: the eight probes in order, each on the result of its own
command; the value returned by a probe is discarded. -/
def getAllStats (lib : FloatLib) (run : String → CmdResult) (p : Proc) : Proc :=
  let s1 := (getUptime lib (run "/bin/cat /proc/uptime") p.stats).1
  let s2 := (getHostname (run "/bin/hostname -f") s1).1
  let s3 := (getLoad (run "/bin/cat /proc/loadavg") s2).1
  let s4 := (getMemInfo (run "/bin/cat /proc/meminfo") s3).1
  let s5 := (getFSInfo (run "/bin/df -B1") s4).1
  let s6 := (getInterfaces run s5).1
  let s7 := (getInterfaceInfo (run "/bin/cat /proc/net/dev") s6).1
  (getCPU (run "/bin/cat /proc/stat") { preCPU := p.preCPU, stats := s7 }).1

/-! ## `src/sshconfig.go`: `Section.getFull` and `getSshEntry` -/

/-- Go struct `Section`. -/
structure Section where
  Hostname : String := ""
  Port : Int := 0
  User : String := ""
  IdentityFile : String := ""
  deriving DecidableEq, Repr

/-- Go method `Section.getFull`: each setting of `s`, or else that of `d` (the parameter
`def` of the source), or else the zero value. -/
def Section.getFull (s : Section) (d : Section) : String × Int × String × String :=
  (if 0 < s.Hostname.data.length then s.Hostname
    else if 0 < d.Hostname.data.length then d.Hostname else "",
   if 0 < s.Port then s.Port else if 0 < d.Port then d.Port else 0,
   if 0 < s.User.data.length then s.User
    else if 0 < d.User.data.length then d.User else "",
   if 0 < s.IdentityFile.data.length then s.IdentityFile
    else if 0 < d.IdentityFile.data.length then d.IdentityFile else "")

/-- Contents of the map `HostInfo`; the order of the list is the order in which a `range`
loop enumerates the map. -/
abbrev HostMap := List (String × Section)

/-- Map lookup `HostInfo[k]` with its `ok` flag. -/
def hostGet : HostMap → String → Option Section
  | [], _ => none
  | (k', v) :: rest, k => if k' = k then some v else hostGet rest k

/-- The `range` loop of `getSshEntry`: the first enumerated entry whose key matches `name`.
The parameter `pm h name` stands for `ok && err == nil` of `path.Match(h, name)`. -/
def firstMatch (pm : String → String → Bool) (name : String) : HostMap → Option Section
  | [] => none
  | (h, s) :: rest => if pm h name then some s else firstMatch pm name rest

/-- Go function `getSshEntry`, given the matcher `path.Match` and the map `HostInfo`. -/
def getSshEntry (pm : String → String → Bool) (hostInfo : HostMap) (name : String) :
    String × Int × String × String :=
  let d : Section :=
    match hostGet hostInfo "*" with
    | some defcfg => defcfg
    | none => { Hostname := name }
  match hostGet hostInfo name with
  | some s => s.getFull d
  | none =>
      match firstMatch pm name hostInfo with
      | some s => s.getFull d
      | none => (d.Hostname, d.Port, d.User, d.IdentityFile)

/-! ## A character-level rendering of `path.Match`

The functions below follow `path.Match`, `scanChunk`, `matchChunk` and `getEsc` of the Go
library on sequences of code points; a malformed pattern and a failed match both give
`none` (resp. `false`), which is all `getSshEntry` looks at. They agree with the
library on ASCII text. -/

/-- Go function `getEsc`: a possibly escaped character of a character class, and the rest
of the chunk, which must not be empty. -/
def getEsc : List Char → Option (Char × List Char)
  | [] => none
  | c :: rest =>
      if c = '-' ∨ c = ']' then none
      else if c = '\\' then
        match rest with
        | [] => none
        | r :: rest2 => if rest2.isEmpty then none else some (r, rest2)
      else if rest.isEmpty then none else some (c, rest)

/-- The loop `parse all ranges` of `matchChunk`, for the character `r` of the name:
whether a range contained `r`, and the chunk after the closing bracket. -/
def matchClass : Nat → Char → Nat → Bool → List Char → Option (Bool × List Char)
  | 0, _, _, _, _ => none
  | fuel + 1, r, nrange, found, chunk =>
      if chunk.head? = some ']' ∧ 0 < nrange then some (found, chunk.drop 1)
      else
        match getEsc chunk with
        | none => none
        | some (lo, chunk1) =>
            if chunk1.head? = some '-' then
              match getEsc (chunk1.drop 1) with
              | none => none
              | some (hi, chunk2) =>
                  matchClass fuel r (nrange + 1) (found || (decide (lo ≤ r) && decide (r ≤ hi)))
                    chunk2
            else matchClass fuel r (nrange + 1) (found || decide (lo = r)) chunk1

/-- Go function `matchChunk`: the rest of `s` when `chunk` matches a beginning of `s`. -/
def matchChunk : Nat → List Char → List Char → Option (List Char)
  | _, [], s => some s
  | 0, _ :: _, _ => none
  | _ + 1, _ :: _, [] => none
  | fuel + 1, c :: chunk, x :: s =>
      if c = '[' then
        let negated := decide (chunk.head? = some '^')
        let chunk1 := if negated then chunk.drop 1 else chunk
        match matchClass (chunk1.length + 1) x 0 false chunk1 with
        | none => none
        | some (found, chunk2) => if found = negated then none else matchChunk fuel chunk2 s
      else if c = '?' then
        if x = '/' then none else matchChunk fuel chunk s
      else if c = '\\' then
        match chunk with
        | [] => none
        | e :: chunk1 => if e = x then matchChunk fuel chunk1 s else none
      else if c = x then matchChunk fuel chunk s else none

/-- The scan of `scanChunk` after the leading stars: the chunk (held in `acc`, most recent
character first) and the rest of the pattern, which is empty or starts with a star. -/
def scanChunkGo (inrange : Bool) (acc : List Char) : List Char → List Char × List Char
  | [] => (acc.reverse, [])
  | c :: rest =>
      if c = '\\' then
        match rest with
        | [] => ((c :: acc).reverse, [])
        | e :: rest2 => scanChunkGo inrange (e :: c :: acc) rest2
      else if c = '[' then scanChunkGo true (c :: acc) rest
      else if c = ']' then scanChunkGo false (c :: acc) rest
      else if c = '*' ∧ inrange = false then (acc.reverse, c :: rest)
      else scanChunkGo inrange (c :: acc) rest

/-- Go function `scanChunk`: whether the segment starts with a star, its chunk, and the
rest of the pattern. -/
def scanChunk (pattern : List Char) : Bool × List Char × List Char :=
  let p := pattern.dropWhile (fun c => c = '*')
  (decide (pattern.head? = some '*'), scanChunkGo false [] p)

/-- The loop of `path.Match` that skips characters of the name (never a `/`) until the
chunk matches; `last` tells that no pattern is left after the chunk. -/
def starSkip (chunk : List Char) (last : Bool) : List Char → Option (List Char)
  | [] => none
  | x :: rest =>
      if x = '/' then none
      else
        match matchChunk (chunk.length + 1) chunk rest with
        | some t => if last ∧ ¬ t.isEmpty then starSkip chunk last rest else some t
        | none => starSkip chunk last rest

/-- The outer loop of `path.Match`. -/
def matchLoop : Nat → List Char → List Char → Bool
  | 0, _, _ => false
  | fuel + 1, pattern, name =>
      if pattern.isEmpty then name.isEmpty
      else
        match scanChunk pattern with
        | (star, chunk, rest) =>
            if star ∧ chunk.isEmpty then ¬ name.contains '/'
            else
              match matchChunk (chunk.length + 1) chunk name with
              | some t =>
                  if t.isEmpty ∨ ¬ rest.isEmpty then matchLoop fuel rest t
                  else if star then
                    match starSkip chunk rest.isEmpty name with
                    | some t2 => matchLoop fuel rest t2
                    | none => false
                  else false
              | none =>
                  if star then
                    match starSkip chunk rest.isEmpty name with
                    | some t2 => matchLoop fuel rest t2
                    | none => false
                  else false

/-- The test `ok && err == nil` on `path.Match(pattern, name)`. -/
def pathMatch (pattern name : String) : Bool :=
  matchLoop (pattern.data.length + 1) pattern.data name.data

/-! ## A rendering of `strconv.ParseFloat(s, 64)` -/

/-- The value of `lower(c)` of `strconv`: the byte with bit 5 set. -/
def lowerByte (c : Char) : Nat := c.toNat ||| 32

/-- A letter `A` to `Z` replaced by its lower case, as `commonPrefixLenIgnoreCase` does. -/
def foldCase (c : Char) : Char :=
  if 65 ≤ c.toNat ∧ c.toNat ≤ 90 then Char.ofNat (c.toNat + 32) else c

/-- The function `special` of `strconv`, on a text it would consume entirely: an optionally
signed `inf` or `infinity`, or `nan`, in any case of the letters. -/
def parseSpecial (s : List Char) : Option F64 :=
  match s with
  | '+' :: r =>
      if r.map foldCase = "inf".data ∨ r.map foldCase = "infinity".data then some F32.posInf
      else none
  | '-' :: r =>
      if r.map foldCase = "inf".data ∨ r.map foldCase = "infinity".data then some F32.negInf
      else none
  | _ =>
      if s.map foldCase = "inf".data ∨ s.map foldCase = "infinity".data then some F32.posInf
      else if s.map foldCase = "nan".data then some F32.nan
      else none

/-- The variables of the digit loop of `readFloat`. The mantissa is kept in full (the
library keeps 19 digits and a truncation flag, and rounds as if it had them all). -/
structure FloatScan where
  mantissa : Nat := 0
  nd : Nat := 0
  dp : Int := 0
  sawdot : Bool := false
  sawdigits : Bool := false
  underscores : Bool := false

/-- The digit loop of `readFloat`, in base 10 or 16: the state at the first character that
ends the mantissa, and the rest of the text from that character on. -/
def readDigits (hex : Bool) : FloatScan → List Char → FloatScan × List Char
  | st, [] => (st, [])
  | st, c :: cs =>
      if c = '_' then readDigits hex { st with underscores := true } cs
      else if c = '.' then
        if st.sawdot then (st, c :: cs)
        else readDigits hex { st with sawdot := true, dp := st.nd } cs
      else if 48 ≤ c.toNat ∧ c.toNat ≤ 57 then
        if c = '0' ∧ st.nd = 0 then
          readDigits hex { st with sawdigits := true, dp := st.dp - 1 } cs
        else
          readDigits hex
            { st with
              sawdigits := true
              nd := st.nd + 1
              mantissa := st.mantissa * (if hex then 16 else 10) + (c.toNat - 48) } cs
      else if hex ∧ 97 ≤ lowerByte c ∧ lowerByte c ≤ 102 then
        readDigits hex
          { st with
            sawdigits := true
            nd := st.nd + 1
            mantissa := st.mantissa * 16 + (lowerByte c - 97 + 10) } cs
      else (st, c :: cs)

/-- The loop over the digits of the exponent: the exponent stops growing at 10000; the
result is the exponent, whether an underscore was met, and the rest of the text. -/
def readExpDigits : Nat → Bool → List Char → Nat × Bool × List Char
  | e, u, [] => (e, u, [])
  | e, u, c :: cs =>
      if c = '_' then readExpDigits e true cs
      else if 48 ≤ c.toNat ∧ c.toNat ≤ 57 then
        readExpDigits (if e < 10000 then e * 10 + (c.toNat - 48) else e) u cs
      else (e, u, c :: cs)

/-- The optional exponent of `readFloat`, after the exponent character: the signed
exponent, whether an underscore was met, and the rest; `none` when no digit follows. -/
def readExponent (s : List Char) : Option (Int × Bool × List Char) :=
  let body := match s with
    | '+' :: r => r
    | '-' :: r => r
    | _ => s
  let esign : Int := match s with
    | '-' :: _ => -1
    | _ => 1
  match body with
  | [] => none
  | c :: _ =>
      if 48 ≤ c.toNat ∧ c.toNat ≤ 57 then
        match readExpDigits 0 false body with
        | (e, u, rest) => some ((e : Int) * esign, u, rest)
      else none

/-- The loop of `underscoreOK`: `saw` is the kind of the last character seen. -/
def underscoreLoop (hex : Bool) : Char → List Char → Bool
  | saw, [] => saw != '_'
  | saw, c :: cs =>
      if (48 ≤ c.toNat ∧ c.toNat ≤ 57) ∨ (hex ∧ 97 ≤ lowerByte c ∧ lowerByte c ≤ 102) then
        underscoreLoop hex '0' cs
      else if c = '_' then
        if saw != '0' then false else underscoreLoop hex '_' cs
      else if saw = '_' then false
      else underscoreLoop hex '!' cs

/-- The function `underscoreOK` of `strconv`: an underscore stands only between two digits
or between a base prefix and a digit. -/
def underscoreOK (s : List Char) : Bool :=
  let body := match s with
    | '+' :: r => r
    | '-' :: r => r
    | _ => s
  match body with
  | c0 :: c1 :: r =>
      if c0 = '0' ∧ (lowerByte c1 = 98 ∨ lowerByte c1 = 111 ∨ lowerByte c1 = 120) then
        underscoreLoop (decide (lowerByte c1 = 120)) '0' r
      else underscoreLoop false '^' body
  | _ => underscoreLoop false '^' body

/-- The exact value of a text that `readFloat` accepts and consumes entirely: an optional
sign, decimal digits with an optional point and an optional exponent `e`, or `0x`,
hexadecimal digits with an optional point and a binary exponent `p`; `none` stands for
a syntax error. -/
def readFloat (s : List Char) : Option ℚ :=
  match s with
  | [] => none
  | _ :: _ =>
    let body := match s with
      | '+' :: r => r
      | '-' :: r => r
      | _ => s
    let sign : ℚ := match s with
      | '-' :: _ => -1
      | _ => 1
    let hex : Bool := match body with
      | c0 :: c1 :: _ :: _ => decide (c0 = '0' ∧ lowerByte c1 = 120)
      | _ => false
    match readDigits hex {} (if hex then body.drop 2 else body) with
    | (st, rest) =>
        if !st.sawdigits then none
        else
          let dp : Int := if st.sawdot then st.dp else st.nd
          let scale : Int := if hex then 4 else 1
          let expChar : Nat := if hex then 112 else 101
          match rest with
          | c :: after =>
              if lowerByte c = expChar then
                match readExponent after with
                | none => none
                | some (e, u, rest2) =>
                    if rest2 ≠ [] then none
                    else if (st.underscores || u) && !underscoreOK s then none
                    else
                      some (sign * st.mantissa *
                        (if hex then 2 else 10 : ℚ) ^ (dp * scale + e - st.nd * scale))
              else none
          | [] =>
              if hex then none
              else if st.underscores && !underscoreOK s then none
              else some (sign * st.mantissa * (10 : ℚ) ^ (dp - st.nd))

/-- A rendering of `strconv.ParseFloat(s, 64)`: the `float64` nearest to the value that
the text denotes; `none` stands for a non-nil error, which is a syntax error or a value
that rounds to an infinity. -/
def parseFloat (s : String) : Option F64 :=
  match parseSpecial s.data with
  | some x => some x
  | none =>
      match readFloat s.data with
      | none => none
      | some q =>
          match binary64.round (F32.fin q) with
          | F32.fin r => some (F32.fin r)
          | _ => none

/-- The instance used in the examples: `strconv.ParseFloat` as rendered by `parseFloat`,
and an unrepresentable conversion gives the least `int64`. -/
def decimalFloat : FloatLib :=
  { parseFloat := parseFloat, convUnrepresentable := fun _ => -9223372036854775808 }

/-! ## Vocabulary of the statements about raw samples -/

/-- The nine positional counters of a raw sample, in column order. -/
def cpuRaw.counters (s : cpuRaw) : List Nat :=
  [s.User, s.Nice, s.System, s.Idle, s.Iowait, s.Irq, s.SoftIrq, s.Steal, s.Guest]

/-- Sum, as a natural number, of the fields that parse as unsigned integers. -/
def numericSum (fs : List String) : Nat := (fs.filterMap parseUint).sum

/-- The counter written by `setCPUField j`, for `j` from 1 to 9 (0 otherwise). -/
def counterAt (s : cpuRaw) (j : Nat) : Nat :=
  match j with
  | 1 => s.User
  | 2 => s.Nice
  | 3 => s.System
  | 4 => s.Idle
  | 5 => s.Iowait
  | 6 => s.Irq
  | 7 => s.SoftIrq
  | 8 => s.Steal
  | 9 => s.Guest
  | _ => 0

/-- Every counter of a raw sample is a `uint64` value. -/
def cpuRaw.InRange (s : cpuRaw) : Prop :=
  s.User < u64Size ∧ s.Nice < u64Size ∧ s.System < u64Size ∧ s.Idle < u64Size ∧
  s.Iowait < u64Size ∧ s.Irq < u64Size ∧ s.SoftIrq < u64Size ∧ s.Steal < u64Size ∧
  s.Guest < u64Size ∧ s.Total < u64Size

/-- The entry a line contributes when it is a normal line: exactly six fields, the first
starting with `/dev/`, fields 2 and 3 numeric. -/
def fsEntryOfNormalLine (l : String) : Option FSInfo :=
  match fields l with
  | [t0, _, t2, t3, _, t5] =>
      if startsWith t0 "/dev/" then
        match parseUint t2, parseUint t3 with
        | some used, some free => some ⟨t5, used, free⟩
        | _, _ => none
      else none
  | _ => none

/-- The first line the scanner yields for `out` whose first field is exactly `cpu`. -/
def firstCPULine (out : String) : Option String :=
  (scanLines out).find? (fun l => decide ((fields l).head? = some "cpu"))

/-- The value of field `k` of `fs`, when there is one and it parses. -/
def valAt (fs : List String) (k : Nat) : Option Nat := fs[k]?.bind parseUint

/-! ## Vocabulary of the statements about the other probes -/

/-- The characters of the text whose lines are `ls`, each line ended by a line feed. -/
def unlinesGo : List String → List Char
  | [] => []
  | l :: ls => l.data ++ '\n' :: unlinesGo ls

/-- The text whose lines are `ls`, each line ended by a line feed. -/
def unlines (ls : List String) : String := String.mk (unlinesGo ls)

/-- A line that a `bufio.Scanner` yields as it is: it holds no line feed, does not end
with a carriage return, and has fewer than `MaxScanTokenSize` bytes. -/
def shortLine (l : String) : Bool :=
  !l.data.contains '\n' && (l.data.getLast? != some '\r') &&
    decide (utf8Len l.data < maxScanTokenSize)

/-- The six labels `getMemInfo` recognizes. -/
def memLabels : List String :=
  ["MemTotal:", "MemFree:", "Buffers:", "Cached:", "SwapTotal:", "SwapFree:"]

/-- The field of `Stats` that goes with a label of `/proc/meminfo`. -/
def memField (label : String) (s : Stats) : Option Nat :=
  if label = "MemTotal:" then some s.MemTotal
  else if label = "MemFree:" then some s.MemFree
  else if label = "Buffers:" then some s.MemBuffers
  else if label = "Cached:" then some s.MemCached
  else if label = "SwapTotal:" then some s.SwapTotal
  else if label = "SwapFree:" then some s.SwapFree
  else none

/-- A line of `/proc/meminfo` with a token count other than 3, an unrecognized label, or a
value that does not parse as an unsigned integer. -/
def memSkipped (l : String) : Bool :=
  decide ((fields l).length ≠ 3) || decide ((fields l).getD 0 "" ∉ memLabels) ||
    (parseUint ((fields l).getD 1 "")).isNone

/-- The `Stats` `s` with the six memory and swap fields of `t`. -/
def Stats.memOf (s t : Stats) : Stats :=
  { s with MemTotal := t.MemTotal, MemFree := t.MemFree, MemBuffers := t.MemBuffers,
           MemCached := t.MemCached, SwapTotal := t.SwapTotal, SwapFree := t.SwapFree }

/-- A command runner in which the commands `cmds` fail with the error `e`. -/
def failing (run : String → CmdResult) (cmds : List String) (e : String) :
    String → CmdResult :=
  fun c => if c ∈ cmds then .error e else run c

/-! ## Inputs used in the examples -/

/-- A meminfo listing whose `MemTotal:` value is `2 ^ 54` kB. -/
def memHuge : String := "MemTotal: 18014398509481984 kB\n"

/-- A meminfo listing with a recognized, a second recognized and an unrecognized label. -/
def memSmall : String := "MemTotal: 1024 kB\nMemFree: 512 kB\nHugePages_Total: 0\nDirty: 8 kB\n"

/-- A meminfo listing in which skipped lines come first and between the parsed lines: an
unrecognized label, a two-token line and a value that is not a number. -/
def memMixed : String :=
  "Dirty: 8 kB\nMemTotal: 1024 kB\nHugePages_Total: 0\nMemFree: x kB\nMemFree: 512 kB\n"

/-- A line of 65536 bytes, holding one token. -/
def longLine : String := String.mk (List.replicate 65536 'x')

/-- A meminfo listing whose first line is `longLine`. -/
def memLongFirst : String := longLine ++ "\nMemFree: 512 kB\n"

/-- The listing `memSmall` without the lines that `getMemInfo` skips. -/
def memSmallKept : String := "MemTotal: 1024 kB\nMemFree: 512 kB\n"

/-- An interface map with the addresses of `eth0` and the counters of an earlier round. -/
def netOne : NetMap := [("eth0", { IPv4 := "10.0.0.1/24", Rx := 5, Tx := 6 })]

/-- A `Stats` whose interface map is `netOne`. -/
def statsNet : Stats := { NetIntf := some netOne }

/-- One line of `/proc/net/dev` for `eth0`: 100 bytes received, 200 transmitted. -/
def devEth0 : String := "eth0: 100 1 0 0 0 0 0 0 200 2 0 0 0 0 0 0"

/-- A `/proc/net/dev` listing: a header line, `lo` and `eth0`. -/
def devListing : String :=
  "face |bytes packets\nlo: 7 1 0 0 0 0 0 0 7 1 0 0 0 0 0 0\n" ++
  "eth0: 100 1 0 0 0 0 0 0 200 2 0 0 0 0 0 0\n"

/-- An address listing of `ip -o addr` for `eth0`. -/
def ipListing : String :=
  "2: eth0    inet 10.0.0.1/24 brd 10.0.0.255 scope global eth0\n" ++
  "2: eth0    inet6 fe80::1/64 scope link\n"

/-- A command runner on a host where `/bin/ip` is missing and `/sbin/ip` works. -/
def runSbinOnly : String → CmdResult := fun c =>
  if c = "/sbin/ip -o addr" then .ok ipListing else .error "Process exited with status 127"

/-- A configuration with the sections `*` and `web*`, enumerated in this order. -/
def hostsStarFirst : HostMap :=
  [("*", { User := "root" }), ("web*", { Hostname := "web.internal", User := "deploy" })]

/-- A configuration with the sections `*`, `web*` and `db1`. -/
def hostsThree : HostMap :=
  [("*", { User := "root" }), ("web*", { Hostname := "web.internal", User := "deploy" }),
   ("db1", { Hostname := "db.internal", Port := 2222 })]

/-- A `cpu` line split into fields, with a tenth counter (guest_nice). -/
def cpuTenFields : List String := ["cpu", "1", "2", "3", "4", "5", "6", "7", "8", "9", "10"]

/-- First round of the example in which the total wraps around. -/
def wrapRound1 : String := "cpu 1 0"

/-- Second round of the example in which the total wraps around: both counters are
`2 ^ 63 + 1`. -/
def wrapRound2 : String := "cpu 9223372036854775809 9223372036854775809"

/-- A disk-free listing in which a lone device line is followed by a normal line. -/
def dfLoneThenNormal : String := "/dev/mapper/vg-root\n/dev/sda1 100 40 60 60% /\n"

/-- A disk-free listing with its header, one normal line and one line without device. -/
def dfHeaderNormal : String :=
  "Filesystem 1B-blocks Used Available Use% Mounted on\n/dev/sda1 100 40 60 60% /\n" ++
  "tmpfs 5 1 4 20% /run\n"

/-- A disk-free listing with a wrapped entry. -/
def dfWrapped : String := "/dev/mapper/vg-root\n 100 40 60 60% /\n"

/-- The same entry on one line. -/
def dfUnwrapped : String := "/dev/mapper/vg-root 100 40 60 60% /\n"

/-- A disk-free listing of three normal lines, two of them for the same mount point. -/
def dfThree : String :=
  "/dev/sda1 100 40 60 60% /\n/dev/sdb1 200 50 150 25% /mnt\n/dev/sdc1 300 10 290 4% /mnt\n"

/-- A `Stats` that already holds one filesystem entry. -/
def statsWithFS : Stats := { FSInfos := [⟨"/boot", 7, 9⟩] }

/-- A warm engine state: user 10, idle 20, total 30, and a fresh `Stats`. -/
def warmProc : Proc := { preCPU := { User := 10, Idle := 20, Total := 30 }, stats := {} }

/-- A command runner on a host where every command of the probes succeeds. -/
def runAll : String → CmdResult := fun c =>
  if c = "/bin/cat /proc/uptime" then .ok "12345.67 8901.23\n"
  else if c = "/bin/hostname -f" then .ok "web1\n"
  else if c = "/bin/cat /proc/loadavg" then .ok "0.10 0.20 0.30 3/245 9876\n"
  else if c = "/bin/cat /proc/meminfo" then .ok memSmall
  else if c = "/bin/df -B1" then .ok dfThree
  else if c = "/bin/ip -o addr" then .ok ipListing
  else if c = "/sbin/ip -o addr" then .ok ipListing
  else if c = "/bin/cat /proc/net/dev" then .ok devListing
  else if c = "/bin/cat /proc/stat" then .ok "cpu 60 0 0 70\n"
  else .error "Process exited with status 127"

/-- A process whose `Stats` still holds the host name of an earlier round. -/
def procOldHost : Proc := { stats := { Hostname := "old" } }

/-! ## Machine integers: basic facts -/

lemma wrapSub_of_le {a b : Nat} (hb : b ≤ a) (ha : a < u64Size) : wrapSub a b = a - b := by
  simp only [wrapSub, u64Size] at *
  omega

lemma wrapSub_self (a : Nat) : wrapSub a a = 0 := by
  simp only [wrapSub, u64Size]
  omega

lemma wrapAdd_lt (a b : Nat) : wrapAdd a b < u64Size := by
  simp only [wrapAdd, u64Size]
  omega

lemma parseUintGo_lt : ∀ (cs : List Char) (n v : Nat), n < u64Size →
    parseUintGo n cs = some v → v < u64Size
  | [], n, v, hn, h => by
      simp only [parseUintGo, Option.some.injEq] at h
      omega
  | c :: cs, n, v, hn, h => by
      simp only [parseUintGo] at h
      split_ifs at h with h1 h2 h3
      exact parseUintGo_lt cs _ v (by omega) h

lemma parseUint_lt {s : String} {v : Nat} (h : parseUint s = some v) : v < u64Size := by
  unfold parseUint at h
  split_ifs at h
  exact parseUintGo_lt _ 0 v (by decide) h

/-! ## Raw samples stay within `uint64` -/

lemma setCPUField_inRange (i val : Nat) (s : cpuRaw) (hv : val < u64Size)
    (hs : s.InRange) : (setCPUField i val s).InRange := by
  obtain ⟨h1, h2, h3, h4, h5, h6, h7, h8, h9, h10⟩ := hs
  unfold setCPUField
  split <;> exact ⟨by assumption, by assumption, by assumption, by assumption,
    by assumption, by assumption, by assumption, by assumption, by assumption,
    by assumption⟩

lemma parseCPUStep_inRange (s : cpuRaw) (i : Nat) (f : String) (hs : s.InRange) :
    (parseCPUStep s i f).InRange := by
  unfold parseCPUStep
  cases hp : parseUint f with
  | none => exact hs
  | some val =>
      obtain ⟨h1, h2, h3, h4, h5, h6, h7, h8, h9, _⟩ := hs
      exact setCPUField_inRange i val _ (parseUint_lt hp)
        ⟨h1, h2, h3, h4, h5, h6, h7, h8, h9, wrapAdd_lt _ _⟩

lemma parseCPULoop_inRange : ∀ (fs : List String) (i : Nat) (s : cpuRaw), s.InRange →
    (parseCPULoop i fs s).InRange
  | [], _, _, hs => hs
  | f :: fs, i, s, hs =>
      parseCPULoop_inRange fs (i + 1) _ (parseCPUStep_inRange s i f hs)

lemma zero_inRange : ({} : cpuRaw).InRange := by
  simp [cpuRaw.InRange, u64Size]

lemma scanCPU_inRange : ∀ lines : List String, (scanCPU lines).InRange
  | [] => zero_inRange
  | l :: rest => by
      unfold scanCPU
      split_ifs
      · exact parseCPULoop_inRange _ _ _ zero_inRange
      · exact scanCPU_inRange rest

lemma nowCPUOf_inRange (out : String) : (nowCPUOf out).InRange := scanCPU_inRange _

/-! ## Rounding to the nearest integer -/

lemma roundHalfEven_intCast (n : Int) : roundHalfEven (n : ℚ) = n := by
  simp [roundHalfEven]

lemma roundHalfEven_ge_floor (q : ℚ) : ⌊q⌋ ≤ roundHalfEven q := by
  unfold roundHalfEven
  split_ifs <;> omega

lemma roundHalfEven_le_floor_succ (q : ℚ) : roundHalfEven q ≤ ⌊q⌋ + 1 := by
  unfold roundHalfEven
  split_ifs <;> omega

lemma roundHalfEven_mono {a b : ℚ} (h : a ≤ b) : roundHalfEven a ≤ roundHalfEven b := by
  rcases (Int.floor_mono h).lt_or_eq with hlt | heq
  · calc roundHalfEven a ≤ ⌊a⌋ + 1 := roundHalfEven_le_floor_succ a
      _ ≤ ⌊b⌋ := hlt
      _ ≤ roundHalfEven b := roundHalfEven_ge_floor b
  · unfold roundHalfEven
    rw [heq]
    have hab : a - (⌊b⌋ : ℚ) ≤ b - (⌊b⌋ : ℚ) := by linarith
    split_ifs <;> first | omega | (exfalso; linarith)

lemma abs_roundHalfEven_sub (q : ℚ) : |(roundHalfEven q : ℚ) - q| ≤ 1 / 2 := by
  have h1 := Int.floor_le q
  have h2 := Int.lt_floor_add_one q
  unfold roundHalfEven
  rw [abs_le]
  split_ifs <;> push_cast <;> constructor <;> linarith

lemma roundHalfEven_nonneg {q : ℚ} (h : 0 ≤ q) : 0 ≤ roundHalfEven q := by
  have := roundHalfEven_mono h
  rwa [show ((0 : ℚ)) = ((0 : Int) : ℚ) by simp, roundHalfEven_intCast] at this

/-! ## The binade of a positive rational -/

lemma log2Loop_spec : ∀ (fuel n : Nat), n ≤ fuel → 0 < n →
    2 ^ log2Loop fuel n ≤ n ∧ n < 2 ^ (log2Loop fuel n + 1)
  | 0, n, h, hn => by omega
  | fuel + 1, n, h, hn => by
      unfold log2Loop
      split_ifs with h2
      · have hle : n / 2 ≤ fuel := by omega
        have hpos : 0 < n / 2 := by omega
        obtain ⟨ih1, ih2⟩ := log2Loop_spec fuel (n / 2) hle hpos
        constructor
        · rw [pow_succ]
          omega
        · rw [pow_succ]
          omega
      · simp
        omega

lemma natLog2_spec {n : Nat} (hn : 0 < n) :
    2 ^ natLog2 n ≤ n ∧ n < 2 ^ (natLog2 n + 1) :=
  log2Loop_spec n n le_rfl hn

lemma two_zpow_pos (e : Int) : (0 : ℚ) < (2 : ℚ) ^ e := zpow_pos (by norm_num) e

lemma two_zpow_le {a b : Int} (h : a ≤ b) : (2 : ℚ) ^ a ≤ (2 : ℚ) ^ b :=
  zpow_le_zpow_right₀ (by norm_num) h

lemma two_zpow_lt_iff {a b : Int} : (2 : ℚ) ^ a < (2 : ℚ) ^ b ↔ a < b :=
  zpow_lt_zpow_iff_right₀ (by norm_num)

lemma two_zpow_succ (e : Int) : (2 : ℚ) ^ (e + 1) = 2 ^ e * 2 := by
  rw [zpow_add₀ (by norm_num), zpow_one]

lemma two_zpow_pred (e : Int) : (2 : ℚ) ^ (e - 1) = 2 ^ e / 2 := by
  rw [zpow_sub₀ (by norm_num), zpow_one]

lemma ilog2_spec {q : ℚ} (hq : 0 < q) :
    (2 : ℚ) ^ ilog2 q ≤ q ∧ q < (2 : ℚ) ^ (ilog2 q + 1) := by
  have hnum : 0 < q.num := Rat.num_pos.mpr hq
  have hden : 0 < q.den := q.den_pos
  have hnat : 0 < q.num.toNat := by omega
  obtain ⟨a1, a2⟩ := natLog2_spec hnat
  obtain ⟨b1, b2⟩ := natLog2_spec hden
  have hqe : q = (q.num.toNat : ℚ) / (q.den : ℚ) := by
    have h1 : ((q.num.toNat : Int) : ℚ) = (q.num : ℚ) := by
      rw [Int.toNat_of_nonneg hnum.le]
    have h2 : ((q.num.toNat : Int) : ℚ) = (q.num.toNat : ℚ) := by push_cast; rfl
    rw [← h2, h1]
    exact (Rat.num_div_den q).symm
  have hdq : (0 : ℚ) < (q.den : ℚ) := by exact_mod_cast hden
  have A1 : (2 : ℚ) ^ (natLog2 q.num.toNat : Int) ≤ (q.num.toNat : ℚ) := by
    rw [zpow_natCast]; exact_mod_cast a1
  have A2 : (q.num.toNat : ℚ) < (2 : ℚ) ^ ((natLog2 q.num.toNat : Int) + 1) := by
    rw [show ((natLog2 q.num.toNat : Int) + 1) = ((natLog2 q.num.toNat + 1 : Nat) : Int) by
      push_cast; rfl, zpow_natCast]
    exact_mod_cast a2
  have B1 : (2 : ℚ) ^ (natLog2 q.den : Int) ≤ (q.den : ℚ) := by
    rw [zpow_natCast]; exact_mod_cast b1
  have B2 : (q.den : ℚ) < (2 : ℚ) ^ ((natLog2 q.den : Int) + 1) := by
    rw [show ((natLog2 q.den : Int) + 1) = ((natLog2 q.den + 1 : Nat) : Int) by
      push_cast; rfl, zpow_natCast]
    exact_mod_cast b2
  unfold ilog2
  generalize (natLog2 q.num.toNat : Int) = la at A1 A2 ⊢
  generalize (natLog2 q.den : Int) = lb at B1 B2 ⊢
  generalize (q.num.toNat : ℚ) = a at hqe A1 A2
  generalize (q.den : ℚ) = b at hqe hdq B1 B2
  have pa := two_zpow_pos la
  have pb := two_zpow_pos lb
  have hsub : (2 : ℚ) ^ (la - lb) = 2 ^ la / 2 ^ lb := zpow_sub₀ (by norm_num) la lb
  split_ifs with hc
  · refine ⟨hc, ?_⟩
    rw [two_zpow_succ, hsub, hqe, div_mul_eq_mul_div, div_lt_div_iff₀ hdq pb]
    rw [two_zpow_succ] at A2
    nlinarith
  · push_neg at hc
    constructor
    · rw [two_zpow_pred, hsub, hqe, div_div, div_le_div_iff₀ (by positivity) hdq]
      rw [two_zpow_succ] at B2
      nlinarith
    · rw [sub_add_cancel]
      exact hc

lemma ilog2_eq {q : ℚ} {e : Int} (h1 : (2 : ℚ) ^ e ≤ q) (h2 : q < (2 : ℚ) ^ (e + 1)) :
    ilog2 q = e := by
  have hq : 0 < q := lt_of_lt_of_le (two_zpow_pos e) h1
  obtain ⟨s1, s2⟩ := ilog2_spec hq
  have l1 : e < ilog2 q + 1 := two_zpow_lt_iff.mp (lt_of_le_of_lt h1 s2)
  have l2 : ilog2 q < e + 1 := two_zpow_lt_iff.mp (lt_of_le_of_lt s1 h2)
  omega

lemma ilog2_mono {a b : ℚ} (ha : 0 < a) (h : a ≤ b) : ilog2 a ≤ ilog2 b := by
  obtain ⟨a1, _⟩ := ilog2_spec ha
  obtain ⟨_, b2⟩ := ilog2_spec (lt_of_lt_of_le ha h)
  have : ilog2 a < ilog2 b + 1 := two_zpow_lt_iff.mp (lt_of_le_of_lt (a1.trans h) b2)
  omega

/-! ## Rounding to a binary format -/

namespace BinFmt

lemma ulpExp_mono (f : BinFmt) {a b : ℚ} (ha : 0 < a) (h : a ≤ b) :
    f.ulpExp a ≤ f.ulpExp b := by
  have := ilog2_mono ha h
  unfold ulpExp
  omega

lemma nearest_nonneg (f : BinFmt) {q : ℚ} (hq : 0 ≤ q) : 0 ≤ f.nearest q := by
  unfold nearest
  have h1 : (0 : ℚ) ≤ q / (2 : ℚ) ^ f.ulpExp q := div_nonneg hq (two_zpow_pos _).le
  have h2 : (0 : ℚ) ≤ (roundHalfEven (q / (2 : ℚ) ^ f.ulpExp q) : ℚ) := by
    exact_mod_cast roundHalfEven_nonneg h1
  exact mul_nonneg h2 (two_zpow_pos _).le

/-- A power of two with a non-negative exponent is an integer. -/
lemma two_zpow_intCast {k : Int} (hk : 0 ≤ k) : (2 : ℚ) ^ k = (((2 : Int) ^ k.toNat : Int) : ℚ) := by
  have : k = (k.toNat : Int) := (Int.toNat_of_nonneg hk).symm
  conv_lhs => rw [this]
  rw [zpow_natCast]
  push_cast
  rfl

/-- The rounded value of a positive `q` does not exceed the top of its binade. -/
lemma nearest_le_top (f : BinFmt) (hp : 1 ≤ f.prec) {q : ℚ} (hq : 0 < q) :
    f.nearest q ≤ (2 : ℚ) ^ (max (ilog2 q) f.emin + 1) := by
  have hu := two_zpow_pos (f.ulpExp q)
  have hlt : q < (2 : ℚ) ^ (max (ilog2 q) f.emin + 1) :=
    lt_of_lt_of_le (ilog2_spec hq).2 (two_zpow_le (by omega))
  have hk : (0 : Int) ≤ (f.prec : Int) := by omega
  have hsplit : (2 : ℚ) ^ (max (ilog2 q) f.emin + 1) =
      (2 : ℚ) ^ (f.prec : Int) * (2 : ℚ) ^ f.ulpExp q := by
    rw [← zpow_add₀ (by norm_num)]
    congr 1
    unfold ulpExp
    omega
  rw [hsplit] at hlt ⊢
  have hdiv : q / (2 : ℚ) ^ f.ulpExp q ≤ (2 : ℚ) ^ (f.prec : Int) := by
    rw [div_le_iff₀ hu]
    exact hlt.le
  rw [two_zpow_intCast hk] at hdiv ⊢
  have hr := roundHalfEven_mono hdiv
  rw [roundHalfEven_intCast] at hr
  unfold nearest
  have hrq : (roundHalfEven (q / (2 : ℚ) ^ f.ulpExp q) : ℚ) ≤
      (((2 : Int) ^ (f.prec : Int).toNat : Int) : ℚ) := by exact_mod_cast hr
  exact mul_le_mul_of_nonneg_right hrq hu.le

/-- The rounded value of a `q` in the normal range is at least the bottom of its
binade. -/
lemma nearest_ge_bottom (f : BinFmt) (hp : 1 ≤ f.prec) {q : ℚ} (hq : 0 < q)
    (hn : f.emin ≤ ilog2 q) : (2 : ℚ) ^ ilog2 q ≤ f.nearest q := by
  have hu := two_zpow_pos (f.ulpExp q)
  have hge : (2 : ℚ) ^ ilog2 q ≤ q := (ilog2_spec hq).1
  have hk : (0 : Int) ≤ (f.prec : Int) - 1 := by omega
  have hsplit : (2 : ℚ) ^ ilog2 q = (2 : ℚ) ^ ((f.prec : Int) - 1) * (2 : ℚ) ^ f.ulpExp q := by
    rw [← zpow_add₀ (by norm_num)]
    congr 1
    unfold ulpExp
    omega
  rw [hsplit] at hge ⊢
  have hdiv : (2 : ℚ) ^ ((f.prec : Int) - 1) ≤ q / (2 : ℚ) ^ f.ulpExp q := by
    rw [le_div_iff₀ hu]
    exact hge
  rw [two_zpow_intCast hk] at hdiv ⊢
  have hr := roundHalfEven_mono hdiv
  rw [roundHalfEven_intCast] at hr
  unfold nearest
  have hrq : (((2 : Int) ^ ((f.prec : Int) - 1).toNat : Int) : ℚ) ≤
      (roundHalfEven (q / (2 : ℚ) ^ f.ulpExp q) : ℚ) := by exact_mod_cast hr
  exact mul_le_mul_of_nonneg_right hrq hu.le

/-- Rounding to nearest is monotone. -/
lemma nearest_mono (f : BinFmt) (hp : 1 ≤ f.prec) {a b : ℚ} (ha : 0 < a) (h : a ≤ b) :
    f.nearest a ≤ f.nearest b := by
  have hb : 0 < b := lt_of_lt_of_le ha h
  rcases (f.ulpExp_mono ha h).lt_or_eq with hlt | heq
  · have hlog : max (ilog2 a) f.emin < ilog2 b ∧ f.emin ≤ ilog2 b := by
      unfold ulpExp at hlt
      omega
    calc f.nearest a ≤ (2 : ℚ) ^ (max (ilog2 a) f.emin + 1) := f.nearest_le_top hp ha
      _ ≤ (2 : ℚ) ^ ilog2 b := two_zpow_le (by omega)
      _ ≤ f.nearest b := f.nearest_ge_bottom hp hb hlog.2
  · unfold nearest
    rw [heq]
    have hu := two_zpow_pos (f.ulpExp b)
    have hdiv : a / (2 : ℚ) ^ f.ulpExp b ≤ b / (2 : ℚ) ^ f.ulpExp b :=
      div_le_div_of_nonneg_right h hu.le
    have hr : (roundHalfEven (a / (2 : ℚ) ^ f.ulpExp b) : ℚ) ≤
        (roundHalfEven (b / (2 : ℚ) ^ f.ulpExp b) : ℚ) := by
      exact_mod_cast roundHalfEven_mono hdiv
    exact mul_le_mul_of_nonneg_right hr hu.le

/-- The rounding error is at most half a unit in the last place. -/
lemma abs_nearest_sub (f : BinFmt) (q : ℚ) :
    |f.nearest q - q| ≤ (2 : ℚ) ^ f.ulpExp q / 2 := by
  have hu := two_zpow_pos (f.ulpExp q)
  have h := abs_roundHalfEven_sub (q / (2 : ℚ) ^ f.ulpExp q)
  have e : f.nearest q - q =
      ((roundHalfEven (q / (2 : ℚ) ^ f.ulpExp q) : ℚ) - q / (2 : ℚ) ^ f.ulpExp q) *
        (2 : ℚ) ^ f.ulpExp q := by
    unfold nearest
    field_simp
  rw [e, abs_mul, abs_of_pos hu]
  calc |(roundHalfEven (q / (2 : ℚ) ^ f.ulpExp q) : ℚ) - q / (2 : ℚ) ^ f.ulpExp q| *
        (2 : ℚ) ^ f.ulpExp q ≤ 1 / 2 * (2 : ℚ) ^ f.ulpExp q :=
        mul_le_mul_of_nonneg_right h hu.le
    _ = (2 : ℚ) ^ f.ulpExp q / 2 := by ring

/-- In the normal range the relative rounding error is at most `2 ^ (-prec)`. -/
lemma abs_nearest_sub_le (f : BinFmt) {q : ℚ} (hq : 0 < q) (hn : f.emin ≤ ilog2 q) :
    |f.nearest q - q| ≤ q / (2 : ℚ) ^ (f.prec : Int) := by
  have h := f.abs_nearest_sub q
  have hge : (2 : ℚ) ^ ilog2 q ≤ q := (ilog2_spec hq).1
  have hp := two_zpow_pos (f.prec : Int)
  have hsplit : (2 : ℚ) ^ f.ulpExp q / 2 = (2 : ℚ) ^ ilog2 q / (2 : ℚ) ^ (f.prec : Int) := by
    rw [← two_zpow_pred, ← zpow_sub₀ (by norm_num)]
    congr 1
    unfold ulpExp
    omega
  rw [hsplit] at h
  exact h.trans (div_le_div_of_nonneg_right hge hp.le)

/-- A multiple of the unit in the last place is left unchanged. -/
lemma nearest_of_multiple (f : BinFmt) {q : ℚ} (n : Int)
    (h : q = (n : ℚ) * (2 : ℚ) ^ f.ulpExp q) : f.nearest q = q := by
  have hu := two_zpow_pos (f.ulpExp q)
  have hd : q / (2 : ℚ) ^ f.ulpExp q = (n : ℚ) := by
    rw [div_eq_iff hu.ne']
    exact h
  unfold nearest
  rw [hd, roundHalfEven_intCast]
  exact h.symm

end BinFmt

namespace BinFmt

lemma nearest_zero (f : BinFmt) : f.nearest 0 = 0 := by
  simp [nearest, roundHalfEven]

lemma nearest_mono_of_nonneg (f : BinFmt) (hp : 1 ≤ f.prec) {a b : ℚ} (ha : 0 ≤ a)
    (h : a ≤ b) : f.nearest a ≤ f.nearest b := by
  rcases ha.lt_or_eq with hpos | hz
  · exact f.nearest_mono hp hpos h
  · rw [← hz, nearest_zero]
    exact f.nearest_nonneg (ha.trans h)

/-- Rounding a non-negative value gives the nearest value of the format when that is
below `2 ^ (emax + 1)`. -/
lemma round_fin_of_nonneg (f : BinFmt) {q : ℚ} (hq : 0 ≤ q)
    (hlt : f.nearest q < (2 : ℚ) ^ (f.emax + 1)) : f.round (.fin q) = .fin (f.nearest q) := by
  rcases hq.lt_or_eq with hpos | hz
  · simp only [round, hpos, if_true, roundPos, not_le.mpr hlt, if_false]
  · subst hz
    simp [round, nearest_zero]

end BinFmt

/-! ## `float32` arithmetic of one percentage -/

lemma binary32_one : binary32.nearest 1 = 1 := by decide!

lemma binary32_hundred : binary32.nearest 100 = 100 := by decide!

lemma binary32_top : binary32.nearest 18446744073709551616 = 18446744073709551616 := by
  decide!

lemma binary32_small :
    binary32.nearest (1 / 18446744073709551616) = 1 / 18446744073709551616 := by decide!

lemma binary32_limit : (18446744073709551616 : ℚ) < (2 : ℚ) ^ (binary32.emax + 1) := by
  decide!

lemma ilog2_one : ilog2 1 = 0 := by decide!

lemma ilog2_small : ilog2 (1 / 18446744073709551616) = -64 := by decide!

/-- In `float32` a value of at least `2 ^ (-64)` is in the normal range. -/
lemma binary32_normal {q : ℚ} (h : 1 / 18446744073709551616 ≤ q) :
    binary32.emin ≤ ilog2 q := by
  have := ilog2_mono (by norm_num) h
  rw [ilog2_small] at this
  have he : binary32.emin = -126 := rfl
  omega

/-- The relative error of one `float32` rounding, in the normal range. -/
lemma binary32_error {q : ℚ} (h : 1 / 18446744073709551616 ≤ q) :
    |binary32.nearest q - q| ≤ q / 16777216 := by
  have hq : 0 < q := lt_of_lt_of_le (by norm_num) h
  have := binary32.abs_nearest_sub_le hq (binary32_normal h)
  have hp : (2 : ℚ) ^ (binary32.prec : Int) = 16777216 := by
    have : (binary32.prec : Int) = 24 := rfl
    rw [this]
    norm_num
  rwa [hp] at this

/-- The value `float32(d) / float32(D) * 100` computed with three roundings, for
`0 ≤ d ≤ D` and `0 < D < 2 ^ 64`: it is finite, between 0 and 100, and exceeds the exact
quotient `100 * d / D` by a factor of at most `(1 + 2 ^ (-24)) ^ 3 / (1 - 2 ^ (-24))`. -/
lemma pctF32_bound (d D : Nat) (hd : d ≤ D) (hD : 0 < D) (hD64 : D < 18446744073709551616) :
    ∃ P : ℚ,
      binary32.round (F32.mul (binary32.round (F32.div (binary32.round (F32.ofUInt64 d))
        (binary32.round (F32.ofUInt64 D)))) (F32.fin 100)) = F32.fin P ∧
      0 ≤ P ∧ P ≤ 100 ∧
      P * D * (1 - 1 / 16777216) ≤ 100 * (1 + 1 / 16777216) ^ 3 * d := by
  have hp : 1 ≤ binary32.prec := by decide
  have hdQ : (0 : ℚ) ≤ (d : ℚ) := Nat.cast_nonneg d
  have hD1 : (1 : ℚ) ≤ (D : ℚ) := by exact_mod_cast hD
  have hDtop : (D : ℚ) ≤ 18446744073709551616 := by exact_mod_cast hD64.le
  have hdD : (d : ℚ) ≤ (D : ℚ) := by exact_mod_cast hd
  -- the rounded total
  have T1 : 1 ≤ binary32.nearest D := by
    have := binary32.nearest_mono hp (by norm_num) hD1
    rwa [binary32_one] at this
  have T2 : binary32.nearest D ≤ 18446744073709551616 := by
    have := binary32.nearest_mono hp (by linarith) hDtop
    rwa [binary32_top] at this
  have Te := binary32_error (q := (D : ℚ)) (by linarith)
  have rT : binary32.round (F32.ofUInt64 D) = F32.fin (binary32.nearest D) :=
    binary32.round_fin_of_nonneg (by linarith) (lt_of_le_of_lt T2 binary32_limit)
  -- the rounded difference
  have A0 : 0 ≤ binary32.nearest d := binary32.nearest_nonneg hdQ
  have A2 : binary32.nearest d ≤ binary32.nearest D :=
    binary32.nearest_mono_of_nonneg hp hdQ hdD
  have rA : binary32.round (F32.ofUInt64 d) = F32.fin (binary32.nearest d) :=
    binary32.round_fin_of_nonneg hdQ
      (lt_of_le_of_lt (A2.trans T2) binary32_limit)
  generalize hT : binary32.nearest D = T at T1 T2 Te rT A2
  generalize hA : binary32.nearest d = A at A0 A2 rA
  have hTpos : 0 < T := by linarith
  -- the quotient
  have hdiv : F32.div (F32.fin A) (F32.fin T) = F32.fin (A / T) := by
    simp [F32.div, hTpos.ne']
  have Q0 : 0 ≤ A / T := div_nonneg A0 hTpos.le
  have Q1 : A / T ≤ 1 := (div_le_one hTpos).mpr A2
  have R0 : 0 ≤ binary32.nearest (A / T) := binary32.nearest_nonneg Q0
  have R1 : binary32.nearest (A / T) ≤ 1 := by
    have := binary32.nearest_mono_of_nonneg hp Q0 Q1
    rwa [binary32_one] at this
  have rQ : binary32.round (F32.fin (A / T)) = F32.fin (binary32.nearest (A / T)) :=
    binary32.round_fin_of_nonneg Q0
      (lt_of_le_of_lt R1 (lt_trans (by norm_num) binary32_limit))
  -- the product
  have M0 : 0 ≤ binary32.nearest (A / T) * 100 := mul_nonneg R0 (by norm_num)
  have M1 : binary32.nearest (A / T) * 100 ≤ 100 := by linarith
  have P0 : 0 ≤ binary32.nearest (binary32.nearest (A / T) * 100) :=
    binary32.nearest_nonneg M0
  have P1 : binary32.nearest (binary32.nearest (A / T) * 100) ≤ 100 := by
    have := binary32.nearest_mono_of_nonneg hp M0 M1
    rwa [binary32_hundred] at this
  have rP : binary32.round (F32.fin (binary32.nearest (A / T) * 100)) =
      F32.fin (binary32.nearest (binary32.nearest (A / T) * 100)) :=
    binary32.round_fin_of_nonneg M0
      (lt_of_le_of_lt P1 (lt_trans (by norm_num) binary32_limit))
  refine ⟨binary32.nearest (binary32.nearest (A / T) * 100), ?_, P0, P1, ?_⟩
  · rw [rA, rT, hdiv, rQ]
    simp only [F32.mul]
    exact rP
  -- the accumulated error
  rcases Nat.eq_zero_or_pos d with hz | hpos
  · subst hz
    have hA0 : A = 0 := by
      rw [← hA]
      simpa using binary32.nearest_zero
    rw [hA0]
    simp [binary32.nearest_zero]
  · have hd1 : (1 : ℚ) ≤ (d : ℚ) := by exact_mod_cast hpos
    have Ae := binary32_error (q := (d : ℚ)) (by linarith)
    rw [hA] at Ae
    have A1 : 1 ≤ A := by
      have := binary32.nearest_mono hp (by norm_num) hd1
      rwa [binary32_one, hA] at this
    have Qlow : 1 / 18446744073709551616 ≤ A / T := by
      rw [div_le_div_iff₀ (by norm_num) hTpos]
      linarith
    have Qe := binary32_error Qlow
    have Rlow : 1 / 18446744073709551616 ≤ binary32.nearest (A / T) := by
      have := binary32.nearest_mono hp (by norm_num) Qlow
      rwa [binary32_small] at this
    have Pe := binary32_error (q := binary32.nearest (A / T) * 100) (by linarith)
    generalize binary32.nearest (binary32.nearest (A / T) * 100) = P at P0 P1 Pe ⊢
    generalize hR : binary32.nearest (A / T) = R at R0 R1 Qe Rlow Pe
    have e1 : P ≤ R * 100 * (1 + 1 / 16777216) := by
      have := (abs_le.mp Pe).2
      linarith
    have e2 : R ≤ A / T * (1 + 1 / 16777216) := by
      have := (abs_le.mp Qe).2
      linarith
    have e3 : A ≤ d * (1 + 1 / 16777216) := by
      have := (abs_le.mp Ae).2
      linarith
    have e4 : D * (1 - 1 / 16777216) ≤ T := by
      have := (abs_le.mp Te).1
      linarith
    have e2T : R * T ≤ A * (1 + 1 / 16777216) := by
      have := mul_le_mul_of_nonneg_right e2 hTpos.le
      rwa [mul_right_comm, div_mul_cancel₀ _ hTpos.ne'] at this
    calc P * D * (1 - 1 / 16777216) = P * (D * (1 - 1 / 16777216)) := by ring
      _ ≤ P * T := mul_le_mul_of_nonneg_left e4 P0
      _ ≤ R * 100 * (1 + 1 / 16777216) * T := mul_le_mul_of_nonneg_right e1 hTpos.le
      _ = 100 * (1 + 1 / 16777216) * (R * T) := by ring
      _ ≤ 100 * (1 + 1 / 16777216) * (A * (1 + 1 / 16777216)) :=
          mul_le_mul_of_nonneg_left e2T (by norm_num)
      _ = 100 * (1 + 1 / 16777216) ^ 2 * A := by ring
      _ ≤ 100 * (1 + 1 / 16777216) ^ 2 * (d * (1 + 1 / 16777216)) :=
          mul_le_mul_of_nonneg_left e3 (by norm_num)
      _ = 100 * (1 + 1 / 16777216) ^ 3 * d := by ring

/-! ## `getCPU`: the warm step -/

lemma cpuPct_of_le {now pre nowT preT : Nat} (h : pre ≤ now) (hn : now < u64Size)
    (hT : preT < nowT) (hnT : nowT < u64Size) :
    cpuPct now pre (F32.ofUInt64 (wrapSub nowT preT)) =
      F32.fin (100 * ((now : ℚ) - pre) / ((nowT : ℚ) - preT)) := by
  unfold cpuPct
  rw [wrapSub_of_le h hn, wrapSub_of_le hT.le hnT]
  have hne : ((nowT - preT : Nat) : ℚ) ≠ 0 := by
    have : 0 < nowT - preT := Nat.sub_pos_of_lt hT
    exact_mod_cast this.ne'
  simp only [F32.ofUInt64, F32.div, hne, if_false, F32.mul]
  congr 1
  rw [Nat.cast_sub h, Nat.cast_sub hT.le]
  ring

lemma wrapSub_mod {a b : Nat} (h : a ≤ b) (hd : b - a < u64Size) :
    wrapSub (b % u64Size) (a % u64Size) = b - a := by
  simp only [wrapSub, u64Size] at *
  omega

lemma cpuPct_of_delta {now pre D : Nat} (h : pre ≤ now) (hn : now < u64Size) (hD : 0 < D) :
    cpuPct now pre (F32.ofUInt64 D) = F32.fin (100 * ((now : ℚ) - pre) / (D : ℚ)) := by
  unfold cpuPct
  rw [wrapSub_of_le h hn]
  have hne : (D : ℚ) ≠ 0 := by exact_mod_cast hD.ne'
  simp only [F32.ofUInt64, F32.div, hne, if_false, F32.mul]
  congr 1
  rw [Nat.cast_sub h]
  ring

lemma cpuPct_zero_total (now pre : Nat) :
    cpuPct now pre (F32.ofUInt64 0) =
      if wrapSub now pre = 0 then F32.nan else F32.posInf := by
  by_cases h : wrapSub now pre = 0
  · simp [cpuPct, F32.ofUInt64, F32.div, F32.mul, h]
  · have hpos : (0 : ℚ) < (wrapSub now pre : ℚ) := by
      exact_mod_cast Nat.pos_of_ne_zero h
    have hne : ((wrapSub now pre : Nat) : ℚ) ≠ 0 := hpos.ne'
    simp [cpuPct, F32.ofUInt64, F32.div, F32.mul, h, hpos]

lemma getCPU_warm_fields (out : String) (p : Proc)
    (hwarm : p.preCPU.Total ≠ 0)
    (hUser : p.preCPU.User ≤ (nowCPUOf out).User)
    (hNice : p.preCPU.Nice ≤ (nowCPUOf out).Nice)
    (hSystem : p.preCPU.System ≤ (nowCPUOf out).System)
    (hIdle : p.preCPU.Idle ≤ (nowCPUOf out).Idle)
    (hIowait : p.preCPU.Iowait ≤ (nowCPUOf out).Iowait)
    (hIrq : p.preCPU.Irq ≤ (nowCPUOf out).Irq)
    (hSoftIrq : p.preCPU.SoftIrq ≤ (nowCPUOf out).SoftIrq)
    (hGuest : p.preCPU.Guest ≤ (nowCPUOf out).Guest)
    (hTotal : p.preCPU.Total < (nowCPUOf out).Total) :
    (getCPU (.ok out) p).1.stats.CPU.User =
        F32.fin (100 * (((nowCPUOf out).User : ℚ) - p.preCPU.User) /
          (((nowCPUOf out).Total : ℚ) - p.preCPU.Total)) ∧
    (getCPU (.ok out) p).1.stats.CPU.Nice =
        F32.fin (100 * (((nowCPUOf out).Nice : ℚ) - p.preCPU.Nice) /
          (((nowCPUOf out).Total : ℚ) - p.preCPU.Total)) ∧
    (getCPU (.ok out) p).1.stats.CPU.System =
        F32.fin (100 * (((nowCPUOf out).System : ℚ) - p.preCPU.System) /
          (((nowCPUOf out).Total : ℚ) - p.preCPU.Total)) ∧
    (getCPU (.ok out) p).1.stats.CPU.Idle =
        F32.fin (100 * (((nowCPUOf out).Idle : ℚ) - p.preCPU.Idle) /
          (((nowCPUOf out).Total : ℚ) - p.preCPU.Total)) ∧
    (getCPU (.ok out) p).1.stats.CPU.Iowait =
        F32.fin (100 * (((nowCPUOf out).Iowait : ℚ) - p.preCPU.Iowait) /
          (((nowCPUOf out).Total : ℚ) - p.preCPU.Total)) ∧
    (getCPU (.ok out) p).1.stats.CPU.Irq =
        F32.fin (100 * (((nowCPUOf out).Irq : ℚ) - p.preCPU.Irq) /
          (((nowCPUOf out).Total : ℚ) - p.preCPU.Total)) ∧
    (getCPU (.ok out) p).1.stats.CPU.SoftIrq =
        F32.fin (100 * (((nowCPUOf out).SoftIrq : ℚ) - p.preCPU.SoftIrq) /
          (((nowCPUOf out).Total : ℚ) - p.preCPU.Total)) ∧
    (getCPU (.ok out) p).1.stats.CPU.Guest =
        F32.fin (100 * (((nowCPUOf out).Guest : ℚ) - p.preCPU.Guest) /
          (((nowCPUOf out).Total : ℚ) - p.preCPU.Total)) := by
  obtain ⟨r1, r2, r3, r4, r5, r6, r7, _, r9, r10⟩ := nowCPUOf_inRange out
  simp only [getCPU, hwarm, if_false]
  exact ⟨cpuPct_of_le hUser r1 hTotal r10, cpuPct_of_le hNice r2 hTotal r10,
    cpuPct_of_le hSystem r3 hTotal r10, cpuPct_of_le hIdle r4 hTotal r10,
    cpuPct_of_le hIowait r5 hTotal r10, cpuPct_of_le hIrq r6 hTotal r10,
    cpuPct_of_le hSoftIrq r7 hTotal r10, cpuPct_of_le hGuest r9 hTotal r10⟩

/-- C1: in a warm call whose parsed sample has every tracked counter at least the stored
one and a strictly larger total, each of the eight written fields is
`100 * (current - previous) / (current total - previous total)`. -/
theorem getCPU_warm_percentages (out : String) (p : Proc)
    (hwarm : p.preCPU.Total ≠ 0)
    (hUser : p.preCPU.User ≤ (nowCPUOf out).User)
    (hNice : p.preCPU.Nice ≤ (nowCPUOf out).Nice)
    (hSystem : p.preCPU.System ≤ (nowCPUOf out).System)
    (hIdle : p.preCPU.Idle ≤ (nowCPUOf out).Idle)
    (hIowait : p.preCPU.Iowait ≤ (nowCPUOf out).Iowait)
    (hIrq : p.preCPU.Irq ≤ (nowCPUOf out).Irq)
    (hSoftIrq : p.preCPU.SoftIrq ≤ (nowCPUOf out).SoftIrq)
    (hGuest : p.preCPU.Guest ≤ (nowCPUOf out).Guest)
    (hTotal : p.preCPU.Total < (nowCPUOf out).Total) :
    (getCPU (.ok out) p).1.stats.CPU.User =
        F32.fin (100 * (((nowCPUOf out).User : ℚ) - p.preCPU.User) /
          (((nowCPUOf out).Total : ℚ) - p.preCPU.Total)) ∧
    (getCPU (.ok out) p).1.stats.CPU.Nice =
        F32.fin (100 * (((nowCPUOf out).Nice : ℚ) - p.preCPU.Nice) /
          (((nowCPUOf out).Total : ℚ) - p.preCPU.Total)) ∧
    (getCPU (.ok out) p).1.stats.CPU.System =
        F32.fin (100 * (((nowCPUOf out).System : ℚ) - p.preCPU.System) /
          (((nowCPUOf out).Total : ℚ) - p.preCPU.Total)) ∧
    (getCPU (.ok out) p).1.stats.CPU.Idle =
        F32.fin (100 * (((nowCPUOf out).Idle : ℚ) - p.preCPU.Idle) /
          (((nowCPUOf out).Total : ℚ) - p.preCPU.Total)) ∧
    (getCPU (.ok out) p).1.stats.CPU.Iowait =
        F32.fin (100 * (((nowCPUOf out).Iowait : ℚ) - p.preCPU.Iowait) /
          (((nowCPUOf out).Total : ℚ) - p.preCPU.Total)) ∧
    (getCPU (.ok out) p).1.stats.CPU.Irq =
        F32.fin (100 * (((nowCPUOf out).Irq : ℚ) - p.preCPU.Irq) /
          (((nowCPUOf out).Total : ℚ) - p.preCPU.Total)) ∧
    (getCPU (.ok out) p).1.stats.CPU.SoftIrq =
        F32.fin (100 * (((nowCPUOf out).SoftIrq : ℚ) - p.preCPU.SoftIrq) /
          (((nowCPUOf out).Total : ℚ) - p.preCPU.Total)) ∧
    (getCPU (.ok out) p).1.stats.CPU.Guest =
        F32.fin (100 * (((nowCPUOf out).Guest : ℚ) - p.preCPU.Guest) /
          (((nowCPUOf out).Total : ℚ) - p.preCPU.Total)) := by
  obtain ⟨r1, r2, r3, r4, r5, r6, r7, _, r9, r10⟩ := nowCPUOf_inRange out
  simp only [getCPU, hwarm, if_false]
  exact ⟨cpuPct_of_le hUser r1 hTotal r10, cpuPct_of_le hNice r2 hTotal r10,
    cpuPct_of_le hSystem r3 hTotal r10, cpuPct_of_le hIdle r4 hTotal r10,
    cpuPct_of_le hIowait r5 hTotal r10, cpuPct_of_le hIrq r6 hTotal r10,
    cpuPct_of_le hSoftIrq r7 hTotal r10, cpuPct_of_le hGuest r9 hTotal r10⟩

lemma nowCPUOf_example :
    nowCPUOf "cpu 60 0 0 70" = { User := 60, Idle := 70, Total := 130 } := by decide

/-- C1 at a concrete input: from user 10, idle 20, total 30 the line `cpu 60 0 0 70`
advances user by 50 and the total by 100, and the user percentage is 50. -/
theorem getCPU_warm_percentages_witness :
    warmProc.preCPU.Total ≠ 0 ∧
    warmProc.preCPU.User ≤ (nowCPUOf "cpu 60 0 0 70").User ∧
    warmProc.preCPU.Total < (nowCPUOf "cpu 60 0 0 70").Total ∧
    (nowCPUOf "cpu 60 0 0 70").User = warmProc.preCPU.User + 50 ∧
    (nowCPUOf "cpu 60 0 0 70").Total = warmProc.preCPU.Total + 100 ∧
    (getCPU (.ok "cpu 60 0 0 70") warmProc).1.stats.CPU.User = F32.fin 50 := by
  refine ⟨by decide, by decide, by decide, by decide, by decide, ?_⟩
  have h := (getCPU_warm_percentages "cpu 60 0 0 70" warmProc (by decide) (by decide)
    (by decide) (by decide) (by decide) (by decide) (by decide) (by decide) (by decide)
    (by decide)).1
  rw [h, nowCPUOf_example]
  norm_num [warmProc]

/-! ## `getCPU`: the cold step -/

/-- C2: when the stored sample is cold, `getCPU` writes no percentage, whatever the command
returns: `stats` (and so every field of `stats.CPU`) is unchanged, and a fresh `Stats`
keeps its all-zero `CPUInfo`. -/
theorem getCPU_cold_no_percentage (r : CmdResult) (p : Proc) (hcold : p.preCPU.Total = 0) :
    (getCPU r p).1.stats = p.stats ∧
    (p.stats.CPU = {} → (getCPU r p).1.stats.CPU = {}) := by
  have h : (getCPU r p).1.stats = p.stats := by
    cases r with
    | error e => rfl
    | ok out => simp [getCPU, hcold]
  exact ⟨h, fun h0 => by rw [h, h0]⟩

/-- C2 at a concrete input: the first round on a fresh process leaves `stats.CPU` all-zero
and stores the sample. -/
theorem getCPU_cold_no_percentage_witness :
    ({} : Proc).preCPU.Total = 0 ∧
    (getCPU (.ok "cpu 10 0 0 20") {}).1.stats.CPU = {} ∧
    (getCPU (.ok "cpu 10 0 0 20") {}).1.preCPU = warmProc.preCPU :=
  ⟨rfl, (getCPU_cold_no_percentage (.ok "cpu 10 0 0 20") {} rfl).2 rfl, by decide⟩

/-! ## `getCPU`: equal totals -/

/-- C3, as stated, fails: from a warm state with total 30, the line `cpu 10 0 0 20` has the
same total, and the call writes NaN to `User` and `Idle`, not 0. -/
theorem getCPU_same_total_gives_nan :
    warmProc.preCPU.Total ≠ 0 ∧
    (nowCPUOf "cpu 10 0 0 20").Total = warmProc.preCPU.Total ∧
    (getCPU (.ok "cpu 10 0 0 20") warmProc).1.stats.CPU.User = F32.nan ∧
    (getCPU (.ok "cpu 10 0 0 20") warmProc).1.stats.CPU ≠ {} := by
  have h : nowCPUOf "cpu 10 0 0 20" = { User := 10, Idle := 20, Total := 30 } := by decide
  refine ⟨by decide, by decide, ?_, ?_⟩
  · simp [getCPU, h, warmProc, cpuPct, wrapSub_self, F32.ofUInt64, F32.div, F32.mul]
  · intro hc
    have hu := congrArg CPUInfo.User hc
    simp [getCPU, h, warmProc, cpuPct, wrapSub_self, F32.ofUInt64, F32.div, F32.mul] at hu

/-- C3, amended: a warm call whose parsed total equals the stored total divides by a zero
`float32` without trapping; each of the eight written fields is NaN when its counter
did not move and `+Inf` when it did, so none of them is finite, and `Steal` is kept. -/
theorem getCPU_equal_totals (out : String) (p : Proc)
    (hwarm : p.preCPU.Total ≠ 0) (heq : (nowCPUOf out).Total = p.preCPU.Total) :
    (getCPU (.ok out) p).1.stats.CPU =
      { User := if wrapSub (nowCPUOf out).User p.preCPU.User = 0 then F32.nan else F32.posInf
        Nice := if wrapSub (nowCPUOf out).Nice p.preCPU.Nice = 0 then F32.nan else F32.posInf
        System :=
          if wrapSub (nowCPUOf out).System p.preCPU.System = 0 then F32.nan else F32.posInf
        Idle := if wrapSub (nowCPUOf out).Idle p.preCPU.Idle = 0 then F32.nan else F32.posInf
        Iowait :=
          if wrapSub (nowCPUOf out).Iowait p.preCPU.Iowait = 0 then F32.nan else F32.posInf
        Irq := if wrapSub (nowCPUOf out).Irq p.preCPU.Irq = 0 then F32.nan else F32.posInf
        SoftIrq :=
          if wrapSub (nowCPUOf out).SoftIrq p.preCPU.SoftIrq = 0 then F32.nan else F32.posInf
        Steal := p.stats.CPU.Steal
        Guest :=
          if wrapSub (nowCPUOf out).Guest p.preCPU.Guest = 0 then F32.nan else F32.posInf } ∧
    (getCPU (.ok out) p).1.stats.CPU.User.isFinite = false ∧
    (getCPU (.ok out) p).1.stats.CPU.Nice.isFinite = false ∧
    (getCPU (.ok out) p).1.stats.CPU.System.isFinite = false ∧
    (getCPU (.ok out) p).1.stats.CPU.Idle.isFinite = false ∧
    (getCPU (.ok out) p).1.stats.CPU.Iowait.isFinite = false ∧
    (getCPU (.ok out) p).1.stats.CPU.Irq.isFinite = false ∧
    (getCPU (.ok out) p).1.stats.CPU.SoftIrq.isFinite = false ∧
    (getCPU (.ok out) p).1.stats.CPU.Guest.isFinite = false := by
  simp only [getCPU, hwarm, if_false, heq, wrapSub_self, cpuPct_zero_total]
  refine ⟨trivial, ?_, ?_, ?_, ?_, ?_, ?_, ?_, ?_⟩ <;> split_ifs <;> rfl

/-- C3 amended, at a concrete input: user and idle did not move (NaN); the line
`cpu 5 0 0 25` moves both and gives `+Inf`. -/
theorem getCPU_equal_totals_witness :
    warmProc.preCPU.Total ≠ 0 ∧
    (nowCPUOf "cpu 5 0 0 25").Total = warmProc.preCPU.Total ∧
    (getCPU (.ok "cpu 5 0 0 25") warmProc).1.stats.CPU.Idle = F32.posInf ∧
    (getCPU (.ok "cpu 5 0 0 25") warmProc).1.stats.CPU.Nice = F32.nan := by
  have h : nowCPUOf "cpu 5 0 0 25" = { User := 5, Idle := 25, Total := 30 } := by decide
  have key := (getCPU_equal_totals "cpu 5 0 0 25" warmProc (by decide) (by decide)).1
  refine ⟨by decide, by decide, ?_, ?_⟩
  · rw [key, h]; decide
  · rw [key, h]; decide

/-! ## `parseCPUFields`: what the loop computes -/

lemma setCPUField_Total (i val : Nat) (s : cpuRaw) : (setCPUField i val s).Total = s.Total := by
  unfold setCPUField
  split <;> rfl

lemma counterAt_setCPUField (i val : Nat) (s : cpuRaw) (j : Nat) (hj1 : 1 ≤ j) (hj9 : j ≤ 9) :
    counterAt (setCPUField i val s) j = if i = j then val else counterAt s j := by
  interval_cases j <;> unfold setCPUField <;> split <;> simp_all [counterAt]

lemma counterAt_Total_irrel (s : cpuRaw) (t j : Nat) :
    counterAt { s with Total := t } j = counterAt s j := by
  unfold counterAt
  split <;> rfl

lemma counterAt_parseCPUStep (s : cpuRaw) (i : Nat) (f : String) (j : Nat)
    (hj1 : 1 ≤ j) (hj9 : j ≤ 9) :
    counterAt (parseCPUStep s i f) j =
      if i = j then (parseUint f).getD (counterAt s j) else counterAt s j := by
  unfold parseCPUStep
  cases hp : parseUint f with
  | none => simp
  | some val =>
      simp only [counterAt_setCPUField _ _ _ _ hj1 hj9, counterAt_Total_irrel,
        Option.getD_some]

lemma parseCPUStep_Total (s : cpuRaw) (i : Nat) (f : String) :
    (parseCPUStep s i f).Total =
      match parseUint f with
      | none => s.Total
      | some val => wrapAdd s.Total val := by
  unfold parseCPUStep
  cases hp : parseUint f with
  | none => rfl
  | some val => simp [setCPUField_Total]

lemma valAt_nil (k : Nat) : valAt [] k = none := by
  simp [valAt]

lemma valAt_cons_zero (f : String) (fs : List String) : valAt (f :: fs) 0 = parseUint f := by
  simp [valAt]

lemma valAt_cons_succ (f : String) (fs : List String) (k : Nat) :
    valAt (f :: fs) (k + 1) = valAt fs k := by
  simp [valAt]

lemma counterAt_parseCPULoop (j : Nat) (hj1 : 1 ≤ j) (hj9 : j ≤ 9) :
    ∀ (fs : List String) (i : Nat) (s : cpuRaw),
      counterAt (parseCPULoop i fs s) j =
        if i ≤ j then (valAt fs (j - i)).getD (counterAt s j) else counterAt s j
  | [], i, s => by
      simp [parseCPULoop, valAt_nil]
  | f :: fs, i, s => by
      rw [parseCPULoop, counterAt_parseCPULoop j hj1 hj9 fs (i + 1) _,
        counterAt_parseCPUStep _ _ _ _ hj1 hj9]
      rcases Nat.lt_trichotomy i j with h | h | h
      · have e : j - i = (j - (i + 1)) + 1 := by omega
        rw [e, valAt_cons_succ]
        simp [show i + 1 ≤ j from h, h.le, h.ne]
      · subst h
        simp [valAt_cons_zero]
      · have h1 : ¬ i + 1 ≤ j := by omega
        have h2 : ¬ i ≤ j := by omega
        have h3 : ¬ i = j := by omega
        simp [h1, h2, h3]

lemma numericSum_nil : numericSum [] = 0 := rfl

lemma numericSum_cons (f : String) (fs : List String) :
    numericSum (f :: fs) = (parseUint f).getD 0 + numericSum fs := by
  unfold numericSum
  cases hp : parseUint f with
  | none => simp [List.filterMap_cons, hp]
  | some v => simp [List.filterMap_cons, hp]

lemma parseCPULoop_Total : ∀ (fs : List String) (i : Nat) (s : cpuRaw),
    (parseCPULoop i fs s).Total % u64Size = (s.Total + numericSum fs) % u64Size
  | [], i, s => by simp [parseCPULoop, numericSum_nil]
  | f :: fs, i, s => by
      rw [parseCPULoop, parseCPULoop_Total fs (i + 1) _, parseCPUStep_Total,
        numericSum_cons]
      cases hp : parseUint f with
      | none => simp
      | some v =>
          simp only [wrapAdd, Option.getD_some]
          rw [Nat.mod_add_mod, Nat.add_assoc]

lemma parseCPUFields_Total (fs : List String) :
    (parseCPUFields fs {}).Total = numericSum (fs.drop 1) % u64Size := by
  have h := parseCPULoop_Total (fs.drop 1) 1 {}
  have hr := (parseCPULoop_inRange (fs.drop 1) 1 {} zero_inRange).2.2.2.2.2.2.2.2.2
  rw [Nat.mod_eq_of_lt hr] at h
  simpa [parseCPUFields] using h

lemma counterAt_parseCPUFields (fs : List String) (j : Nat) (hj1 : 1 ≤ j) (hj9 : j ≤ 9) :
    counterAt (parseCPUFields fs {}) j = (valAt (fs.drop 1) (j - 1)).getD 0 := by
  unfold parseCPUFields
  rw [counterAt_parseCPULoop j hj1 hj9]
  interval_cases j <;> simp [counterAt]

lemma counters_eq_valAt (fs : List String) :
    (parseCPUFields fs {}).counters =
      (List.range 9).map (fun k => (valAt (fs.drop 1) k).getD 0) := by
  have h := fun j h1 h9 => counterAt_parseCPUFields fs j h1 h9
  have h1 := h 1 (by decide) (by decide)
  have h2 := h 2 (by decide) (by decide)
  have h3 := h 3 (by decide) (by decide)
  have h4 := h 4 (by decide) (by decide)
  have h5 := h 5 (by decide) (by decide)
  have h6 := h 6 (by decide) (by decide)
  have h7 := h 7 (by decide) (by decide)
  have h8 := h 8 (by decide) (by decide)
  have h9 := h 9 (by decide) (by decide)
  simp only [counterAt] at h1 h2 h3 h4 h5 h6 h7 h8 h9
  simp [cpuRaw.counters, List.range, List.range.loop, h1, h2, h3, h4, h5, h6, h7, h8, h9]

lemma numericSum_eq_range : ∀ (n : Nat) (gs : List String), gs.length ≤ n →
    numericSum gs = ((List.range n).map (fun k => (valAt gs k).getD 0)).sum
  | n, [], _ => by
      simp [numericSum_nil, valAt_nil]
  | 0, f :: gs, h => by
      simp at h
  | n + 1, f :: gs, h => by
      have hlen : gs.length ≤ n := by simpa using h
      rw [numericSum_cons, numericSum_eq_range n gs hlen, List.range_succ_eq_map]
      simp [valAt_cons_zero, valAt_cons_succ, Function.comp_def]

lemma valAt_append_left (gs extra : List String) (k : Nat) (hk : k < gs.length) :
    valAt (gs ++ extra) k = valAt gs k := by
  simp [valAt, List.getElem?_append_left hk]

/-- C4, as stated, fails: with a tenth counter the total (55) is not the sum of the nine
positional counters (45), and dropping the tenth field changes the total. -/
theorem parseCPUFields_tenth_field_in_total :
    cpuTenFields.head? = some "cpu" ∧
    (parseCPUFields cpuTenFields {}).Total = 55 ∧
    (parseCPUFields cpuTenFields {}).counters.sum = 45 ∧
    (parseCPUFields (cpuTenFields.take 10) {}).Total = 45 := by
  decide

/-- C4, amended: on a zero `cpuRaw`, `Total` is the sum modulo `2 ^ 64` of every field
after the first that parses as an unsigned integer, the tenth and later ones included;
with at most nine fields after the first this is the sum modulo `2 ^ 64` of the nine
positional counters; fields after the ninth change none of the nine counters. -/
theorem parseCPUFields_total_and_counters (fs extra : List String) :
    (parseCPUFields fs {}).Total = numericSum (fs.drop 1) % u64Size ∧
    (fs.length ≤ 10 →
      (parseCPUFields fs {}).Total = (parseCPUFields fs {}).counters.sum % u64Size) ∧
    (10 ≤ fs.length →
      (parseCPUFields (fs ++ extra) {}).counters = (parseCPUFields fs {}).counters) := by
  refine ⟨parseCPUFields_Total fs, fun hlen => ?_, fun hlen => ?_⟩
  · rw [parseCPUFields_Total, counters_eq_valAt,
      numericSum_eq_range 9 (fs.drop 1) (by simp; omega)]
  · rw [counters_eq_valAt, counters_eq_valAt]
    apply List.map_congr_left
    intro k hk
    have hk9 : k < 9 := List.mem_range.mp hk
    have hd : (fs ++ extra).drop 1 = fs.drop 1 ++ extra :=
      List.drop_append_of_le_length (by omega)
    rw [hd, valAt_append_left _ _ _ (by simp; omega)]

/-- C4 amended, at a concrete input: nine counters give total 45, and appending a tenth
field keeps the nine counters. -/
theorem parseCPUFields_total_and_counters_witness :
    (cpuTenFields.take 10).length ≤ 10 ∧ 10 ≤ (cpuTenFields.take 10).length ∧
    (parseCPUFields (cpuTenFields.take 10) {}).Total =
      (parseCPUFields (cpuTenFields.take 10) {}).counters.sum % u64Size ∧
    (parseCPUFields (cpuTenFields.take 10 ++ ["10"]) {}).counters =
      (parseCPUFields (cpuTenFields.take 10) {}).counters :=
  ⟨by decide, by decide,
    (parseCPUFields_total_and_counters (cpuTenFields.take 10) ["10"]).2.1 (by decide),
    (parseCPUFields_total_and_counters (cpuTenFields.take 10) ["10"]).2.2 (by decide)⟩

/-! ## `getCPU`: the stored sample -/

lemma isCPULine_eq (l : String) : isCPULine l = decide ((fields l).head? = some "cpu") := by
  unfold isCPULine
  cases fields l with
  | nil => simp
  | cons f fs => simp

lemma scanCPU_eq_find : ∀ lines : List String,
    scanCPU lines =
      match lines.find? (fun l => decide ((fields l).head? = some "cpu")) with
      | some l => parseCPUFields (fields l) {}
      | none => {}
  | [] => rfl
  | l :: rest => by
      unfold scanCPU
      rw [List.find?_cons, isCPULine_eq]
      by_cases h : (fields l).head? = some "cpu"
      · simp [h]
      · simp only [h, decide_False, Bool.false_eq_true, if_false]
        exact scanCPU_eq_find rest

lemma nowCPUOf_eq (out : String) :
    nowCPUOf out =
      match firstCPULine out with
      | some l => parseCPUFields (fields l) {}
      | none => {} :=
  scanCPU_eq_find _

lemma getCPU_ok_preCPU (out : String) (p : Proc) :
    (getCPU (.ok out) p).1.preCPU = nowCPUOf out := by
  unfold getCPU
  by_cases h : p.preCPU.Total = 0 <;> simp [h]

/-- C5, as stated, fails: from a warm state, a successful command whose output has no
`cpu` line leaves the stored sample cold. -/
theorem getCPU_warm_state_cleared :
    warmProc.preCPU.Total ≠ 0 ∧
    (getCPU (.ok "intr 12\nctxt 7\n") warmProc).1.preCPU.Total = 0 := by
  decide

/-- C5, amended: from a warm state, the stored sample is still warm after a call whose
command fails; after a call whose command succeeds it is warm exactly when the numeric
fields of the first `cpu` line of the output sum to a non-zero value modulo `2 ^ 64`,
and it is cold when the output has no `cpu` line. -/
theorem getCPU_warm_after (p : Proc) (hwarm : p.preCPU.Total ≠ 0) :
    (∀ e, (getCPU (.error e) p).1.preCPU.Total ≠ 0) ∧
    (∀ out l, firstCPULine out = some l →
      ((getCPU (.ok out) p).1.preCPU.Total ≠ 0 ↔
        numericSum ((fields l).drop 1) % u64Size ≠ 0)) ∧
    (∀ out, firstCPULine out = none → (getCPU (.ok out) p).1.preCPU.Total = 0) := by
  refine ⟨fun e => hwarm, fun out l hl => ?_, fun out hl => ?_⟩
  · rw [getCPU_ok_preCPU, nowCPUOf_eq, hl]
    simp only [parseCPUFields_Total]
  · rw [getCPU_ok_preCPU, nowCPUOf_eq, hl]

/-- C5 amended, at a concrete input: a failing command and the line `cpu 60 0 0 70` both
keep the state warm. -/
theorem getCPU_warm_after_witness :
    warmProc.preCPU.Total ≠ 0 ∧
    (getCPU (.error "exit status 1") warmProc).1.preCPU.Total ≠ 0 ∧
    firstCPULine "cpu 60 0 0 70" = some "cpu 60 0 0 70" ∧
    (getCPU (.ok "cpu 60 0 0 70") warmProc).1.preCPU.Total ≠ 0 :=
  ⟨by decide, (getCPU_warm_after warmProc (by decide)).1 "exit status 1", by decide,
    ((getCPU_warm_after warmProc (by decide)).2.1 "cpu 60 0 0 70" "cpu 60 0 0 70"
      (by decide)).mpr (by decide)⟩

/-- C6: after every `getCPU` call whose command succeeds, from a cold or a warm state, the
stored previous sample is the raw sample parsed from the first line of this output whose
first field is exactly `cpu` (the zero sample when there is no such line). -/
theorem getCPU_stores_current_sample (out : String) (p : Proc) :
    (getCPU (.ok out) p).1.preCPU =
      match firstCPULine out with
      | some l => parseCPUFields (fields l) {}
      | none => {} := by
  rw [getCPU_ok_preCPU, nowCPUOf_eq]

/-! ## `getCPU`: two consecutive rounds -/

lemma filterMap_of_map_eq : ∀ (fs : List String) (v : List Nat),
    fs.map parseUint = v.map some → fs.filterMap parseUint = v
  | [], [], _ => rfl
  | [], _ :: _, h => by simp at h
  | _ :: _, [], h => by simp at h
  | f :: fs, a :: v, h => by
      simp only [List.map_cons, List.cons.injEq] at h
      rw [List.filterMap_cons, h.1]
      simp [filterMap_of_map_eq fs v h.2]

lemma numericSum_of_map_eq {fs : List String} {v : List Nat}
    (h : fs.map parseUint = v.map some) : numericSum fs = v.sum := by
  unfold numericSum
  rw [filterMap_of_map_eq fs v h]

lemma valAt_of_map_eq {fs : List String} {v : List Nat}
    (h : fs.map parseUint = v.map some) (k : Nat) : valAt fs k = v[k]? := by
  have h1 : (fs.map parseUint)[k]? = (v.map some)[k]? := by rw [h]
  simp only [List.getElem?_map] at h1
  unfold valAt
  cases hf : fs[k]? with
  | none =>
      rw [hf] at h1
      cases hv : v[k]? with
      | none => rfl
      | some a => rw [hv] at h1; simp at h1
  | some f =>
      rw [hf] at h1
      cases hv : v[k]? with
      | none => rw [hv] at h1; simp at h1
      | some a =>
          rw [hv] at h1
          simpa using h1

lemma counters_of_map_eq {fs : List String} {v : List Nat}
    (h : (fs.drop 1).map parseUint = v.map some) :
    (parseCPUFields fs {}).counters = (List.range 9).map (fun k => v.getD k 0) := by
  rw [counters_eq_valAt]
  apply List.map_congr_left
  intro k _
  rw [valAt_of_map_eq h, List.getD_eq_getElem?_getD]

lemma sum_le_of_forall₂ {v1 v2 : List Nat} (h : List.Forall₂ (fun a b => a ≤ b) v1 v2) :
    v1.sum ≤ v2.sum := by
  induction h with
  | nil => exact le_rfl
  | cons hab _ ih =>
      simp only [List.sum_cons]
      omega

lemma take_sum_le_of_forall₂ {v1 v2 : List Nat}
    (h : List.Forall₂ (fun a b => a ≤ b) v1 v2) :
    ∀ n : Nat, v1.sum + (v2.take n).sum ≤ v2.sum + (v1.take n).sum := by
  induction h with
  | nil => intro n; simp
  | cons hab hrest ih =>
      intro n
      cases n with
      | zero =>
          have := sum_le_of_forall₂ hrest
          simp only [List.take_zero, List.sum_nil, List.sum_cons]
          omega
      | succ n =>
          have := ih n
          simp only [List.take_succ_cons, List.sum_cons]
          omega

lemma getD_le_of_forall₂ {v1 v2 : List Nat}
    (h : List.Forall₂ (fun a b => a ≤ b) v1 v2) : ∀ k : Nat, v1.getD k 0 ≤ v2.getD k 0 := by
  induction h with
  | nil => intro k; simp
  | cons hab _ ih =>
      intro k
      cases k with
      | zero => simpa using hab
      | succ k => simpa using ih k

lemma take_nine_sum (v : List Nat) :
    (v.take 9).sum = v.getD 0 0 + v.getD 1 0 + v.getD 2 0 + v.getD 3 0 + v.getD 4 0 +
      v.getD 5 0 + v.getD 6 0 + v.getD 7 0 + v.getD 8 0 := by
  rcases v with _ | ⟨a0, _ | ⟨a1, _ | ⟨a2, _ | ⟨a3, _ | ⟨a4, _ | ⟨a5, _ | ⟨a6, _ | ⟨a7,
    _ | ⟨a8, v⟩⟩⟩⟩⟩⟩⟩⟩⟩ <;> simp <;> omega

lemma nowCPUOf_wrapRound1 : nowCPUOf wrapRound1 = { User := 1, Total := 1 } := by decide

lemma nowCPUOf_wrapRound2 :
    nowCPUOf wrapRound2 =
      { User := 9223372036854775809, Nice := 9223372036854775809, Total := 2 } := by
  decide

lemma getCPUF32_ok_preCPU (out : String) (p : Proc) :
    (getCPUF32 (.ok out) p).1.preCPU = nowCPUOf out := by
  unfold getCPUF32
  by_cases h : p.preCPU.Total = 0 <;> simp [h]

lemma cpuPctF32_of_delta {now pre D : Nat} (h : pre ≤ now) (hn : now < u64Size)
    (hle : now - pre ≤ D) (hD : 0 < D) (hD64 : D < u64Size) :
    ∃ P : ℚ, cpuPctF32 now pre (binary32.round (F32.ofUInt64 D)) = F32.fin P ∧
      0 ≤ P ∧ P ≤ 100 ∧
      P * D * (1 - 1 / 16777216) ≤ 100 * (1 + 1 / 16777216) ^ 3 * ((now - pre : Nat) : ℚ) := by
  unfold cpuPctF32
  rw [wrapSub_of_le h hn]
  exact pctF32_bound (now - pre) D hle hD hD64

/-- The percentages of the second of two rounds, in exact arithmetic: each is at least 0
and their sum is at most 100. -/
lemma getCPU_exact_bounded (out1 out2 l1 l2 : String) (v1 v2 : List Nat) (p : Proc)
    (hl1 : firstCPULine out1 = some l1) (hl2 : firstCPULine out2 = some l2)
    (hv1 : ((fields l1).drop 1).map parseUint = v1.map some)
    (hv2 : ((fields l2).drop 1).map parseUint = v2.map some)
    (hlen : v1.length = v2.length)
    (hle : ∀ x ∈ v1.zip v2, x.1 ≤ x.2)
    (hsum : v1.sum < v2.sum)
    (hnz : (getCPU (.ok out1) p).1.preCPU.Total ≠ 0)
    (hfit : v2.sum - v1.sum < u64Size) :
    ∃ u n s i w q r g : ℚ,
      (getCPU (.ok out2) (getCPU (.ok out1) p).1).1.stats.CPU.User = F32.fin u ∧
      (getCPU (.ok out2) (getCPU (.ok out1) p).1).1.stats.CPU.Nice = F32.fin n ∧
      (getCPU (.ok out2) (getCPU (.ok out1) p).1).1.stats.CPU.System = F32.fin s ∧
      (getCPU (.ok out2) (getCPU (.ok out1) p).1).1.stats.CPU.Idle = F32.fin i ∧
      (getCPU (.ok out2) (getCPU (.ok out1) p).1).1.stats.CPU.Iowait = F32.fin w ∧
      (getCPU (.ok out2) (getCPU (.ok out1) p).1).1.stats.CPU.Irq = F32.fin q ∧
      (getCPU (.ok out2) (getCPU (.ok out1) p).1).1.stats.CPU.SoftIrq = F32.fin r ∧
      (getCPU (.ok out2) (getCPU (.ok out1) p).1).1.stats.CPU.Guest = F32.fin g ∧
      0 ≤ u ∧ 0 ≤ n ∧ 0 ≤ s ∧ 0 ≤ i ∧ 0 ≤ w ∧ 0 ≤ q ∧ 0 ≤ r ∧ 0 ≤ g ∧
      u + n + s + i + w + q + r + g ≤ 100 := by
  have hF : List.Forall₂ (fun a b => a ≤ b) v1 v2 :=
    List.forall₂_iff_zip.mpr ⟨hlen, fun {a b} hab => hle (a, b) hab⟩
  -- the two samples
  have e1 : nowCPUOf out1 = parseCPUFields (fields l1) {} := by rw [nowCPUOf_eq, hl1]
  have e2 : nowCPUOf out2 = parseCPUFields (fields l2) {} := by rw [nowCPUOf_eq, hl2]
  have c1 := counters_of_map_eq hv1
  have c2 := counters_of_map_eq hv2
  rw [← e1] at c1
  rw [← e2] at c2
  simp only [cpuRaw.counters, List.range, List.range.loop, List.map_cons, List.map_nil,
    List.cons.injEq, and_true] at c1 c2
  obtain ⟨a0, a1, a2, a3, a4, a5, a6, a7, a8⟩ := c1
  obtain ⟨b0, b1, b2, b3, b4, b5, b6, b7, b8⟩ := c2
  have t1 : (nowCPUOf out1).Total = v1.sum % u64Size := by
    rw [e1, parseCPUFields_Total, numericSum_of_map_eq hv1]
  have t2 : (nowCPUOf out2).Total = v2.sum % u64Size := by
    rw [e2, parseCPUFields_Total, numericSum_of_map_eq hv2]
  have hpre : (getCPU (.ok out1) p).1.preCPU = nowCPUOf out1 := getCPU_ok_preCPU out1 p
  obtain ⟨r0, r1, r2, r3, r4, r5, r6, _, r8, _⟩ := nowCPUOf_inRange out2
  have g := getD_le_of_forall₂ hF
  have hDpos : 0 < v2.sum - v1.sum := Nat.sub_pos_of_lt hsum
  have hT : wrapSub (nowCPUOf out2).Total (nowCPUOf out1).Total = v2.sum - v1.sum := by
    rw [t1, t2]
    exact wrapSub_mod hsum.le hfit
  -- the second round, field by field
  generalize hp1 : (getCPU (.ok out1) p).1 = p1 at hnz hpre ⊢
  rw [hpre] at hnz
  simp only [getCPU, hpre, hnz, if_false, hT]
  rw [b0] at r0
  rw [b1] at r1
  rw [b2] at r2
  rw [b3] at r3
  rw [b4] at r4
  rw [b5] at r5
  rw [b6] at r6
  rw [b8] at r8
  simp only [a0, a1, a2, a3, a4, a5, a6, a8, b0, b1, b2, b3, b4, b5, b6, b8]
  rw [cpuPct_of_delta (g 0) r0 hDpos, cpuPct_of_delta (g 1) r1 hDpos,
    cpuPct_of_delta (g 2) r2 hDpos, cpuPct_of_delta (g 3) r3 hDpos,
    cpuPct_of_delta (g 4) r4 hDpos, cpuPct_of_delta (g 5) r5 hDpos,
    cpuPct_of_delta (g 6) r6 hDpos, cpuPct_of_delta (g 8) r8 hDpos]
  -- arithmetic on the deltas
  have hcast : ((v2.sum - v1.sum : Nat) : ℚ) = (v2.sum : ℚ) - v1.sum := Nat.cast_sub hsum.le
  have hD : (0 : ℚ) < ((v2.sum - v1.sum : Nat) : ℚ) := by exact_mod_cast hDpos
  have d : ∀ k : Nat, (0 : ℚ) ≤ (v2.getD k 0 : ℚ) - v1.getD k 0 := by
    intro k
    have : (v1.getD k 0 : ℚ) ≤ v2.getD k 0 := by exact_mod_cast g k
    linarith
  have hnine := take_sum_le_of_forall₂ hF 9
  rw [take_nine_sum, take_nine_sum] at hnine
  have hnineQ : (v1.sum : ℚ) + (v2.getD 0 0 + v2.getD 1 0 + v2.getD 2 0 + v2.getD 3 0 +
      v2.getD 4 0 + v2.getD 5 0 + v2.getD 6 0 + v2.getD 7 0 + v2.getD 8 0) ≤
      (v2.sum : ℚ) + (v1.getD 0 0 + v1.getD 1 0 + v1.getD 2 0 + v1.getD 3 0 +
      v1.getD 4 0 + v1.getD 5 0 + v1.getD 6 0 + v1.getD 7 0 + v1.getD 8 0) := by
    exact_mod_cast hnine
  have pos : ∀ k : Nat, (0 : ℚ) ≤
      100 * ((v2.getD k 0 : ℚ) - v1.getD k 0) / ((v2.sum - v1.sum : Nat) : ℚ) := fun k =>
    div_nonneg (mul_nonneg (by norm_num) (d k)) hD.le
  refine ⟨_, _, _, _, _, _, _, _, rfl, rfl, rfl, rfl, rfl, rfl, rfl, rfl,
    pos 0, pos 1, pos 2, pos 3, pos 4, pos 5, pos 6, pos 8, ?_⟩
  have hsumeq :
      100 * ((v2.getD 0 0 : ℚ) - v1.getD 0 0) / ((v2.sum - v1.sum : Nat) : ℚ) +
      100 * ((v2.getD 1 0 : ℚ) - v1.getD 1 0) / ((v2.sum - v1.sum : Nat) : ℚ) +
      100 * ((v2.getD 2 0 : ℚ) - v1.getD 2 0) / ((v2.sum - v1.sum : Nat) : ℚ) +
      100 * ((v2.getD 3 0 : ℚ) - v1.getD 3 0) / ((v2.sum - v1.sum : Nat) : ℚ) +
      100 * ((v2.getD 4 0 : ℚ) - v1.getD 4 0) / ((v2.sum - v1.sum : Nat) : ℚ) +
      100 * ((v2.getD 5 0 : ℚ) - v1.getD 5 0) / ((v2.sum - v1.sum : Nat) : ℚ) +
      100 * ((v2.getD 6 0 : ℚ) - v1.getD 6 0) / ((v2.sum - v1.sum : Nat) : ℚ) +
      100 * ((v2.getD 8 0 : ℚ) - v1.getD 8 0) / ((v2.sum - v1.sum : Nat) : ℚ) =
      100 * (((v2.getD 0 0 : ℚ) - v1.getD 0 0) + ((v2.getD 1 0 : ℚ) - v1.getD 1 0) +
        ((v2.getD 2 0 : ℚ) - v1.getD 2 0) + ((v2.getD 3 0 : ℚ) - v1.getD 3 0) +
        ((v2.getD 4 0 : ℚ) - v1.getD 4 0) + ((v2.getD 5 0 : ℚ) - v1.getD 5 0) +
        ((v2.getD 6 0 : ℚ) - v1.getD 6 0) + ((v2.getD 8 0 : ℚ) - v1.getD 8 0)) /
        ((v2.sum - v1.sum : Nat) : ℚ) := by
    ring
  rw [hsumeq, div_le_iff₀ hD, hcast]
  have h7 := d 7
  linarith


/-- The `float32` values written by the second of two rounds: each is finite and between
0 and 100, and their sum is at most `100 + 1 / 40000`. -/
lemma getCPUF32_bounded (out1 out2 l1 l2 : String) (v1 v2 : List Nat) (p : Proc)
    (hl1 : firstCPULine out1 = some l1) (hl2 : firstCPULine out2 = some l2)
    (hv1 : ((fields l1).drop 1).map parseUint = v1.map some)
    (hv2 : ((fields l2).drop 1).map parseUint = v2.map some)
    (hlen : v1.length = v2.length)
    (hle : ∀ x ∈ v1.zip v2, x.1 ≤ x.2)
    (hsum : v1.sum < v2.sum)
    (hnz : (getCPUF32 (.ok out1) p).1.preCPU.Total ≠ 0)
    (hfit : v2.sum - v1.sum < u64Size) :
    ∃ u n s i w q r g : ℚ,
      (getCPUF32 (.ok out2) (getCPUF32 (.ok out1) p).1).1.stats.CPU.User = F32.fin u ∧
      (getCPUF32 (.ok out2) (getCPUF32 (.ok out1) p).1).1.stats.CPU.Nice = F32.fin n ∧
      (getCPUF32 (.ok out2) (getCPUF32 (.ok out1) p).1).1.stats.CPU.System = F32.fin s ∧
      (getCPUF32 (.ok out2) (getCPUF32 (.ok out1) p).1).1.stats.CPU.Idle = F32.fin i ∧
      (getCPUF32 (.ok out2) (getCPUF32 (.ok out1) p).1).1.stats.CPU.Iowait = F32.fin w ∧
      (getCPUF32 (.ok out2) (getCPUF32 (.ok out1) p).1).1.stats.CPU.Irq = F32.fin q ∧
      (getCPUF32 (.ok out2) (getCPUF32 (.ok out1) p).1).1.stats.CPU.SoftIrq = F32.fin r ∧
      (getCPUF32 (.ok out2) (getCPUF32 (.ok out1) p).1).1.stats.CPU.Guest = F32.fin g ∧
      0 ≤ u ∧ 0 ≤ n ∧ 0 ≤ s ∧ 0 ≤ i ∧ 0 ≤ w ∧ 0 ≤ q ∧ 0 ≤ r ∧ 0 ≤ g ∧
      u ≤ 100 ∧ n ≤ 100 ∧ s ≤ 100 ∧ i ≤ 100 ∧ w ≤ 100 ∧ q ≤ 100 ∧ r ≤ 100 ∧ g ≤ 100 ∧
      u + n + s + i + w + q + r + g ≤ 100 + 1 / 40000 := by
  have hF : List.Forall₂ (fun a b => a ≤ b) v1 v2 :=
    List.forall₂_iff_zip.mpr ⟨hlen, fun {a b} hab => hle (a, b) hab⟩
  -- the two samples
  have e1 : nowCPUOf out1 = parseCPUFields (fields l1) {} := by rw [nowCPUOf_eq, hl1]
  have e2 : nowCPUOf out2 = parseCPUFields (fields l2) {} := by rw [nowCPUOf_eq, hl2]
  have c1 := counters_of_map_eq hv1
  have c2 := counters_of_map_eq hv2
  rw [← e1] at c1
  rw [← e2] at c2
  simp only [cpuRaw.counters, List.range, List.range.loop, List.map_cons, List.map_nil,
    List.cons.injEq, and_true] at c1 c2
  obtain ⟨a0, a1, a2, a3, a4, a5, a6, a7, a8⟩ := c1
  obtain ⟨b0, b1, b2, b3, b4, b5, b6, b7, b8⟩ := c2
  have t1 : (nowCPUOf out1).Total = v1.sum % u64Size := by
    rw [e1, parseCPUFields_Total, numericSum_of_map_eq hv1]
  have t2 : (nowCPUOf out2).Total = v2.sum % u64Size := by
    rw [e2, parseCPUFields_Total, numericSum_of_map_eq hv2]
  have hpre : (getCPUF32 (.ok out1) p).1.preCPU = nowCPUOf out1 := getCPUF32_ok_preCPU out1 p
  obtain ⟨r0, r1, r2, r3, r4, r5, r6, _, r8, _⟩ := nowCPUOf_inRange out2
  have g := getD_le_of_forall₂ hF
  have hDpos : 0 < v2.sum - v1.sum := Nat.sub_pos_of_lt hsum
  have hT : wrapSub (nowCPUOf out2).Total (nowCPUOf out1).Total = v2.sum - v1.sum := by
    rw [t1, t2]
    exact wrapSub_mod hsum.le hfit
  -- the second round, field by field
  generalize hp1 : (getCPUF32 (.ok out1) p).1 = p1 at hnz hpre ⊢
  rw [hpre] at hnz
  simp only [getCPUF32, hpre, hnz, if_false, hT]
  rw [b0] at r0
  rw [b1] at r1
  rw [b2] at r2
  rw [b3] at r3
  rw [b4] at r4
  rw [b5] at r5
  rw [b6] at r6
  rw [b8] at r8
  simp only [a0, a1, a2, a3, a4, a5, a6, a8, b0, b1, b2, b3, b4, b5, b6, b8]
  -- each difference is at most the difference of the totals
  have hnine := take_sum_le_of_forall₂ hF 9
  rw [take_nine_sum, take_nine_sum] at hnine
  have g0 := g 0
  have g1 := g 1
  have g2 := g 2
  have g3 := g 3
  have g4 := g 4
  have g5 := g 5
  have g6 := g 6
  have g7 := g 7
  have g8 := g 8
  obtain ⟨P0, E0, N0, M0, K0⟩ := cpuPctF32_of_delta g0 r0 (by omega) hDpos hfit
  obtain ⟨P1, E1, N1, M1, K1⟩ := cpuPctF32_of_delta g1 r1 (by omega) hDpos hfit
  obtain ⟨P2, E2, N2, M2, K2⟩ := cpuPctF32_of_delta g2 r2 (by omega) hDpos hfit
  obtain ⟨P3, E3, N3, M3, K3⟩ := cpuPctF32_of_delta g3 r3 (by omega) hDpos hfit
  obtain ⟨P4, E4, N4, M4, K4⟩ := cpuPctF32_of_delta g4 r4 (by omega) hDpos hfit
  obtain ⟨P5, E5, N5, M5, K5⟩ := cpuPctF32_of_delta g5 r5 (by omega) hDpos hfit
  obtain ⟨P6, E6, N6, M6, K6⟩ := cpuPctF32_of_delta g6 r6 (by omega) hDpos hfit
  obtain ⟨P8, E8, N8, M8, K8⟩ := cpuPctF32_of_delta g8 r8 (by omega) hDpos hfit
  refine ⟨P0, P1, P2, P3, P4, P5, P6, P8, E0, E1, E2, E3, E4, E5, E6, E8,
    N0, N1, N2, N3, N4, N5, N6, N8, M0, M1, M2, M3, M4, M5, M6, M8, ?_⟩
  -- the sum of the eight differences is at most the difference of the totals
  have hsumNat : (v2.getD 0 0 - v1.getD 0 0) + (v2.getD 1 0 - v1.getD 1 0) +
      (v2.getD 2 0 - v1.getD 2 0) + (v2.getD 3 0 - v1.getD 3 0) +
      (v2.getD 4 0 - v1.getD 4 0) + (v2.getD 5 0 - v1.getD 5 0) +
      (v2.getD 6 0 - v1.getD 6 0) + (v2.getD 8 0 - v1.getD 8 0) ≤ v2.sum - v1.sum := by
    omega
  have hsumQ : ((v2.getD 0 0 - v1.getD 0 0 : Nat) : ℚ) +
      ((v2.getD 1 0 - v1.getD 1 0 : Nat) : ℚ) +
      ((v2.getD 2 0 - v1.getD 2 0 : Nat) : ℚ) + ((v2.getD 3 0 - v1.getD 3 0 : Nat) : ℚ) +
      ((v2.getD 4 0 - v1.getD 4 0 : Nat) : ℚ) + ((v2.getD 5 0 - v1.getD 5 0 : Nat) : ℚ) +
      ((v2.getD 6 0 - v1.getD 6 0 : Nat) : ℚ) + ((v2.getD 8 0 - v1.getD 8 0 : Nat) : ℚ) ≤
      ((v2.sum - v1.sum : Nat) : ℚ) := by
    exact_mod_cast hsumNat
  have hD : (0 : ℚ) < ((v2.sum - v1.sum : Nat) : ℚ) := by exact_mod_cast hDpos
  generalize ((v2.sum - v1.sum : Nat) : ℚ) = D at K0 K1 K2 K3 K4 K5 K6 K8 hsumQ hD
  have h1 : ((P0 + P1 + P2 + P3 + P4 + P5 + P6 + P8) * (1 - 1 / 16777216)) * D ≤
      (100 * (1 + 1 / 16777216) ^ 3) * D := by
    have hc : (0 : ℚ) ≤ 100 * (1 + 1 / 16777216) ^ 3 := by norm_num
    have := mul_le_mul_of_nonneg_left hsumQ hc
    linarith
  have h2 := le_of_mul_le_mul_right h1 hD
  norm_num at h2 ⊢
  linarith

/-- C7, as stated, fails in two ways. When the sum of the counters wraps around `2 ^ 64`:
after `cpu 1 0`, the line with both counters at `2 ^ 63 + 1` has the same number of
numeric fields, every field at least as large and a larger sum, yet the stored total only
moves from 1 to 2 and the user percentage is `100 * 2 ^ 63`. And through the rounding of
`float32` arithmetic, without any wrap: after `cpu 10 0 0 20`, the line `cpu 11 0 0 22`
gives the user percentage 4369067 / 131072 and the idle percentage 4369067 / 65536, which
sum to more than 100. -/
theorem getCPU_percentages_exceed_hundred :
    firstCPULine wrapRound1 = some wrapRound1 ∧
    firstCPULine wrapRound2 = some wrapRound2 ∧
    ((fields wrapRound1).drop 1).map parseUint = [1, 0].map some ∧
    ((fields wrapRound2).drop 1).map parseUint =
      [9223372036854775809, 9223372036854775809].map some ∧
    (getCPUF32 (.ok wrapRound1) {}).1.preCPU.Total ≠ 0 ∧
    (getCPUF32 (.ok wrapRound2) (getCPUF32 (.ok wrapRound1) {}).1).1.stats.CPU.User =
      F32.fin 922337203685477580800 ∧
    (100 : ℚ) < 922337203685477580800 ∧
    firstCPULine "cpu 10 0 0 20" = some "cpu 10 0 0 20" ∧
    firstCPULine "cpu 11 0 0 22" = some "cpu 11 0 0 22" ∧
    ((fields "cpu 10 0 0 20").drop 1).map parseUint = [10, 0, 0, 20].map some ∧
    ((fields "cpu 11 0 0 22").drop 1).map parseUint = [11, 0, 0, 22].map some ∧
    (getCPUF32 (.ok "cpu 10 0 0 20") {}).1.preCPU.Total ≠ 0 ∧
    [11, 0, 0, 22].sum - [10, 0, 0, 20].sum < u64Size ∧
    (getCPUF32 (.ok "cpu 11 0 0 22") (getCPUF32 (.ok "cpu 10 0 0 20") {}).1).1.stats.CPU =
      { User := F32.fin (4369067 / 131072), Idle := F32.fin (4369067 / 65536) } ∧
    (100 : ℚ) < 4369067 / 131072 + 0 + 0 + 4369067 / 65536 + 0 + 0 + 0 + 0 := by
  decide!

/-- C7, amended (the sum of the second line's fields exceeds the sum of the first's by
less than `2 ^ 64`, so that the difference of the stored totals is the true difference;
the sum of the values written is bounded by `100 + 1 / 40000`): for two consecutive
successful rounds whose `cpu` lines have the same number of fields, all numeric, with
every field of the second at least the same field of the first, a strictly larger sum
and a non-zero first total, the eight percentages are, in exact arithmetic, each at least
0 with a sum of at most 100, and the eight `float32` values that the second round writes
are finite, each between 0 and 100, with a sum of at most `100 + 1 / 40000`. -/
theorem getCPU_percentages_bounded (out1 out2 l1 l2 : String) (v1 v2 : List Nat) (p : Proc)
    (hl1 : firstCPULine out1 = some l1) (hl2 : firstCPULine out2 = some l2)
    (hv1 : ((fields l1).drop 1).map parseUint = v1.map some)
    (hv2 : ((fields l2).drop 1).map parseUint = v2.map some)
    (hlen : v1.length = v2.length)
    (hle : ∀ x ∈ v1.zip v2, x.1 ≤ x.2)
    (hsum : v1.sum < v2.sum)
    (hnz : (getCPUF32 (.ok out1) p).1.preCPU.Total ≠ 0)
    (hfit : v2.sum - v1.sum < u64Size) :
    (∃ u n s i w q r g : ℚ,
      (getCPU (.ok out2) (getCPU (.ok out1) p).1).1.stats.CPU.User = F32.fin u ∧
      (getCPU (.ok out2) (getCPU (.ok out1) p).1).1.stats.CPU.Nice = F32.fin n ∧
      (getCPU (.ok out2) (getCPU (.ok out1) p).1).1.stats.CPU.System = F32.fin s ∧
      (getCPU (.ok out2) (getCPU (.ok out1) p).1).1.stats.CPU.Idle = F32.fin i ∧
      (getCPU (.ok out2) (getCPU (.ok out1) p).1).1.stats.CPU.Iowait = F32.fin w ∧
      (getCPU (.ok out2) (getCPU (.ok out1) p).1).1.stats.CPU.Irq = F32.fin q ∧
      (getCPU (.ok out2) (getCPU (.ok out1) p).1).1.stats.CPU.SoftIrq = F32.fin r ∧
      (getCPU (.ok out2) (getCPU (.ok out1) p).1).1.stats.CPU.Guest = F32.fin g ∧
      0 ≤ u ∧ 0 ≤ n ∧ 0 ≤ s ∧ 0 ≤ i ∧ 0 ≤ w ∧ 0 ≤ q ∧ 0 ≤ r ∧ 0 ≤ g ∧
      u + n + s + i + w + q + r + g ≤ 100) ∧
    (∃ u n s i w q r g : ℚ,
      (getCPUF32 (.ok out2) (getCPUF32 (.ok out1) p).1).1.stats.CPU.User = F32.fin u ∧
      (getCPUF32 (.ok out2) (getCPUF32 (.ok out1) p).1).1.stats.CPU.Nice = F32.fin n ∧
      (getCPUF32 (.ok out2) (getCPUF32 (.ok out1) p).1).1.stats.CPU.System = F32.fin s ∧
      (getCPUF32 (.ok out2) (getCPUF32 (.ok out1) p).1).1.stats.CPU.Idle = F32.fin i ∧
      (getCPUF32 (.ok out2) (getCPUF32 (.ok out1) p).1).1.stats.CPU.Iowait = F32.fin w ∧
      (getCPUF32 (.ok out2) (getCPUF32 (.ok out1) p).1).1.stats.CPU.Irq = F32.fin q ∧
      (getCPUF32 (.ok out2) (getCPUF32 (.ok out1) p).1).1.stats.CPU.SoftIrq = F32.fin r ∧
      (getCPUF32 (.ok out2) (getCPUF32 (.ok out1) p).1).1.stats.CPU.Guest = F32.fin g ∧
      0 ≤ u ∧ 0 ≤ n ∧ 0 ≤ s ∧ 0 ≤ i ∧ 0 ≤ w ∧ 0 ≤ q ∧ 0 ≤ r ∧ 0 ≤ g ∧
      u ≤ 100 ∧ n ≤ 100 ∧ s ≤ 100 ∧ i ≤ 100 ∧ w ≤ 100 ∧ q ≤ 100 ∧ r ≤ 100 ∧ g ≤ 100 ∧
      u + n + s + i + w + q + r + g ≤ 100 + 1 / 40000) := by
  have hnz' : (getCPU (.ok out1) p).1.preCPU.Total ≠ 0 := by
    rw [getCPU_ok_preCPU]
    rwa [getCPUF32_ok_preCPU] at hnz
  exact ⟨getCPU_exact_bounded out1 out2 l1 l2 v1 v2 p hl1 hl2 hv1 hv2 hlen hle hsum hnz' hfit,
    getCPUF32_bounded out1 out2 l1 l2 v1 v2 p hl1 hl2 hv1 hv2 hlen hle hsum hnz hfit⟩

/-- C7 amended, at a concrete input: a fresh process reads `cpu 10 0 0 20`, then
`cpu 11 0 0 22`. -/
theorem getCPU_percentages_bounded_witness :
    firstCPULine "cpu 10 0 0 20" = some "cpu 10 0 0 20" ∧
    firstCPULine "cpu 11 0 0 22" = some "cpu 11 0 0 22" ∧
    [10, 0, 0, 20].sum < [11, 0, 0, 22].sum ∧
    (getCPUF32 (.ok "cpu 10 0 0 20") {}).1.preCPU.Total ≠ 0 ∧
    (∃ u n s i w q r g : ℚ,
      (getCPU (.ok "cpu 11 0 0 22") (getCPU (.ok "cpu 10 0 0 20") {}).1).1.stats.CPU.User =
        F32.fin u ∧
      (getCPU (.ok "cpu 11 0 0 22") (getCPU (.ok "cpu 10 0 0 20") {}).1).1.stats.CPU.Nice =
        F32.fin n ∧
      (getCPU (.ok "cpu 11 0 0 22") (getCPU (.ok "cpu 10 0 0 20") {}).1).1.stats.CPU.System =
        F32.fin s ∧
      (getCPU (.ok "cpu 11 0 0 22") (getCPU (.ok "cpu 10 0 0 20") {}).1).1.stats.CPU.Idle =
        F32.fin i ∧
      (getCPU (.ok "cpu 11 0 0 22") (getCPU (.ok "cpu 10 0 0 20") {}).1).1.stats.CPU.Iowait =
        F32.fin w ∧
      (getCPU (.ok "cpu 11 0 0 22") (getCPU (.ok "cpu 10 0 0 20") {}).1).1.stats.CPU.Irq =
        F32.fin q ∧
      (getCPU (.ok "cpu 11 0 0 22") (getCPU (.ok "cpu 10 0 0 20") {}).1).1.stats.CPU.SoftIrq =
        F32.fin r ∧
      (getCPU (.ok "cpu 11 0 0 22") (getCPU (.ok "cpu 10 0 0 20") {}).1).1.stats.CPU.Guest =
        F32.fin g ∧
      0 ≤ u ∧ 0 ≤ n ∧ 0 ≤ s ∧ 0 ≤ i ∧ 0 ≤ w ∧ 0 ≤ q ∧ 0 ≤ r ∧ 0 ≤ g ∧
      u + n + s + i + w + q + r + g ≤ 100) ∧
    (∃ u n s i w q r g : ℚ,
      (getCPUF32 (.ok "cpu 11 0 0 22") (getCPUF32 (.ok "cpu 10 0 0 20") {}).1).1.stats.CPU.User =
        F32.fin u ∧
      (getCPUF32 (.ok "cpu 11 0 0 22") (getCPUF32 (.ok "cpu 10 0 0 20") {}).1).1.stats.CPU.Nice =
        F32.fin n ∧
      (getCPUF32 (.ok "cpu 11 0 0 22") (getCPUF32 (.ok "cpu 10 0 0 20") {}).1).1.stats.CPU.System =
        F32.fin s ∧
      (getCPUF32 (.ok "cpu 11 0 0 22") (getCPUF32 (.ok "cpu 10 0 0 20") {}).1).1.stats.CPU.Idle =
        F32.fin i ∧
      (getCPUF32 (.ok "cpu 11 0 0 22") (getCPUF32 (.ok "cpu 10 0 0 20") {}).1).1.stats.CPU.Iowait =
        F32.fin w ∧
      (getCPUF32 (.ok "cpu 11 0 0 22") (getCPUF32 (.ok "cpu 10 0 0 20") {}).1).1.stats.CPU.Irq =
        F32.fin q ∧
      (getCPUF32 (.ok "cpu 11 0 0 22") (getCPUF32 (.ok "cpu 10 0 0 20") {}).1).1.stats.CPU.SoftIrq =
        F32.fin r ∧
      (getCPUF32 (.ok "cpu 11 0 0 22") (getCPUF32 (.ok "cpu 10 0 0 20") {}).1).1.stats.CPU.Guest =
        F32.fin g ∧
      0 ≤ u ∧ 0 ≤ n ∧ 0 ≤ s ∧ 0 ≤ i ∧ 0 ≤ w ∧ 0 ≤ q ∧ 0 ≤ r ∧ 0 ≤ g ∧
      u ≤ 100 ∧ n ≤ 100 ∧ s ≤ 100 ∧ i ≤ 100 ∧ w ≤ 100 ∧ q ≤ 100 ∧ r ≤ 100 ∧ g ≤ 100 ∧
      u + n + s + i + w + q + r + g ≤ 100 + 1 / 40000) :=
  ⟨by decide, by decide, by decide, by decide,
    getCPU_percentages_bounded "cpu 10 0 0 20" "cpu 11 0 0 22" "cpu 10 0 0 20"
      "cpu 11 0 0 22" [10, 0, 0, 20] [11, 0, 0, 22] {} (by decide) (by decide) (by decide)
      (by decide) (by decide) (by decide) (by decide) (by decide) (by decide)⟩

/-! ## `getFSInfo` -/

lemma fsStep_infos (flag : Nat) (infos : List FSInfo) (l : String) :
    fsStep (flag, infos) l =
      ((fsStep (flag, []) l).1, infos ++ (fsStep (flag, []) l).2) := by
  unfold fsStep
  simp only
  split_ifs
  · simp
  · cases parseUint ((fields l).getD (2 - flag) "") with
    | none => simp
    | some used =>
        cases parseUint ((fields l).getD (3 - flag) "") with
        | none => simp
        | some free => simp
  · simp

lemma fsLoop_nil (st : Nat × List FSInfo) : fsLoop st [] = st := rfl

lemma fsLoop_cons (st : Nat × List FSInfo) (l : String) (ls : List String) :
    fsLoop st (l :: ls) = fsLoop (fsStep st l) ls := rfl

lemma fsLoop_append (st : Nat × List FSInfo) (a b : List String) :
    fsLoop st (a ++ b) = fsLoop (fsLoop st a) b := by
  simp [fsLoop, List.foldl_append]

lemma fsLoop_infos : ∀ (ls : List String) (flag : Nat) (infos : List FSInfo),
    fsLoop (flag, infos) ls =
      ((fsLoop (flag, []) ls).1, infos ++ (fsLoop (flag, []) ls).2)
  | [], flag, infos => by simp [fsLoop_nil]
  | l :: ls, flag, infos => by
      rw [fsLoop_cons, fsLoop_cons, fsStep_infos flag infos l,
        fsLoop_infos ls _ (infos ++ _), fsLoop_infos ls _ (fsStep (flag, []) l).2]
      simp [List.append_assoc]

lemma fsStep_normal {l t0 t1 t2 t3 t4 t5 : String} {used free : Nat}
    (hf : fields l = [t0, t1, t2, t3, t4, t5]) (hdev : startsWith t0 "/dev/" = true)
    (hu : parseUint t2 = some used) (hfr : parseUint t3 = some free)
    (infos : List FSInfo) :
    fsStep (0, infos) l = (0, infos ++ [⟨t5, used, free⟩]) := by
  simp [fsStep, hf, hdev, hu, hfr]

lemma fsStep_of_entry {l : String} {e : FSInfo} (h : fsEntryOfNormalLine l = some e)
    (infos : List FSInfo) : fsStep (0, infos) l = (0, infos ++ [e]) := by
  unfold fsEntryOfNormalLine at h
  split at h
  · rename_i t0 t1 t2 t3 t4 t5 hf
    split_ifs at h with hdev
    split at h
    · rename_i used free hu hfr
      simp only [Option.some.injEq] at h
      subst h
      exact fsStep_normal hf hdev hu hfr infos
    · simp at h
  · simp at h

lemma fsLoop_of_entries : ∀ (ls : List String) (entries infos : List FSInfo),
    ls.map fsEntryOfNormalLine = entries.map some →
    fsLoop (0, infos) ls = (0, infos ++ entries)
  | [], [], infos, _ => by simp [fsLoop_nil]
  | [], _ :: _, _, h => by simp at h
  | _ :: _, [], _, h => by simp at h
  | l :: ls, e :: es, infos, h => by
      simp only [List.map_cons, List.cons.injEq] at h
      rw [fsLoop_cons, fsStep_of_entry h.1, fsLoop_of_entries ls es _ h.2]
      simp

/-- C8, as stated, fails: a normal six-field line that follows a lone device line is read
with the wrapped layout, and yields `60%` as the mount point, 100 as used and 40 as
free instead of `/`, 40 and 60. -/
theorem getFSInfo_lone_device_shifts_fields :
    scanLines dfLoneThenNormal = ["/dev/mapper/vg-root", "/dev/sda1 100 40 60 60% /"] ∧
    fields "/dev/sda1 100 40 60 60% /" = ["/dev/sda1", "100", "40", "60", "60%", "/"] ∧
    (getFSInfo (.ok dfLoneThenNormal) {}).1.FSInfos = [⟨"60%", 100, 40⟩] := by
  decide

/-- C8, amended (the line is reached with no lone device line pending, that is with
`flag` 0): a line of exactly six fields whose first field starts with `/dev/` and whose
fields 2 and 3 parse as unsigned integers contributes one entry with `Used` field 2,
`Free` field 3 and `MountPoint` field 5, placed after the entries of the lines before it
and before those of the lines after it. -/
theorem getFSInfo_normal_line (out : String) (stats : Stats) (pre post : List String)
    (l t0 t1 t2 t3 t4 t5 : String) (used free : Nat)
    (hlines : scanLines out = pre ++ l :: post)
    (hf : fields l = [t0, t1, t2, t3, t4, t5])
    (hdev : startsWith t0 "/dev/" = true)
    (hu : parseUint t2 = some used) (hfr : parseUint t3 = some free)
    (hflag : (fsLoop (0, []) pre).1 = 0) :
    (getFSInfo (.ok out) stats).1.FSInfos =
      stats.FSInfos ++ (fsLoop (0, []) pre).2 ++ [⟨t5, used, free⟩] ++
        (fsLoop (0, []) post).2 := by
  simp only [getFSInfo, hlines]
  rw [fsLoop_append, fsLoop_cons, fsLoop_infos pre, hflag, fsStep_normal hf hdev hu hfr,
    fsLoop_infos post]

/-- C8 amended, at a concrete input: between a header line and a `tmpfs` line, the line
`/dev/sda1 100 40 60 60% /` yields the entry with mount point `/`, 40 used and 60 free. -/
theorem getFSInfo_normal_line_witness :
    scanLines dfHeaderNormal =
      ["Filesystem 1B-blocks Used Available Use% Mounted on"] ++
        "/dev/sda1 100 40 60 60% /" :: ["tmpfs 5 1 4 20% /run"] ∧
    fields "/dev/sda1 100 40 60 60% /" = ["/dev/sda1", "100", "40", "60", "60%", "/"] ∧
    (fsLoop (0, []) ["Filesystem 1B-blocks Used Available Use% Mounted on"]).1 = 0 ∧
    (getFSInfo (.ok dfHeaderNormal) {}).1.FSInfos = [⟨"/", 40, 60⟩] :=
  ⟨by decide, by decide, by decide,
    (getFSInfo_normal_line dfHeaderNormal {}
      ["Filesystem 1B-blocks Used Available Use% Mounted on"] ["tmpfs 5 1 4 20% /run"]
      "/dev/sda1 100 40 60 60% /" "/dev/sda1" "100" "40" "60" "60%" "/" 40 60 (by decide)
      (by decide) (by decide) (by decide) (by decide) (by decide)).trans (by decide)⟩

/-- C9: when the scanner yields for one input a line holding only the device field `d`
followed by a line of five fields `t1 .. t5`, and for another input the single line of
fields `d t1 .. t5`, with `d` starting with `/dev/`, `getFSInfo` produces the same
`FSInfos` on both: the old entries, then one entry with `Used` `t2`, `Free` `t3` and
`MountPoint` `t5` when `t2` and `t3` are numeric. -/
theorem getFSInfo_wrapped_eq_unwrapped (outW outU lw1 lw2 lu d t1 t2 t3 t4 t5 : String)
    (stats : Stats)
    (hW : scanLines outW = [lw1, lw2]) (hw1 : fields lw1 = [d])
    (hw2 : fields lw2 = [t1, t2, t3, t4, t5])
    (hU : scanLines outU = [lu]) (hu : fields lu = [d, t1, t2, t3, t4, t5])
    (hdev : startsWith d "/dev/" = true) :
    (getFSInfo (.ok outW) stats).1.FSInfos = (getFSInfo (.ok outU) stats).1.FSInfos ∧
    (getFSInfo (.ok outU) stats).1.FSInfos =
      match parseUint t2, parseUint t3 with
      | some used, some free => stats.FSInfos ++ [⟨t5, used, free⟩]
      | _, _ => stats.FSInfos := by
  have hWv : (getFSInfo (.ok outW) stats).1.FSInfos =
      match parseUint t2, parseUint t3 with
      | some used, some free => stats.FSInfos ++ [⟨t5, used, free⟩]
      | _, _ => stats.FSInfos := by
    simp only [getFSInfo, hW, fsLoop_cons, fsLoop_nil]
    have s1 : fsStep (0, stats.FSInfos) lw1 = (1, stats.FSInfos) := by
      simp [fsStep, hw1, hdev]
    rw [s1]
    cases h2 : parseUint t2 with
    | none => simp [fsStep, hw2, h2]
    | some used =>
        cases h3 : parseUint t3 with
        | none => simp [fsStep, hw2, h2, h3]
        | some free => simp [fsStep, hw2, h2, h3]
  have hUv : (getFSInfo (.ok outU) stats).1.FSInfos =
      match parseUint t2, parseUint t3 with
      | some used, some free => stats.FSInfos ++ [⟨t5, used, free⟩]
      | _, _ => stats.FSInfos := by
    simp only [getFSInfo, hU, fsLoop_cons, fsLoop_nil]
    cases h2 : parseUint t2 with
    | none => simp [fsStep, hu, hdev, h2]
    | some used =>
        cases h3 : parseUint t3 with
        | none => simp [fsStep, hu, hdev, h2, h3]
        | some free => simp [fsStep, hu, hdev, h2, h3]
  exact ⟨hWv.trans hUv.symm, hUv⟩

/-- C9 at a concrete input: a wrapped `/dev/mapper/vg-root` entry and its one-line form. -/
theorem getFSInfo_wrapped_eq_unwrapped_witness :
    scanLines dfWrapped = ["/dev/mapper/vg-root", " 100 40 60 60% /"] ∧
    scanLines dfUnwrapped = ["/dev/mapper/vg-root 100 40 60 60% /"] ∧
    (getFSInfo (.ok dfWrapped) statsWithFS).1.FSInfos =
      (getFSInfo (.ok dfUnwrapped) statsWithFS).1.FSInfos ∧
    (getFSInfo (.ok dfUnwrapped) statsWithFS).1.FSInfos = [⟨"/boot", 7, 9⟩, ⟨"/", 40, 60⟩] :=
  ⟨by decide, by decide,
    (getFSInfo_wrapped_eq_unwrapped dfWrapped dfUnwrapped "/dev/mapper/vg-root"
      " 100 40 60 60% /" "/dev/mapper/vg-root 100 40 60 60% /" "/dev/mapper/vg-root"
      "100" "40" "60" "60%" "/" statsWithFS (by decide) (by decide) (by decide) (by decide)
      (by decide) (by decide)).1,
    by decide⟩

/-- C10: for an output all of whose `k` lines are normal lines (six fields, the first
starting with `/dev/`, numeric used and free), `getFSInfo` keeps the entries already in
`stats.FSInfos` and appends exactly `k` entries, the i-th being the entry of the i-th
line; nothing is reordered or merged. -/
theorem getFSInfo_appends_in_order (out : String) (stats : Stats) (entries : List FSInfo)
    (h : (scanLines out).map fsEntryOfNormalLine = entries.map some) :
    (getFSInfo (.ok out) stats).1.FSInfos = stats.FSInfos ++ entries ∧
    (getFSInfo (.ok out) stats).1.FSInfos.length =
      stats.FSInfos.length + (scanLines out).length := by
  have e : (getFSInfo (.ok out) stats).1.FSInfos = stats.FSInfos ++ entries := by
    simp only [getFSInfo, fsLoop_of_entries _ entries _ h]
  refine ⟨e, ?_⟩
  have hl := congrArg List.length h
  simp only [List.length_map] at hl
  rw [e, List.length_append, hl]

/-- C10 at a concrete input: three normal lines, two of them mounted on `/mnt`, after one
existing entry. -/
theorem getFSInfo_appends_in_order_witness :
    (scanLines dfThree).map fsEntryOfNormalLine =
      [(⟨"/", 40, 60⟩ : FSInfo), ⟨"/mnt", 50, 150⟩, ⟨"/mnt", 10, 290⟩].map some ∧
    (getFSInfo (.ok dfThree) statsWithFS).1.FSInfos =
      [⟨"/boot", 7, 9⟩] ++ [⟨"/", 40, 60⟩, ⟨"/mnt", 50, 150⟩, ⟨"/mnt", 10, 290⟩] :=
  ⟨by decide,
    (getFSInfo_appends_in_order dfThree statsWithFS
      [⟨"/", 40, 60⟩, ⟨"/mnt", 50, 150⟩, ⟨"/mnt", 10, 290⟩] (by decide)).1⟩

/-! ## `getMemInfo` -/

lemma memLoop_nil (s : Stats) : memLoop s [] = s := rfl

lemma memLoop_cons (s : Stats) (l : String) (ls : List String) :
    memLoop s (l :: ls) = memLoop (memStep s l) ls := rfl

lemma memLoop_append (s : Stats) (a b : List String) :
    memLoop s (a ++ b) = memLoop (memLoop s a) b := by
  simp [memLoop, List.foldl_append]

lemma memStep_sets {l label tv unit : String} {v : Nat}
    (hf : fields l = [label, tv, unit]) (hlabel : label ∈ memLabels)
    (hv : parseUint tv = some v) (s : Stats) :
    memField label (memStep s l) = some (wrapMul v 1024) := by
  simp only [memLabels, List.mem_cons, List.mem_singleton, List.not_mem_nil, or_false] at hlabel
  rcases hlabel with h | h | h | h | h | h <;> subst h <;>
    simp [memStep, hf, hv, memField]

lemma memStep_keeps {l label : String}
    (h : ¬ ((fields l).length = 3 ∧ (fields l).head? = some label)) (s : Stats) :
    memField label (memStep s l) = memField label s := by
  unfold memStep
  simp only
  by_cases h3 : (fields l).length = 3
  · simp only [h3, if_true]
    cases hp : parseUint ((fields l).getD 1 "") with
    | none => rfl
    | some v =>
        have hne : ¬ label = (fields l).getD 0 "" := by
          intro he
          apply h
          refine ⟨h3, ?_⟩
          cases hfl : fields l with
          | nil => rw [hfl] at h3; simp at h3
          | cons a rest => rw [hfl] at he; simp [he]
        simp only
        generalize (fields l).getD 0 "" = lab0 at hne
        split_ifs with c1 c2 c3 c4 c5 c6
        · subst c1; simp only [memField, hne, if_false]
        · subst c2; simp only [memField, hne, if_false]
        · subst c3; simp only [memField, hne, if_false]
        · subst c4; simp only [memField, hne, if_false]
        · subst c5; simp only [memField, hne, if_false]
        · subst c6; simp only [memField, hne, if_false]
        · rfl
  · simp only [h3, if_false]

lemma memLoop_keeps {label : String} : ∀ (ls : List String) (s : Stats),
    (∀ l ∈ ls, ¬ ((fields l).length = 3 ∧ (fields l).head? = some label)) →
    memField label (memLoop s ls) = memField label s
  | [], s, _ => rfl
  | l :: ls, s, h => by
      rw [memLoop_cons, memLoop_keeps ls _ (fun l' hl' => h l' (List.mem_cons_of_mem _ hl')),
        memStep_keeps (h l (List.mem_cons_self _ _))]

/-- C11, as stated, fails: the value `2 ^ 54` parses as an unsigned 64-bit decimal, but
`val *= 1024` wraps around and `MemTotal` is 0, not `2 ^ 64`. -/
theorem getMemInfo_value_wraps :
    scanLines memHuge = ["MemTotal: 18014398509481984 kB"] ∧
    fields "MemTotal: 18014398509481984 kB" = ["MemTotal:", "18014398509481984", "kB"] ∧
    parseUint "18014398509481984" = some 18014398509481984 ∧
    (getMemInfo (.ok memHuge) {}).1.MemTotal = 0 ∧
    18014398509481984 * 1024 ≠ 0 := by
  decide

/-- C11, amended (the product is taken modulo `2 ^ 64`): when one of the six labels occurs
on exactly one 3-token line `label v unit` of the scanned output and `v` parses as an
unsigned 64-bit decimal, the matching field of `Stats` is `v * 1024` modulo `2 ^ 64`
after `getMemInfo`; this is `v * 1024` itself when `v < 2 ^ 54`. -/
theorem getMemInfo_label_value (out : String) (stats : Stats) (pre post : List String)
    (l label tv unit : String) (v : Nat)
    (hlines : scanLines out = pre ++ l :: post)
    (hf : fields l = [label, tv, unit])
    (hlabel : label ∈ memLabels)
    (hv : parseUint tv = some v)
    (huniq : ∀ l' ∈ pre ++ post,
      ¬ ((fields l').length = 3 ∧ (fields l').head? = some label)) :
    memField label (getMemInfo (.ok out) stats).1 = some (v * 1024 % u64Size) ∧
    (v < 18014398509481984 →
      memField label (getMemInfo (.ok out) stats).1 = some (v * 1024)) := by
  have key : memField label (getMemInfo (.ok out) stats).1 = some (v * 1024 % u64Size) := by
    simp only [getMemInfo, hlines]
    rw [memLoop_append, memLoop_cons,
      memLoop_keeps post _ (fun l' hl' => huniq l' (List.mem_append_right _ hl')),
      memStep_sets hf hlabel hv]
    rfl
  refine ⟨key, fun hsmall => ?_⟩
  rw [key, Nat.mod_eq_of_lt]
  simp only [u64Size]
  omega

/-- C11 amended, at a concrete input: `MemTotal: 1024 kB` gives 1,048,576 bytes. -/
theorem getMemInfo_label_value_witness :
    scanLines memSmall =
      [] ++ "MemTotal: 1024 kB" ::
        ["MemFree: 512 kB", "HugePages_Total: 0", "Dirty: 8 kB"] ∧
    fields "MemTotal: 1024 kB" = ["MemTotal:", "1024", "kB"] ∧
    parseUint "1024" = some 1024 ∧
    memField "MemTotal:" (getMemInfo (.ok memSmall) {}).1 = some 1048576 :=
  ⟨by decide, by decide, by decide,
    (getMemInfo_label_value memSmall {} []
      ["MemFree: 512 kB", "HugePages_Total: 0", "Dirty: 8 kB"] "MemTotal: 1024 kB"
      "MemTotal:" "1024" "kB" 1024 (by decide) (by decide) (by decide) (by decide)
      (by decide)).2 (by decide)⟩


lemma memStep_skipped {l : String} (h : memSkipped l = true) (s : Stats) :
    memStep s l = s := by
  unfold memStep
  simp only
  by_cases h3 : (fields l).length = 3
  · simp only [h3, if_true]
    cases hp : parseUint ((fields l).getD 1 "") with
    | none => rfl
    | some v =>
        have hl : (fields l).getD 0 "" ∉ memLabels := by
          unfold memSkipped at h
          rw [hp] at h
          simpa [h3] using h
        simp only [memLabels, List.mem_cons, List.mem_singleton, List.not_mem_nil, or_false,
          not_or] at hl
        obtain ⟨n1, n2, n3, n4, n5, n6⟩ := hl
        simp only [n1, n2, n3, n4, n5, n6, if_false]
  · simp only [h3, if_false]

lemma memLoop_filter : ∀ (ls : List String) (s : Stats),
    memLoop s (ls.filter (fun l => !memSkipped l)) = memLoop s ls
  | [], _ => rfl
  | l :: ls, s => by
      cases h : memSkipped l with
      | true =>
          rw [List.filter_cons_of_neg (by simp [h]), memLoop_cons, memStep_skipped h,
            memLoop_filter ls s]
      | false =>
          rw [List.filter_cons_of_pos (by simp [h]), memLoop_cons, memLoop_cons,
            memLoop_filter ls _]

lemma scanGo_replicate (c : Char) (hc : c ≠ '\n') : ∀ (n : Nat) (cur rest : List Char),
    scanGo cur (List.replicate n c ++ rest) = scanGo (List.replicate n c ++ cur) rest
  | 0, _, _ => rfl
  | n + 1, cur, rest => by
      have h : List.replicate (n + 1) c ++ cur = List.replicate n c ++ c :: cur := by
        rw [List.replicate_succ', List.append_assoc]
        rfl
      rw [h, ← scanGo_replicate c hc n (c :: cur) rest, List.replicate_succ, List.cons_append]
      simp only [scanGo, hc, if_false]

lemma utf8Len_replicate_x (n : Nat) : utf8Len (List.replicate n 'x') = n := by
  have h : Char.utf8Size 'x' = 1 := by decide
  simp [utf8Len, List.map_replicate, h]

lemma fieldsGo_replicate (c : Char) (hc : isSpace c = false) : ∀ (n : Nat) (cur : List Char),
    fieldsGo cur (List.replicate n c) =
      if (List.replicate n c ++ cur).isEmpty then [] else [(List.replicate n c ++ cur).reverse]
  | 0, cur => by simp [fieldsGo]
  | n + 1, cur => by
      have h : List.replicate (n + 1) c ++ cur = List.replicate n c ++ c :: cur := by
        rw [List.replicate_succ', List.append_assoc]
        rfl
      rw [h, ← fieldsGo_replicate c hc n (c :: cur), List.replicate_succ]
      simp only [fieldsGo, hc, Bool.false_eq_true, if_false]

lemma fields_longLine : (fields longLine).length = 1 := by
  have h := fieldsGo_replicate 'x' (by decide) 65536 []
  have hne : (List.replicate 65536 'x' ++ ([] : List Char)).isEmpty = false := by
    rw [List.append_nil, List.isEmpty_eq_false]
    intro hnil
    have hl := congrArg List.length hnil
    rw [List.length_replicate] at hl
    exact absurd hl (by decide)
  rw [hne] at h
  simp only [Bool.false_eq_true, if_false] at h
  show ((fieldsGo [] (List.replicate 65536 'x')).map String.mk).length = 1
  rw [h]
  rfl

lemma scanLines_memLongFirst : scanLines memLongFirst = [] := by
  have hd : memLongFirst.data =
      List.replicate 65536 'x' ++ '\n' :: ("MemFree: 512 kB\n" : String).data := by
    show (longLine ++ "\nMemFree: 512 kB\n").data = _
    rw [String.data_append]
    rfl
  have hlen : maxScanTokenSize ≤ utf8Len (List.replicate 65536 'x' ++ ([] : List Char)) := by
    rw [List.append_nil, utf8Len_replicate_x]
    decide
  show (scanGo [] memLongFirst.data).map String.mk = []
  rw [hd, scanGo_replicate 'x' (by decide) 65536 [] _]
  simp only [scanGo, if_true, hlen, List.map_nil]

/-- C12, as stated, fails: a first line of 65536 bytes holds one token, so it is a line
with a token count other than 3, but the scanner stops at it; the line `MemFree: 512 kB`
that follows is not parsed and `MemFree` stays 0, while on the output without the long
line it is 524288. -/
theorem getMemInfo_long_line_stops_scan :
    (fields longLine).length = 1 ∧
    memSkipped longLine = true ∧
    memLongFirst = longLine ++ "\nMemFree: 512 kB\n" ∧
    (getMemInfo (.ok memLongFirst) {}).1.MemFree = 0 ∧
    (getMemInfo (.ok "MemFree: 512 kB\n") {}).1.MemFree = 524288 := by
  refine ⟨fields_longLine, ?_, rfl, ?_, by decide⟩
  · unfold memSkipped
    rw [fields_longLine]
    rfl
  · simp only [getMemInfo, scanLines_memLongFirst]
    rfl

lemma scanGo_line : ∀ (l cur rest : List Char), '\n' ∉ l →
    scanGo cur (l ++ '\n' :: rest) =
      if maxScanTokenSize ≤ utf8Len (l.reverse ++ cur) then []
      else (dropCR (l.reverse ++ cur)).reverse :: scanGo [] rest
  | [], cur, rest, _ => by simp [scanGo]
  | c :: l, cur, rest, h => by
      have hc : c ≠ '\n' := fun e => h (e ▸ List.mem_cons_self _ _)
      have hl : '\n' ∉ l := fun m => h (List.mem_cons_of_mem _ m)
      have e : (c :: l).reverse ++ cur = l.reverse ++ c :: cur := by simp
      rw [e, ← scanGo_line l (c :: cur) rest hl]
      simp [scanGo, hc]

lemma dropCR_reverse (l : List Char) (h : l.getLast? ≠ some '\r') :
    dropCR l.reverse = l.reverse := by
  have hh : l.reverse.head? ≠ some '\r' := by rwa [List.head?_reverse]
  cases hr : l.reverse with
  | nil => rfl
  | cons a t =>
      rw [hr] at hh
      have ha : a ≠ '\r' := fun e => hh (by rw [e]; rfl)
      unfold dropCR
      split
      · next heq =>
          injection heq with h1 _
          exact absurd h1 ha
      · rfl

lemma scanGo_unlines : ∀ ls : List String, (∀ l ∈ ls, shortLine l = true) →
    scanGo [] (unlinesGo ls) = ls.map String.data
  | [], _ => by simp [unlinesGo, scanGo]
  | l :: ls, h => by
      have hl := h l (List.mem_cons_self _ _)
      simp only [shortLine, Bool.and_eq_true, Bool.not_eq_true', bne_iff_ne, ne_eq,
        decide_eq_true_eq] at hl
      obtain ⟨⟨h1, h2⟩, h3⟩ := hl
      have hn : '\n' ∉ l.data := by simpa using h1
      have hlen : utf8Len (l.data.reverse ++ []) = utf8Len l.data := by
        simp [utf8Len, List.sum_reverse]
      rw [unlinesGo, scanGo_line l.data [] _ hn, hlen, if_neg (not_le.mpr h3),
        List.append_nil, dropCR_reverse _ h2, List.reverse_reverse,
        scanGo_unlines ls (fun l' hl' => h l' (List.mem_cons_of_mem _ hl'))]
      rfl

lemma scanLines_unlines (ls : List String) (h : ∀ l ∈ ls, shortLine l = true) :
    scanLines (unlines ls) = ls := by
  unfold scanLines unlines
  rw [scanGo_unlines ls h, List.map_map]
  exact List.map_id _

/-- C12, amended (a line the scanner yields, that is a line of less than 64 KiB): a scanned
meminfo line with a token count other than 3, an unrecognized label or a value that does
not parse changes no field of `Stats` and does not stop the later lines, and `getMemInfo`
gives the same result on an output as on the output whose scanned lines are those that
remain once such lines are removed; in particular on a text made of lines of less than
64 KiB and on the text made of those of its lines that are not such lines. -/
theorem getMemInfo_skips_lines (out out' : String) (stats : Stats)
    (h : scanLines out' = (scanLines out).filter (fun l => !memSkipped l)) :
    getMemInfo (.ok out') stats = getMemInfo (.ok out) stats ∧
    (∀ (l : String) (s : Stats), memSkipped l = true → memStep s l = s) ∧
    (∀ ls : List String, (∀ l ∈ ls, shortLine l = true) →
      getMemInfo (.ok (unlines (ls.filter (fun l => !memSkipped l)))) stats =
        getMemInfo (.ok (unlines ls)) stats) := by
  refine ⟨?_, fun l s hl => memStep_skipped hl s, fun ls hs => ?_⟩
  · simp only [getMemInfo, h, memLoop_filter]
  · have hf : ∀ l ∈ ls.filter (fun l => !memSkipped l), shortLine l = true :=
      fun l hl => hs l (List.mem_of_mem_filter hl)
    simp only [getMemInfo, scanLines_unlines _ hs, scanLines_unlines _ hf, memLoop_filter]

/-- C12 amended, at a concrete input: the lines `Dirty: 8 kB` (unrecognized label),
`HugePages_Total: 0` (two tokens) and `MemFree: x kB` (not a number) come before a parsed
line and can be removed without changing the result; the last line is still parsed. -/
theorem getMemInfo_skips_lines_witness :
    scanLines memSmallKept = (scanLines memMixed).filter (fun l => !memSkipped l) ∧
    memMixed = unlines ["Dirty: 8 kB", "MemTotal: 1024 kB", "HugePages_Total: 0",
      "MemFree: x kB", "MemFree: 512 kB"] ∧
    memSmallKept = unlines ["MemTotal: 1024 kB", "MemFree: 512 kB"] ∧
    memSkipped "Dirty: 8 kB" = true ∧
    memSkipped "HugePages_Total: 0" = true ∧
    memSkipped "MemFree: x kB" = true ∧
    getMemInfo (.ok memSmallKept) {} = getMemInfo (.ok memMixed) {} ∧
    (getMemInfo (.ok memMixed) {}).1.MemFree = 524288 :=
  ⟨by decide, by decide, by decide, by decide, by decide, by decide,
    (getMemInfo_skips_lines memMixed memSmallKept {} (by decide)).1, by decide⟩

/-! ## `getLoad` -/

lemma span_ne_slash : ∀ (b a : List Char), '/' ∉ b →
    (b ++ '/' :: a).span (fun c => c != '/') = (b, '/' :: a)
  | [], a, _ => by simp [List.span_eq_take_drop]
  | x :: b, a, h => by
      have hx : x ≠ '/' := fun e => h (by simp [e])
      have hb : '/' ∉ b := fun e => h (List.mem_cons_of_mem _ e)
      have ih := span_ne_slash b a hb
      simp only [List.span_eq_take_drop, Prod.mk.injEq] at ih
      simp [List.span_eq_take_drop, List.takeWhile_cons, List.dropWhile_cons, hx, ih.1, ih.2]

lemma cutSlash_append (b a : String) (hb : '/' ∉ b.data) :
    cutSlash (b ++ "/" ++ a) = some (b, a) := by
  have hd : (b ++ "/" ++ a).data = b.data ++ '/' :: a.data := by
    simp [String.data_append]
  unfold cutSlash
  rw [hd, span_ne_slash _ _ hb]

lemma getLoad_five {line t0 t1 t2 t3 t4 b a : String}
    (hf : fields line = [t0, t1, t2, t3, t4]) (hcut : cutSlash t3 = some (b, a))
    (stats : Stats) :
    (getLoad (.ok line) stats).1 =
      if a.data.isEmpty then
        { stats with Load1 := t0, Load5 := t1, Load10 := t2, RunningProcs := b }
      else
        { stats with Load1 := t0, Load5 := t1, Load10 := t2, RunningProcs := b,
                     TotalProcs := a } := by
  have g0 : [t0, t1, t2, t3, t4].getD 0 "" = t0 := rfl
  have g1 : [t0, t1, t2, t3, t4].getD 1 "" = t1 := rfl
  have g2 : [t0, t1, t2, t3, t4].getD 2 "" = t2 := rfl
  have g3 : [t0, t1, t2, t3, t4].getD 3 "" = t3 := rfl
  have hlen : [t0, t1, t2, t3, t4].length = 5 := rfl
  simp only [getLoad, hf, hlen, if_true, g0, g1, g2, g3, hcut]
  cases a.data.isEmpty <;> rfl

/-- C13: on a `Stats` whose `TotalProcs` is still empty, as it is whenever the program
calls `getLoad` (`getAllStats` starts from `Stats{}` and the two probes before `getLoad`
do not write it), a load line of exactly five tokens whose fourth token is `before/after`
with no `/` in `before` sets `Load1`, `Load5`, `Load10` to tokens 0, 1, 2, `RunningProcs`
to `before` and `TotalProcs` to `after`, so that running, `/` and total rebuild the
token; for any other number of tokens `Stats` is unchanged. -/
theorem getLoad_sets_fields (line : String) (stats : Stats) (hempty : stats.TotalProcs = "") :
    (∀ t0 t1 t2 t4 before after : String,
      fields line = [t0, t1, t2, before ++ "/" ++ after, t4] → '/' ∉ before.data →
      (getLoad (.ok line) stats).1.Load1 = t0 ∧
      (getLoad (.ok line) stats).1.Load5 = t1 ∧
      (getLoad (.ok line) stats).1.Load10 = t2 ∧
      (getLoad (.ok line) stats).1.RunningProcs = before ∧
      (getLoad (.ok line) stats).1.TotalProcs = after ∧
      (getLoad (.ok line) stats).1.RunningProcs ++ "/" ++
        (getLoad (.ok line) stats).1.TotalProcs = before ++ "/" ++ after) ∧
    ((fields line).length ≠ 5 → (getLoad (.ok line) stats).1 = stats) ∧
    (∀ (lib : FloatLib) (r1 r2 : CmdResult),
      (getHostname r2 (getUptime lib r1 {}).1).1.TotalProcs = "") := by
  refine ⟨?_, ?_, ?_⟩
  · intro t0 t1 t2 t4 before after hf hb
    have hres := getLoad_five hf (cutSlash_append before after hb) stats
    by_cases ha : after = ""
    · have he : after.data.isEmpty = true := by rw [ha]; rfl
      rw [he] at hres
      simp only [if_true] at hres
      rw [hres]
      refine ⟨rfl, rfl, rfl, rfl, ?_, ?_⟩
      · simp only [hempty, ha]
      · simp only [hempty, ha]
    · have he : after.data.isEmpty = false := by
        cases hd : after.data with
        | nil => exact absurd (String.ext hd) ha
        | cons c cs => rfl
      rw [he] at hres
      simp only [Bool.false_eq_true, if_false] at hres
      rw [hres]
      exact ⟨rfl, rfl, rfl, rfl, rfl, rfl⟩
  · intro hlen
    simp only [getLoad, hlen, if_false]
  · intro lib r1 r2
    cases r2 with
    | error e =>
        simp only [getHostname]
        cases r1 with
        | error e' => rfl
        | ok out =>
            simp only [getUptime]
            split_ifs
            · cases lib.parseFloat ((fields out).getD 0 "") <;> rfl
            · rfl
    | ok host =>
        simp only [getHostname]
        cases r1 with
        | error e' => rfl
        | ok out =>
            simp only [getUptime]
            split_ifs
            · cases lib.parseFloat ((fields out).getD 0 "") <;> rfl
            · rfl

/-- C13 at a concrete input: the line `0.10 0.20 0.30 3/245 9876` on a fresh `Stats`, and
a line with two tokens. -/
theorem getLoad_sets_fields_witness :
    ({} : Stats).TotalProcs = "" ∧
    fields "0.10 0.20 0.30 3/245 9876" = ["0.10", "0.20", "0.30", "3" ++ "/" ++ "245", "9876"] ∧
    (getLoad (.ok "0.10 0.20 0.30 3/245 9876") {}).1.Load1 = "0.10" ∧
    (getLoad (.ok "0.10 0.20 0.30 3/245 9876") {}).1.Load5 = "0.20" ∧
    (getLoad (.ok "0.10 0.20 0.30 3/245 9876") {}).1.Load10 = "0.30" ∧
    (getLoad (.ok "0.10 0.20 0.30 3/245 9876") {}).1.RunningProcs = "3" ∧
    (getLoad (.ok "0.10 0.20 0.30 3/245 9876") {}).1.TotalProcs = "245" ∧
    ((fields "0.10 0.20").length ≠ 5 ∧ (getLoad (.ok "0.10 0.20") {}).1 = {}) :=
  have h := (getLoad_sets_fields "0.10 0.20 0.30 3/245 9876" {} rfl).1 "0.10" "0.20" "0.30"
    "9876" "3" "245" (by decide) (by decide)
  ⟨rfl, by decide, h.1, h.2.1, h.2.2.1, h.2.2.2.1, h.2.2.2.2.1, by decide,
    (getLoad_sets_fields "0.10 0.20" {} rfl).2.1 (by decide)⟩

/-! ## `getUptime` -/

lemma truncRat_of_nonneg {q : ℚ} (h : 0 ≤ q) : truncRat q = ⌊q⌋ := by
  unfold truncRat
  rw [Rat.floor_def, Int.tdiv_eq_ediv (Rat.num_nonneg.mpr h) (Int.ofNat_nonneg _)]

lemma binary64_one : binary64.nearest 1 = 1 := by decide!

lemma binary64_top : binary64.nearest 4611686018427387904 = 4611686018427387904 := by
  decide!

lemma binary64_limit : (4611686018427387904 : ℚ) < (2 : ℚ) ^ (binary64.emax + 1) := by
  decide!

/-- The relative error of one `float64` rounding of a value of at least 1. -/
lemma binary64_error {q : ℚ} (h : 1 ≤ q) :
    |binary64.nearest q - q| ≤ q / 9007199254740992 := by
  have hq : 0 < q := lt_of_lt_of_le (by norm_num) h
  have hlog : binary64.emin ≤ ilog2 q := by
    have := ilog2_mono (by norm_num) h
    rw [ilog2_one] at this
    have he : binary64.emin = -1022 := rfl
    omega
  have := binary64.abs_nearest_sub_le hq hlog
  have hp : (2 : ℚ) ^ (binary64.prec : Int) = 9007199254740992 := by
    have : (binary64.prec : Int) = 53 := rfl
    rw [this]
    norm_num
  rwa [hp] at this

/-- The `float64` product of `getUptime` and its conversion, for a product between 1 and
`2 ^ 62`: the product is finite, its integer part fits an `int64` and lies within
`1 + p / 2 ^ 53` of the exact product `p`. -/
lemma uptime_product {p : ℚ} (h1 : 1 ≤ p) (h2 : p ≤ 4611686018427387904) :
    binary64.round (F32.fin p) = F32.fin (binary64.nearest p) ∧
    -9223372036854775808 ≤ truncRat (binary64.nearest p) ∧
    truncRat (binary64.nearest p) ≤ 9223372036854775807 ∧
    |(truncRat (binary64.nearest p) : ℚ) - p| < 1 + p / 9007199254740992 := by
  have hp : 1 ≤ binary64.prec := by decide
  have hpos : 0 ≤ p := by linarith
  have v1 : 1 ≤ binary64.nearest p := by
    have := binary64.nearest_mono hp (by norm_num) h1
    rwa [binary64_one] at this
  have v2 : binary64.nearest p ≤ 4611686018427387904 := by
    have := binary64.nearest_mono hp (by linarith) h2
    rwa [binary64_top] at this
  have ve := binary64_error h1
  have hr : binary64.round (F32.fin p) = F32.fin (binary64.nearest p) :=
    binary64.round_fin_of_nonneg hpos (lt_of_le_of_lt v2 binary64_limit)
  generalize binary64.nearest p = v at v1 v2 ve hr ⊢
  have hv0 : 0 ≤ v := by linarith
  have hfl : truncRat v = ⌊v⌋ := truncRat_of_nonneg hv0
  have f1 : (⌊v⌋ : ℚ) ≤ v := Int.floor_le v
  have f2 : v < (⌊v⌋ : ℚ) + 1 := Int.lt_floor_add_one v
  have f0 : 0 ≤ ⌊v⌋ := Int.floor_nonneg.mpr hv0
  have ftop : ⌊v⌋ ≤ 4611686018427387904 := by
    have : (⌊v⌋ : ℚ) ≤ ((4611686018427387904 : Int) : ℚ) := by
      push_cast
      linarith
    exact_mod_cast this
  refine ⟨?_, ?_, ?_, ?_⟩
  · exact hr
  · rw [hfl]
    omega
  · rw [hfl]
    omega
  · rw [hfl, abs_lt]
    obtain ⟨e1, e2⟩ := abs_le.mp ve
    constructor <;> linarith

/-- C14, as stated, fails in two ways. An uptime output of three tokens whose first token
is a valid decimal number leaves `Uptime` at 0, because the code asks for exactly two
tokens. And on the two-token output `2.01 1.00` the value written is 2009999999, not the
2010000000 nanoseconds of 2.01 seconds: the `float64` nearest to 2.01 is below it, and
the fraction of the `float64` product is discarded. -/
theorem getUptime_differs_from_nanoseconds :
    fields "12345.67 8901.23 7" = ["12345.67", "8901.23", "7"] ∧
    (decimalFloat.parseFloat "12345.67").isSome = true ∧
    (getUptime decimalFloat (.ok "12345.67 8901.23 7") {}).1.Uptime = 0 ∧
    fields "2.01 1.00" = ["2.01", "1.00"] ∧
    decimalFloat.parseFloat "2.01" = some (F32.fin (1131529406376837 / 562949953421312)) ∧
    binary64.round (F32.mul (F32.fin (1131529406376837 / 562949953421312))
      (F32.fin 1000000000)) = F32.fin (8430551039999999 / 4194304) ∧
    (getUptime decimalFloat (.ok "2.01 1.00") {}).1.Uptime = 2009999999 ∧
    (201 / 100 : ℚ) * 10 ^ 9 = 2010000000 := by
  decide!

/-- C14, amended (exactly two tokens; the product is the `float64` product, and its
fraction is discarded): for an uptime output of exactly two tokens whose first token
`strconv.ParseFloat` reads as the `float64` value `s`, `getUptime` sets `Uptime` to the
integer part of the `float64` product `s * 1e9`, when that fits an `int64`, and changes
no other field; when `s * 10 ^ 9` lies between 1 and `2 ^ 62` the value written is
within `1 + s * 10 ^ 9 / 2 ^ 53` of it; when the first token does not parse, or the
output does not have exactly two tokens, `Stats` is unchanged. -/
theorem getUptime_two_tokens (lib : FloatLib) (out : String) (stats : Stats) :
    (∀ (t0 t1 : String) (s : F64) (v : ℚ), fields out = [t0, t1] →
      lib.parseFloat t0 = some s →
      binary64.round (F32.mul s (F32.fin 1000000000)) = F32.fin v →
      -9223372036854775808 ≤ truncRat v → truncRat v ≤ 9223372036854775807 →
      getUptime lib (.ok out) stats = ({ stats with Uptime := truncRat v }, none)) ∧
    (∀ (t0 t1 : String) (q : ℚ), fields out = [t0, t1] →
      lib.parseFloat t0 = some (F32.fin q) →
      1 ≤ q * 1000000000 → q * 1000000000 ≤ 4611686018427387904 →
      |((getUptime lib (.ok out) stats).1.Uptime : ℚ) - q * 1000000000| <
        1 + q * 1000000000 / 9007199254740992) ∧
    (∀ t0 t1 : String, fields out = [t0, t1] → lib.parseFloat t0 = none →
      (getUptime lib (.ok out) stats).1 = stats) ∧
    ((fields out).length ≠ 2 → getUptime lib (.ok out) stats = (stats, none)) := by
  have key : ∀ (t0 t1 : String) (s : F64) (v : ℚ), fields out = [t0, t1] →
      lib.parseFloat t0 = some s →
      binary64.round (F32.mul s (F32.fin 1000000000)) = F32.fin v →
      -9223372036854775808 ≤ truncRat v → truncRat v ≤ 9223372036854775807 →
      getUptime lib (.ok out) stats = ({ stats with Uptime := truncRat v }, none) := by
    intro t0 t1 s v hf hp hv hlo hhi
    have g0 : [t0, t1].getD 0 "" = t0 := rfl
    have hlen : [t0, t1].length = 2 := rfl
    simp only [getUptime, hf, hlen, if_true, g0, hp, hv, FloatLib.toInt64, hlo, hhi,
      and_self]
  refine ⟨key, fun t0 t1 q hf hp h1 h2 => ?_, fun t0 t1 hf hp => ?_, fun hlen => ?_⟩
  · obtain ⟨r, lo, hi, acc⟩ := uptime_product h1 h2
    have hm : F32.mul (F32.fin q) (F32.fin 1000000000) = F32.fin (q * 1000000000) := rfl
    rw [key t0 t1 (F32.fin q) _ hf hp (hm ▸ r) lo hi]
    exact acc
  · have g0 : [t0, t1].getD 0 "" = t0 := rfl
    have hlen : [t0, t1].length = 2 := rfl
    simp only [getUptime, hf, hlen, if_true, g0, hp]
  · simp only [getUptime, hlen, if_false]

/-- C14 amended, at a concrete input: `12345.67 8901.23` gives 12345670000000, the
nanoseconds of 12345.67 s; `0.3 1` gives 300000000; a single token changes nothing. -/
theorem getUptime_two_tokens_witness :
    fields "12345.67 8901.23" = ["12345.67", "8901.23"] ∧
    decimalFloat.parseFloat "12345.67" = some (F32.fin (6787103858842665 / 549755813888)) ∧
    binary64.round (F32.mul (F32.fin (6787103858842665 / 549755813888))
      (F32.fin 1000000000)) = F32.fin 12345670000000 ∧
    getUptime decimalFloat (.ok "12345.67 8901.23") {} =
      ({ Uptime := 12345670000000 }, none) ∧
    (getUptime decimalFloat (.ok "0.3 1") {}).1.Uptime = 300000000 ∧
    ((fields "12345.67").length ≠ 2 ∧
      getUptime decimalFloat (.ok "12345.67") {} = ({}, none)) :=
  ⟨by decide, by decide!, by decide!,
    (getUptime_two_tokens decimalFloat "12345.67 8901.23" {}).1 "12345.67" "8901.23"
      (F32.fin (6787103858842665 / 549755813888)) 12345670000000 (by decide) (by decide!)
      (by decide!) (by decide!) (by decide!),
    by decide!,
    by decide, (getUptime_two_tokens decimalFloat "12345.67" {}).2.2.2 (by decide)⟩

/-! ## The interface map -/

lemma mapGet_mapSet_self : ∀ (m : NetMap) (k : String) (v : NetIntfInfo),
    mapGet (mapSet m k v) k = some v
  | [], k, v => by simp [mapSet, mapGet]
  | (k', v') :: rest, k, v => by
      by_cases h : k' = k
      · simp [mapSet, mapGet, h]
      · simp [mapSet, mapGet, h, mapGet_mapSet_self rest k v]

lemma mapGet_mapSet_of_ne : ∀ (m : NetMap) (k : String) (v : NetIntfInfo) (k₂ : String),
    k₂ ≠ k → mapGet (mapSet m k v) k₂ = mapGet m k₂
  | [], k, v, k₂, hne => by simp [mapSet, mapGet, Ne.symm hne]
  | (k', v') :: rest, k, v, k₂, hne => by
      by_cases h : k' = k
      · subst h
        simp [mapSet, mapGet, Ne.symm hne]
      · by_cases h2 : k' = k₂
        · subst h2
          simp [mapSet, mapGet, h]
        · simp [mapSet, mapGet, h, h2, mapGet_mapSet_of_ne rest k v k₂ hne]

lemma mapKeys_mapSet_of_mem : ∀ (m : NetMap) (k : String) (v info : NetIntfInfo),
    mapGet m k = some info → mapKeys (mapSet m k v) = mapKeys m
  | [], k, v, info, h => by simp [mapGet] at h
  | (k', v') :: rest, k, v, info, h => by
      by_cases hk : k' = k
      · simp [mapSet, mapKeys, hk]
      · have h' : mapGet rest k = some info := by simpa [mapGet, hk] using h
        have ih := mapKeys_mapSet_of_mem rest k v info h'
        simp only [mapKeys] at ih
        simp [mapSet, mapKeys, hk, ih]

/-! ## `getInterfaces`: one line -/

/-- C15: in one iteration of the loop of `getInterfaces`, a line with at least 4 tokens
whose token 2 is `inet` (resp. `inet6`) sets the IPv4 (resp. IPv6) field of the entry
named by token 1 to token 3 verbatim, starting from a zero entry when there is none;
the entry's other address slot, its `Rx` and `Tx`, and every other entry are unchanged;
a line of any other shape leaves the map unchanged. The iteration is what the last
scanned line of an output does to the map left by the lines before it. -/
theorem getInterfaces_line (m : NetMap) (line : String) :
    (∀ (t0 t1 t3 : String) (rest : List String), fields line = t0 :: t1 :: "inet" :: t3 :: rest →
      mapGet (intfStep m line) t1 = some { (mapGet m t1).getD {} with IPv4 := t3 } ∧
      ∀ k, k ≠ t1 → mapGet (intfStep m line) k = mapGet m k) ∧
    (∀ (t0 t1 t3 : String) (rest : List String), fields line = t0 :: t1 :: "inet6" :: t3 :: rest →
      mapGet (intfStep m line) t1 = some { (mapGet m t1).getD {} with IPv6 := t3 } ∧
      ∀ k, k ≠ t1 → mapGet (intfStep m line) k = mapGet m k) ∧
    (¬ (4 ≤ (fields line).length ∧
        ((fields line).getD 2 "" = "inet" ∨ (fields line).getD 2 "" = "inet6")) →
      intfStep m line = m) ∧
    (∀ (out outPre : String) (stats : Stats), scanLines out = scanLines outPre ++ [line] →
      (parseInterfaces out stats).NetIntf =
        (parseInterfaces outPre stats).NetIntf.map (fun m' => intfStep m' line)) := by
  refine ⟨fun t0 t1 t3 rest hf => ?_, fun t0 t1 t3 rest hf => ?_, fun h => ?_,
    fun out outPre stats hl => ?_⟩
  · have g1 : (t0 :: t1 :: "inet" :: t3 :: rest).getD 1 "" = t1 := rfl
    have g2 : (t0 :: t1 :: "inet" :: t3 :: rest).getD 2 "" = "inet" := rfl
    have g3 : (t0 :: t1 :: "inet" :: t3 :: rest).getD 3 "" = t3 := rfl
    have hl : 4 ≤ (t0 :: t1 :: "inet" :: t3 :: rest).length := by simp
    unfold intfStep
    simp only [hf, g1, g2, g3, hl, true_or, and_self, if_true]
    cases hg : mapGet m t1 with
    | none =>
        exact ⟨by simp [mapGet_mapSet_self], fun k hk => mapGet_mapSet_of_ne _ _ _ _ hk⟩
    | some info =>
        exact ⟨by simp [mapGet_mapSet_self], fun k hk => mapGet_mapSet_of_ne _ _ _ _ hk⟩
  · have g1 : (t0 :: t1 :: "inet6" :: t3 :: rest).getD 1 "" = t1 := rfl
    have g2 : (t0 :: t1 :: "inet6" :: t3 :: rest).getD 2 "" = "inet6" := rfl
    have g3 : (t0 :: t1 :: "inet6" :: t3 :: rest).getD 3 "" = t3 := rfl
    have hl : 4 ≤ (t0 :: t1 :: "inet6" :: t3 :: rest).length := by simp
    have hne : ¬ ("inet6" = "inet") := by decide
    unfold intfStep
    simp only [hf, g1, g2, g3, hl, or_true, and_self, if_true, hne, if_false]
    cases hg : mapGet m t1 with
    | none =>
        exact ⟨by simp [mapGet_mapSet_self], fun k hk => mapGet_mapSet_of_ne _ _ _ _ hk⟩
    | some info =>
        exact ⟨by simp [mapGet_mapSet_self], fun k hk => mapGet_mapSet_of_ne _ _ _ _ hk⟩
  · unfold intfStep
    simp only [h, if_false]
  · simp [parseInterfaces, hl, List.foldl_append]

/-- C15 at a concrete input: an `inet6` line for the known interface `eth0` fills its IPv6
slot and keeps its IPv4, `Rx` and `Tx`; an `inet` line for `wlan0` creates the entry. -/
theorem getInterfaces_line_witness :
    fields "2: eth0    inet6 fe80::1/64 scope link" =
      "2:" :: "eth0" :: "inet6" :: "fe80::1/64" :: ["scope", "link"] ∧
    mapGet (intfStep netOne "2: eth0    inet6 fe80::1/64 scope link") "eth0" =
      some { IPv4 := "10.0.0.1/24", IPv6 := "fe80::1/64", Rx := 5, Tx := 6 } ∧
    fields "3: wlan0 inet 192.168.1.2/24 scope global" =
      "3:" :: "wlan0" :: "inet" :: "192.168.1.2/24" :: ["scope", "global"] ∧
    mapGet (intfStep netOne "3: wlan0 inet 192.168.1.2/24 scope global") "wlan0" =
      some { IPv4 := "192.168.1.2/24" } ∧
    mapGet (intfStep netOne "3: wlan0 inet 192.168.1.2/24 scope global") "eth0" =
      mapGet netOne "eth0" :=
  ⟨by decide,
    ((getInterfaces_line netOne "2: eth0    inet6 fe80::1/64 scope link").2.1 "2:" "eth0"
      "fe80::1/64" ["scope", "link"] (by decide)).1.trans (by decide),
    by decide,
    ((getInterfaces_line netOne "3: wlan0 inet 192.168.1.2/24 scope global").1 "3:" "wlan0"
      "192.168.1.2/24" ["scope", "global"] (by decide)).1.trans (by decide),
    ((getInterfaces_line netOne "3: wlan0 inet 192.168.1.2/24 scope global").1 "3:" "wlan0"
      "192.168.1.2/24" ["scope", "global"] (by decide)).2 "eth0" (by decide)⟩

/-! ## `getInterfaceInfo` -/

lemma infoStep_keys (m : NetMap) (line : String) : mapKeys (infoStep m line) = mapKeys m := by
  unfold infoStep
  simp only
  split_ifs with h17
  · cases hg : mapGet m (counterName (fields line)) with
    | none => rfl
    | some info =>
        cases parseUint ((fields line).getD 1 "") with
        | none => rfl
        | some rx =>
            cases parseUint ((fields line).getD 9 "") with
            | none => rfl
            | some tx => exact mapKeys_mapSet_of_mem _ _ _ _ hg
  · rfl

lemma infoStep_other (m : NetMap) (line : String) (name : String)
    (h : ¬ ((fields line).length = 17 ∧ counterName (fields line) = name)) :
    mapGet (infoStep m line) name = mapGet m name := by
  unfold infoStep
  simp only
  split_ifs with h17
  · have hne : name ≠ counterName (fields line) := fun e => h ⟨h17, e.symm⟩
    cases hg : mapGet m (counterName (fields line)) with
    | none => rfl
    | some info =>
        cases parseUint ((fields line).getD 1 "") with
        | none => rfl
        | some rx =>
            cases parseUint ((fields line).getD 9 "") with
            | none => rfl
            | some tx => exact mapGet_mapSet_of_ne _ _ _ _ hne
  · rfl

lemma infoLoop_keys : ∀ (ls : List String) (m : NetMap),
    mapKeys (ls.foldl infoStep m) = mapKeys m
  | [], _ => rfl
  | l :: ls, m => by
      rw [List.foldl_cons, infoLoop_keys ls _, infoStep_keys]

lemma infoLoop_other (name : String) : ∀ (ls : List String) (m : NetMap),
    (∀ l ∈ ls, ¬ ((fields l).length = 17 ∧ counterName (fields l) = name)) →
    mapGet (ls.foldl infoStep m) name = mapGet m name
  | [], _, _ => rfl
  | l :: ls, m, h => by
      rw [List.foldl_cons,
        infoLoop_other name ls _ (fun l' hl' => h l' (List.mem_cons_of_mem _ hl')),
        infoStep_other m l name (h l (List.mem_cons_self _ _))]

/-- C16: `getInterfaceInfo` never adds or removes an interface. For every command result
and every `Stats`, the interface map is nil after the call exactly when it was nil
before, its keys are the same, and every entry whose name is not the colon-stripped
token 0 of a scanned 17-token line is unchanged. -/
theorem getInterfaceInfo_keeps_keys (r : CmdResult) (stats : Stats) :
    (getInterfaceInfo r stats).1.NetIntf.map mapKeys = stats.NetIntf.map mapKeys ∧
    (∀ (out name : String), r = .ok out →
      (∀ l ∈ scanLines out, ¬ ((fields l).length = 17 ∧ counterName (fields l) = name)) →
      (getInterfaceInfo r stats).1.NetIntf.map (fun m => mapGet m name) =
        stats.NetIntf.map (fun m => mapGet m name)) ∧
    (∀ e : String, r = .error e → (getInterfaceInfo r stats).1 = stats) := by
  refine ⟨?_, fun out name hr hl => ?_, fun e hr => ?_⟩
  · cases r with
    | error e => rfl
    | ok out =>
        unfold getInterfaceInfo
        cases hm : stats.NetIntf with
        | none => simp [hm]
        | some m => simp [infoLoop_keys]
  · subst hr
    unfold getInterfaceInfo
    cases hm : stats.NetIntf with
    | none => simp [hm]
    | some m => simp [infoLoop_other name _ m hl]
  · subst hr
    rfl

/-- C16 at a concrete input: a listing with `lo` and `eth0` on a map that knows `eth0` only
keeps the single key `eth0`, and the lookup of `lo` stays empty. -/
theorem getInterfaceInfo_keeps_keys_witness :
    (getInterfaceInfo (.ok devListing) statsNet).1.NetIntf.map mapKeys = some ["eth0"] ∧
    (∀ l ∈ scanLines devListing,
      ¬ ((fields l).length = 17 ∧ counterName (fields l) = "wlan0")) ∧
    (getInterfaceInfo (.ok devListing) statsNet).1.NetIntf.map (fun m => mapGet m "wlan0") =
      statsNet.NetIntf.map (fun m => mapGet m "wlan0") :=
  ⟨(getInterfaceInfo_keeps_keys (.ok devListing) statsNet).1.trans (by decide), by decide,
    (getInterfaceInfo_keeps_keys (.ok devListing) statsNet).2.1 devListing "wlan0" rfl
      (by decide)⟩


lemma infoStep_self (m : NetMap) (line : String) (info : NetIntfInfo)
    (h17 : (fields line).length = 17)
    (hinfo : mapGet m (counterName (fields line)) = some info) :
    mapGet (infoStep m line) (counterName (fields line)) =
      match parseUint ((fields line).getD 1 ""), parseUint ((fields line).getD 9 "") with
      | some rx, some tx => some { info with Rx := rx, Tx := tx }
      | _, _ => some info := by
  unfold infoStep
  simp only [h17, if_true, hinfo]
  cases parseUint ((fields line).getD 1 "") with
  | none => exact hinfo
  | some rx =>
      cases parseUint ((fields line).getD 9 "") with
      | none => exact hinfo
      | some tx => exact mapGet_mapSet_self _ _ _

/-- C17: when exactly one scanned 17-token line has, as its colon-stripped token 0, the
name of an interface already in the map, `getInterfaceInfo` sets that entry's `Rx` to
token 1 and `Tx` to token 9 and keeps its IPv4 and IPv6 if both tokens parse as unsigned
integers, and leaves the entry entirely unchanged if either does not. -/
theorem getInterfaceInfo_sets_counters (out : String) (stats : Stats) (m : NetMap)
    (pre post : List String) (l : String) (info : NetIntfInfo)
    (hm : stats.NetIntf = some m)
    (hlines : scanLines out = pre ++ l :: post)
    (h17 : (fields l).length = 17)
    (hinfo : mapGet m (counterName (fields l)) = some info)
    (huniq : ∀ l' ∈ pre ++ post,
      ¬ ((fields l').length = 17 ∧ counterName (fields l') = counterName (fields l))) :
    (getInterfaceInfo (.ok out) stats).1.NetIntf.bind
        (fun m' => mapGet m' (counterName (fields l))) =
      match parseUint ((fields l).getD 1 ""), parseUint ((fields l).getD 9 "") with
      | some rx, some tx =>
          some { IPv4 := info.IPv4, IPv6 := info.IPv6, Rx := rx, Tx := tx }
      | _, _ => some info := by
  have hpre : mapGet (pre.foldl infoStep m) (counterName (fields l)) = some info := by
    rw [infoLoop_other _ pre m (fun l' hl' => huniq l' (List.mem_append_left _ hl'))]
    exact hinfo
  simp only [getInterfaceInfo, hm, hlines, List.foldl_append, List.foldl_cons,
    Option.some_bind]
  rw [infoLoop_other _ post _ (fun l' hl' => huniq l' (List.mem_append_right _ hl')),
    infoStep_self _ l info h17 hpre]

/-- C17 at a concrete input: in the listing with `lo` and `eth0`, the entry of `eth0` gets
100 received and 200 transmitted bytes and keeps its address; with a transmit column
that does not parse the entry keeps its old counters. -/
theorem getInterfaceInfo_sets_counters_witness :
    scanLines devListing =
      ["face |bytes packets", "lo: 7 1 0 0 0 0 0 0 7 1 0 0 0 0 0 0"] ++ devEth0 :: [] ∧
    counterName (fields devEth0) = "eth0" ∧
    (getInterfaceInfo (.ok devListing) statsNet).1.NetIntf.bind
        (fun m' => mapGet m' "eth0") =
      some { IPv4 := "10.0.0.1/24", IPv6 := "", Rx := 100, Tx := 200 } ∧
    (getInterfaceInfo (.ok "eth0: 100 1 0 0 0 0 0 0 x 2 0 0 0 0 0 0") statsNet).1.NetIntf.bind
        (fun m' => mapGet m' "eth0") =
      some { IPv4 := "10.0.0.1/24", IPv6 := "", Rx := 5, Tx := 6 } :=
  ⟨by decide, by decide,
    (getInterfaceInfo_sets_counters devListing statsNet netOne
      ["face |bytes packets", "lo: 7 1 0 0 0 0 0 0 7 1 0 0 0 0 0 0"] [] devEth0
      { IPv4 := "10.0.0.1/24", Rx := 5, Tx := 6 } rfl (by decide) (by decide) (by decide)
      (by decide)).trans (by decide),
    (getInterfaceInfo_sets_counters "eth0: 100 1 0 0 0 0 0 0 x 2 0 0 0 0 0 0" statsNet netOne
      [] [] "eth0: 100 1 0 0 0 0 0 0 x 2 0 0 0 0 0 0"
      { IPv4 := "10.0.0.1/24", Rx := 5, Tx := 6 } rfl (by decide) (by decide) (by decide)
      (by decide)).trans (by decide)⟩

/-! ## `getInterfaces`: the choice of the command -/

/-- C18: for every command runner, `getInterfaces` parses the output of `/bin/ip -o addr`
when that command succeeds, and then runs no other command; it parses the output of
`/sbin/ip -o addr` when the first command fails and the second succeeds; it returns an
error exactly when both commands fail, and then `Stats` is unchanged. -/
theorem getInterfaces_fallback (run : String → CmdResult) (stats : Stats) :
    (∀ out, run "/bin/ip -o addr" = .ok out →
      getInterfaces run stats = (parseInterfaces out stats, none, ["/bin/ip -o addr"])) ∧
    (∀ e out, run "/bin/ip -o addr" = .error e → run "/sbin/ip -o addr" = .ok out →
      getInterfaces run stats =
        (parseInterfaces out stats, none, ["/bin/ip -o addr", "/sbin/ip -o addr"])) ∧
    ((getInterfaces run stats).2.1 ≠ none ↔
      ((∃ e, run "/bin/ip -o addr" = .error e) ∧ ∃ e, run "/sbin/ip -o addr" = .error e)) ∧
    ((getInterfaces run stats).2.1 ≠ none → (getInterfaces run stats).1 = stats) := by
  refine ⟨fun out h => ?_, fun e out h1 h2 => ?_, ?_, ?_⟩
  · simp only [getInterfaces, h]
  · simp only [getInterfaces, h1, h2]
  · unfold getInterfaces
    cases h1 : run "/bin/ip -o addr" with
    | ok out => simp
    | error e1 =>
        cases h2 : run "/sbin/ip -o addr" with
        | ok out => simp
        | error e2 => simp
  · unfold getInterfaces
    cases h1 : run "/bin/ip -o addr" with
    | ok out => simp
    | error e1 =>
        cases h2 : run "/sbin/ip -o addr" with
        | ok out => simp
        | error e2 => simp

/-- C18 at a concrete input: on a host where only `/sbin/ip` works, both commands are run
and the listing of `/sbin/ip` is parsed. -/
theorem getInterfaces_fallback_witness :
    runSbinOnly "/bin/ip -o addr" = .error "Process exited with status 127" ∧
    runSbinOnly "/sbin/ip -o addr" = .ok ipListing ∧
    getInterfaces runSbinOnly {} =
      (parseInterfaces ipListing {}, none, ["/bin/ip -o addr", "/sbin/ip -o addr"]) ∧
    (parseInterfaces ipListing {}).NetIntf =
      some [("eth0", { IPv4 := "10.0.0.1/24", IPv6 := "fe80::1/64" })] :=
  ⟨by rfl, by rfl,
    (getInterfaces_fallback runSbinOnly {}).2.1 "Process exited with status 127" ipListing
      (by rfl) (by rfl),
    by decide⟩

/-! ## `getSshEntry` -/

lemma hostGet_mem : ∀ (h : HostMap) (k : String) (v : Section),
    hostGet h k = some v → (k, v) ∈ h
  | [], _, _, hg => by simp [hostGet] at hg
  | (k', v') :: rest, k, v, hg => by
      by_cases hk : k' = k
      · simp only [hostGet, hk, if_true, Option.some.injEq] at hg
        simp [hk, hg]
      · simp only [hostGet, hk, if_false] at hg
        exact List.mem_cons_of_mem _ (hostGet_mem rest k v hg)

lemma hostGet_of_mem : ∀ (h : HostMap) (k : String) (v : Section),
    (h.map Prod.fst).Nodup → (k, v) ∈ h → hostGet h k = some v
  | [], _, _, _, hm => by simp at hm
  | (k', v') :: rest, k, v, hn, hm => by
      simp only [List.map_cons, List.nodup_cons] at hn
      rcases List.mem_cons.mp hm with e | hm'
      · simp only [Prod.mk.injEq] at e
        simp [hostGet, e.1, e.2]
      · have hk : k' ≠ k := by
          intro e
          apply hn.1
          rw [e]
          exact List.mem_map_of_mem Prod.fst hm'
        simp only [hostGet, hk, if_false]
        exact hostGet_of_mem rest k v hn.2 hm'

lemma hostGet_perm {h₁ h₂ : HostMap} (hp : h₁.Perm h₂) (hn : (h₁.map Prod.fst).Nodup)
    (k : String) : hostGet h₁ k = hostGet h₂ k := by
  have hn₂ : (h₂.map Prod.fst).Nodup := (hp.map Prod.fst).nodup_iff.mp hn
  cases hg : hostGet h₁ k with
  | some v => exact (hostGet_of_mem h₂ k v hn₂ (hp.subset (hostGet_mem h₁ k v hg))).symm
  | none =>
      cases hg₂ : hostGet h₂ k with
      | none => rfl
      | some v =>
          have := hostGet_of_mem h₁ k v hn (hp.symm.subset (hostGet_mem h₂ k v hg₂))
          rw [hg] at this
          exact this

lemma firstMatch_some (pm : String → String → Bool) (name : String) :
    ∀ (h : HostMap) (s : Section), firstMatch pm name h = some s →
      ∃ k, (k, s) ∈ h ∧ pm k name = true
  | [], _, hf => by simp [firstMatch] at hf
  | (k', s') :: rest, s, hf => by
      by_cases hk : pm k' name = true
      · simp only [firstMatch, hk, if_true, Option.some.injEq] at hf
        exact ⟨k', by simp [hf], hk⟩
      · simp only [firstMatch, hk] at hf
        obtain ⟨k, hm, hp⟩ := firstMatch_some pm name rest s hf
        exact ⟨k, List.mem_cons_of_mem _ hm, hp⟩

lemma firstMatch_none (pm : String → String → Bool) (name : String) :
    ∀ (h : HostMap), firstMatch pm name h = none → ∀ a ∈ h, ¬ pm a.1 name = true
  | [], _, a, ha => by simp at ha
  | (k', s') :: rest, hf, a, ha => by
      by_cases hk : pm k' name = true
      · simp [firstMatch, hk] at hf
      · simp only [firstMatch, hk] at hf
        rcases List.mem_cons.mp ha with e | ha'
        · rw [e]; exact hk
        · exact firstMatch_none pm name rest hf a ha'

lemma firstMatch_perm (pm : String → String → Bool) (name : String) {h₁ h₂ : HostMap}
    (hp : h₁.Perm h₂)
    (hone : ∀ a ∈ h₁, ∀ b ∈ h₁, pm a.1 name = true → pm b.1 name = true → a = b) :
    firstMatch pm name h₁ = firstMatch pm name h₂ := by
  cases hf₁ : firstMatch pm name h₁ with
  | none =>
      cases hf₂ : firstMatch pm name h₂ with
      | none => rfl
      | some s =>
          obtain ⟨k, hm, hk⟩ := firstMatch_some pm name h₂ s hf₂
          exact absurd hk (firstMatch_none pm name h₁ hf₁ (k, s) (hp.symm.subset hm))
  | some s =>
      obtain ⟨k, hm, hk⟩ := firstMatch_some pm name h₁ s hf₁
      cases hf₂ : firstMatch pm name h₂ with
      | none => exact absurd hk (firstMatch_none pm name h₂ hf₂ (k, s) (hp.subset hm))
      | some s₂ =>
          obtain ⟨k₂, hm₂, hk₂⟩ := firstMatch_some pm name h₂ s₂ hf₂
          have e := hone (k, s) hm (k₂, s₂) (hp.symm.subset hm₂) hk hk₂
          simp only [Prod.mk.injEq] at e
          rw [e.2]

/-- C20, as stated, fails: the name `web1` has no exact entry and matches both `*` and
`web*`; the section enumerated first wins, so the same two sections give user `root`
and no host when `*` comes first, and host `web.internal` with user `deploy` when
`web*` comes first. -/
theorem getSshEntry_depends_on_order :
    hostsStarFirst.reverse.Perm hostsStarFirst ∧
    hostGet hostsStarFirst "web1" = none ∧
    pathMatch "*" "web1" = true ∧ pathMatch "web*" "web1" = true ∧
    getSshEntry pathMatch hostsStarFirst "web1" = ("", 0, "root", "") ∧
    getSshEntry pathMatch hostsStarFirst.reverse "web1" = ("web.internal", 0, "deploy", "") :=
  ⟨List.reverse_perm _, by decide, by decide, by decide, by decide, by decide⟩

/-- C20, amended (an exact entry, or at most one section whose key matches): for every
matcher, every host name and every two enumerations of the same sections (with distinct
keys), `getSshEntry` returns the same host, port, user and key file when the name has
an exact entry or when at most one section has a key that matches the name. -/
theorem getSshEntry_order_independent (pm : String → String → Bool) (h₁ h₂ : HostMap)
    (name : String) (hperm : h₁.Perm h₂) (hnodup : (h₁.map Prod.fst).Nodup)
    (hone : hostGet h₁ name ≠ none ∨
      ∀ a ∈ h₁, ∀ b ∈ h₁, pm a.1 name = true → pm b.1 name = true → a = b) :
    getSshEntry pm h₁ name = getSshEntry pm h₂ name := by
  unfold getSshEntry
  rw [← hostGet_perm hperm hnodup "*", ← hostGet_perm hperm hnodup name]
  rcases hone with hex | hone
  · cases hg : hostGet h₁ name with
    | none => exact absurd hg hex
    | some s => rfl
  · rw [firstMatch_perm pm name hperm hone]

/-- C20 amended, at a concrete input: `db1` has an exact entry among the sections `*`,
`web*` and `db1`, and both enumerations give the same answer. -/
theorem getSshEntry_order_independent_witness :
    hostsThree.Perm hostsThree.reverse ∧
    (hostsThree.map Prod.fst).Nodup ∧
    hostGet hostsThree "db1" ≠ none ∧
    getSshEntry pathMatch hostsThree "db1" = getSshEntry pathMatch hostsThree.reverse "db1" ∧
    getSshEntry pathMatch hostsThree "db1" = ("db.internal", 2222, "root", "") :=
  ⟨(List.reverse_perm _).symm, by decide, by decide,
    getSshEntry_order_independent pathMatch hostsThree hostsThree.reverse "db1"
      (List.reverse_perm _).symm (by decide) (Or.inl (by decide)),
    by decide⟩

/-! ## `getAllStats`: each probe writes its own fields from its own fields -/

lemma getUptime_local (lib : FloatLib) (r : CmdResult) (s t : Stats)
    (h : s.Uptime = t.Uptime) :
    (getUptime lib r s).1 = { s with Uptime := (getUptime lib r t).1.Uptime } := by
  cases r with
  | error e => simp only [getUptime]; rw [← h]
  | ok out =>
      simp only [getUptime]
      split_ifs
      · cases lib.parseFloat ((fields out).getD 0 "") with
        | none => simp only; rw [← h]
        | some v => rfl
      · simp only; rw [← h]

lemma getHostname_local (r : CmdResult) (s t : Stats) (h : s.Hostname = t.Hostname) :
    (getHostname r s).1 = { s with Hostname := (getHostname r t).1.Hostname } := by
  cases r with
  | error e => simp only [getHostname]; rw [← h]
  | ok out => rfl

lemma getLoad_local (r : CmdResult) (s t : Stats)
    (h1 : s.Load1 = t.Load1) (h5 : s.Load5 = t.Load5) (h10 : s.Load10 = t.Load10)
    (hr : s.RunningProcs = t.RunningProcs) (ht : s.TotalProcs = t.TotalProcs) :
    (getLoad r s).1 =
      { s with Load1 := (getLoad r t).1.Load1, Load5 := (getLoad r t).1.Load5,
               Load10 := (getLoad r t).1.Load10,
               RunningProcs := (getLoad r t).1.RunningProcs,
               TotalProcs := (getLoad r t).1.TotalProcs } := by
  cases r with
  | error e => simp only [getLoad]; rw [← h1, ← h5, ← h10, ← hr, ← ht]
  | ok out =>
      simp only [getLoad]
      split_ifs
      · cases cutSlash ((fields out).getD 3 "") with
        | none => simp only; rw [← hr, ← ht]
        | some ba =>
            obtain ⟨b, a⟩ := ba
            simp only
            split_ifs
            · simp only; rw [← ht]
            · rfl
      · simp only; rw [← h1, ← h5, ← h10, ← hr, ← ht]


lemma memStep_memOf (s t : Stats) (l : String) :
    memStep (s.memOf t) l = s.memOf (memStep t l) := by
  unfold memStep
  simp only
  split_ifs <;> first
    | rfl
    | (cases parseUint ((fields l).getD 1 "") with
       | none => rfl
       | some v => rfl)

lemma memLoop_memOf : ∀ (ls : List String) (s t : Stats),
    memLoop (s.memOf t) ls = s.memOf (memLoop t ls)
  | [], _, _ => rfl
  | l :: ls, s, t => by
      rw [memLoop_cons, memLoop_cons, memStep_memOf, memLoop_memOf ls]

lemma getMemInfo_local (r : CmdResult) (s t : Stats)
    (h1 : s.MemTotal = t.MemTotal) (h2 : s.MemFree = t.MemFree)
    (h3 : s.MemBuffers = t.MemBuffers) (h4 : s.MemCached = t.MemCached)
    (h5 : s.SwapTotal = t.SwapTotal) (h6 : s.SwapFree = t.SwapFree) :
    (getMemInfo r s).1 = s.memOf (getMemInfo r t).1 := by
  have hs : s = s.memOf t := by
    unfold Stats.memOf
    rw [← h1, ← h2, ← h3, ← h4, ← h5, ← h6]
  cases r with
  | error e => exact hs
  | ok out =>
      simp only [getMemInfo]
      rw [← memLoop_memOf, ← hs]

lemma getFSInfo_local (r : CmdResult) (s t : Stats) (h : s.FSInfos = t.FSInfos) :
    (getFSInfo r s).1 = { s with FSInfos := (getFSInfo r t).1.FSInfos } := by
  cases r with
  | error e => simp only [getFSInfo]; rw [← h]
  | ok out => simp only [getFSInfo]; rw [h]

lemma getInterfaces_local (run : String → CmdResult) (s t : Stats)
    (h : s.NetIntf = t.NetIntf) :
    (getInterfaces run s).1 = { s with NetIntf := (getInterfaces run t).1.NetIntf } := by
  unfold getInterfaces
  cases run "/bin/ip -o addr" with
  | ok out => simp only [parseInterfaces]; rw [h]
  | error e1 =>
      cases run "/sbin/ip -o addr" with
      | ok out => simp only [parseInterfaces]; rw [h]
      | error e2 => simp only; rw [← h]

lemma getInterfaceInfo_local (r : CmdResult) (s t : Stats) (h : s.NetIntf = t.NetIntf) :
    (getInterfaceInfo r s).1 = { s with NetIntf := (getInterfaceInfo r t).1.NetIntf } := by
  cases r with
  | error e => simp only [getInterfaceInfo]; rw [← h]
  | ok out =>
      cases s with
      | mk u hn l1 l5 l10 rp tp mt mf mb mc st sf fs ni cpu =>
          simp only at h
          subst h
          cases hn' : t.NetIntf with
          | none => simp only [getInterfaceInfo, hn']
          | some m => simp only [getInterfaceInfo, hn']

lemma getCPU_local (r : CmdResult) (pre : cpuRaw) (s t : Stats) (h : s.CPU = t.CPU) :
    (getCPU r { preCPU := pre, stats := s }).1.stats =
      { s with CPU := (getCPU r { preCPU := pre, stats := t }).1.stats.CPU } := by
  cases r with
  | error e => simp only [getCPU]; rw [← h]
  | ok out =>
      simp only [getCPU]
      split_ifs
      · simp only; rw [← h]
      · simp only; rw [h]

lemma getInterfaces_congr (run run' : String → CmdResult) (s : Stats)
    (h1 : run' "/bin/ip -o addr" = run "/bin/ip -o addr")
    (h2 : run' "/sbin/ip -o addr" = run "/sbin/ip -o addr") :
    getInterfaces run' s = getInterfaces run s := by
  unfold getInterfaces
  rw [h1, h2]


/-- Every field of the result of `getAllStats` is the field left by its own probe run on
the starting state; the interface map is left by the two interface probes in turn. -/
lemma getAllStats_stats (lib : FloatLib) (run : String → CmdResult) (p : Proc) :
    (getAllStats lib run p).stats =
      { Uptime := (getUptime lib (run "/bin/cat /proc/uptime") p.stats).1.Uptime
        Hostname := (getHostname (run "/bin/hostname -f") p.stats).1.Hostname
        Load1 := (getLoad (run "/bin/cat /proc/loadavg") p.stats).1.Load1
        Load5 := (getLoad (run "/bin/cat /proc/loadavg") p.stats).1.Load5
        Load10 := (getLoad (run "/bin/cat /proc/loadavg") p.stats).1.Load10
        RunningProcs := (getLoad (run "/bin/cat /proc/loadavg") p.stats).1.RunningProcs
        TotalProcs := (getLoad (run "/bin/cat /proc/loadavg") p.stats).1.TotalProcs
        MemTotal := (getMemInfo (run "/bin/cat /proc/meminfo") p.stats).1.MemTotal
        MemFree := (getMemInfo (run "/bin/cat /proc/meminfo") p.stats).1.MemFree
        MemBuffers := (getMemInfo (run "/bin/cat /proc/meminfo") p.stats).1.MemBuffers
        MemCached := (getMemInfo (run "/bin/cat /proc/meminfo") p.stats).1.MemCached
        SwapTotal := (getMemInfo (run "/bin/cat /proc/meminfo") p.stats).1.SwapTotal
        SwapFree := (getMemInfo (run "/bin/cat /proc/meminfo") p.stats).1.SwapFree
        FSInfos := (getFSInfo (run "/bin/df -B1") p.stats).1.FSInfos
        NetIntf :=
          (getInterfaceInfo (run "/bin/cat /proc/net/dev")
            (getInterfaces run p.stats).1).1.NetIntf
        CPU := (getCPU (run "/bin/cat /proc/stat") p).1.stats.CPU } := by
  unfold getAllStats
  simp only
  rw [getUptime_local lib _ p.stats p.stats rfl]
  rw [getHostname_local (t := p.stats)]
  rw [getLoad_local (t := p.stats)]
  rw [getMemInfo_local (t := p.stats)]
  rw [getFSInfo_local (t := p.stats)]
  rw [getInterfaces_local (t := p.stats)]
  rw [getInterfaceInfo_local (t := (getInterfaces run p.stats).1)]
  rw [getCPU_local (t := p.stats)]
  all_goals rfl


lemma failing_of_not_mem (run : String → CmdResult) (cmds : List String) (e c : String)
    (h : c ∉ cmds) : failing run cmds e c = run c := by
  simp [failing, h]

lemma failing_of_mem (run : String → CmdResult) (cmds : List String) (e c : String)
    (h : c ∈ cmds) : failing run cmds e c = .error e := by
  simp [failing, h]

/-- C19, as stated, fails. When the address probe fails on a fresh `Stats`, the interface
map stays nil, so the byte counters of the counters probe, which did not fail, are lost
as well (100 and 200 for `eth0` in the run without failure). And a failing probe leaves
its fields as they were, which is not their zero value when the starting `Stats` is not
fresh: the host name stays `old`. -/
theorem getAllStats_address_failure_drops_counters :
    (getAllStats decimalFloat runAll {}).stats.NetIntf =
      some [("eth0", { IPv4 := "10.0.0.1/24", IPv6 := "fe80::1/64", Rx := 100, Tx := 200 })] ∧
    (getAllStats decimalFloat
      (failing runAll ["/bin/ip -o addr", "/sbin/ip -o addr"] "exit status 127") {}).stats.NetIntf =
      none ∧
    (getAllStats decimalFloat (failing runAll ["/bin/hostname -f"] "exit status 127")
      procOldHost).stats.Hostname = "old" := by
  decide!


/-- C19, amended (a failing probe leaves its fields as in the starting state; the interface
map is shared by the two interface probes). For every command runner, the run in which
the command of one probe fails gives the `Stats` of the run without that failure except
for the fields of the failing probe, which keep the values of the starting state (the
zero values when it is fresh); no failure stops the later probes. For the interface
map: when both address commands fail it is the starting map updated by the counters
probe alone (still nil on a fresh `Stats`, so the counters are dropped), and when the
counters command fails it is the map left by the address probe. -/
theorem getAllStats_partial_failure (lib : FloatLib) (run : String → CmdResult) (p : Proc)
    (e : String) :
    (getAllStats lib (failing run ["/bin/cat /proc/uptime"] e) p).stats =
      { (getAllStats lib run p).stats with Uptime := p.stats.Uptime } ∧
    (getAllStats lib (failing run ["/bin/hostname -f"] e) p).stats =
      { (getAllStats lib run p).stats with Hostname := p.stats.Hostname } ∧
    (getAllStats lib (failing run ["/bin/cat /proc/loadavg"] e) p).stats =
      { (getAllStats lib run p).stats with
        Load1 := p.stats.Load1, Load5 := p.stats.Load5, Load10 := p.stats.Load10,
        RunningProcs := p.stats.RunningProcs, TotalProcs := p.stats.TotalProcs } ∧
    (getAllStats lib (failing run ["/bin/cat /proc/meminfo"] e) p).stats =
      { (getAllStats lib run p).stats with
        MemTotal := p.stats.MemTotal, MemFree := p.stats.MemFree,
        MemBuffers := p.stats.MemBuffers, MemCached := p.stats.MemCached,
        SwapTotal := p.stats.SwapTotal, SwapFree := p.stats.SwapFree } ∧
    (getAllStats lib (failing run ["/bin/df -B1"] e) p).stats =
      { (getAllStats lib run p).stats with FSInfos := p.stats.FSInfos } ∧
    (getAllStats lib (failing run ["/bin/ip -o addr", "/sbin/ip -o addr"] e) p).stats =
      { (getAllStats lib run p).stats with
        NetIntf := (getInterfaceInfo (run "/bin/cat /proc/net/dev") p.stats).1.NetIntf } ∧
    (p.stats.NetIntf = none →
      (getAllStats lib (failing run ["/bin/ip -o addr", "/sbin/ip -o addr"] e)
        p).stats.NetIntf = none) ∧
    (getAllStats lib (failing run ["/bin/cat /proc/net/dev"] e) p).stats =
      { (getAllStats lib run p).stats with
        NetIntf := (getInterfaces run p.stats).1.NetIntf } ∧
    (getAllStats lib (failing run ["/bin/cat /proc/stat"] e) p).stats =
      { (getAllStats lib run p).stats with CPU := p.stats.CPU } := by
  have hbin : ∀ c : String, c ≠ "/bin/ip -o addr" → c ≠ "/sbin/ip -o addr" →
      getInterfaces (failing run [c] e) p.stats = getInterfaces run p.stats := by
    intro c h1 h2
    apply getInterfaces_congr
    · exact failing_of_not_mem _ _ _ _ (by simpa using Ne.symm h1)
    · exact failing_of_not_mem _ _ _ _ (by simpa using Ne.symm h2)
  have hfail : (getInterfaces (failing run ["/bin/ip -o addr", "/sbin/ip -o addr"] e)
      p.stats).1 = p.stats := by
    simp [getInterfaces, failing]
  have hnil : p.stats.NetIntf = none →
      (getInterfaceInfo (run "/bin/cat /proc/net/dev") p.stats).1.NetIntf = none := by
    intro h
    cases run "/bin/cat /proc/net/dev" with
    | error e' => exact h
    | ok out => simp [getInterfaceInfo, h]
  refine ⟨?_, ?_, ?_, ?_, ?_, ?_, ?_, ?_, ?_⟩
  · rw [getAllStats_stats, getAllStats_stats, hbin _ (by decide) (by decide)]
    simp [failing, getUptime]
  · rw [getAllStats_stats, getAllStats_stats, hbin _ (by decide) (by decide)]
    simp [failing, getHostname]
  · rw [getAllStats_stats, getAllStats_stats, hbin _ (by decide) (by decide)]
    simp [failing, getLoad]
  · rw [getAllStats_stats, getAllStats_stats, hbin _ (by decide) (by decide)]
    simp [failing, getMemInfo]
  · rw [getAllStats_stats, getAllStats_stats, hbin _ (by decide) (by decide)]
    simp [failing, getFSInfo]
  · rw [getAllStats_stats, getAllStats_stats, hfail]
    simp [failing]
  · intro h
    rw [getAllStats_stats, hfail]
    simpa [failing] using hnil h
  · rw [getAllStats_stats, getAllStats_stats, hbin _ (by decide) (by decide)]
    simp [failing, getInterfaceInfo]
  · rw [getAllStats_stats, getAllStats_stats, hbin _ (by decide) (by decide)]
    simp [failing, getCPU]


/-- C19 amended, at a concrete input: on a fresh process, a failing disk-free listing only
empties the filesystem list, and failing address commands leave the interface map nil. -/
theorem getAllStats_partial_failure_witness :
    ({} : Proc).stats.NetIntf = none ∧
    (getAllStats decimalFloat
      (failing runAll ["/bin/ip -o addr", "/sbin/ip -o addr"] "exit status 127")
      {}).stats.NetIntf = none ∧
    (getAllStats decimalFloat (failing runAll ["/bin/df -B1"] "exit status 127") {}).stats =
      { (getAllStats decimalFloat runAll {}).stats with FSInfos := [] } ∧
    (getAllStats decimalFloat runAll {}).stats.FSInfos =
      [⟨"/", 40, 60⟩, ⟨"/mnt", 50, 150⟩, ⟨"/mnt", 10, 290⟩] :=
  ⟨rfl,
    (getAllStats_partial_failure decimalFloat runAll {} "exit status 127").2.2.2.2.2.2.1 rfl,
    (getAllStats_partial_failure decimalFloat runAll {} "exit status 127").2.2.2.2.1,
    by decide!⟩

end Rtop
